import Mathlib

/-!
# Route selection engine of `turboroute` (qubic-realtime)

A shallow embedding of the route catalog (`memory_catalog.go`), the route
cache (`memory_cache.go`) and the routing service (`service.go`), together
with the statements proved about them.

Conventions of the embedding

* `int64` and `time.Duration` values are `Int`s (nanoseconds for a duration);
  `int` lengths are `Nat`s.
* `float64` values are modelled by `F64`, IEEE-754 binary64 with
  round-to-nearest-even, every operation rounded on its own (the behaviour of
  the Go compiler on amd64, which does not fuse multiply and add).
* `time.Now()` is a reading taken from the world the service runs in: the
  world holds the successive readings of the clock and counts those taken. A
  `time.Time` is a number of nanoseconds since the zero `time.Time`.
* A Go string is a sequence of bytes: it is modelled by the `String` that has
  one character for each byte.
* A call that panics is modelled where the wired adapters can panic: in
  `ExecuteTransfer` (a slice bound out of range) and in `UpdateMetrics` (an
  integer division by zero).
* `sort.Slice` is a parameter of the service, constrained by what package
  `sort` documents of it (`SortContract`); `insertionSort_func` is the
  routine it runs on a short slice.
* The ports are records of functions on the state of the world behind them;
  a run of `FindRoute` also reports the calls it made on the ports.
* The goroutine `cleanup` of the cache is modelled by the passes of its loop
  (`MemoryCache.cleanup`), each with its own reading of the clock.
* The mutexes and the log statements are left out.
-/

set_option exponentiation.threshold 5000

namespace Turboroute

/-! ## IEEE-754 binary64 -/

/-- A `float64`. A finite value is a sign and a magnitude counted in units of
`2^-1074` (the smallest positive subnormal), so that every finite binary64
value has exactly one representation; `fin true 0` is the negative zero. -/
inductive F64 where
  | nan : F64
  | inf (neg : Bool) : F64
  | fin (neg : Bool) (mag : Nat) : F64
deriving DecidableEq, Repr

namespace F64

/-- Number of units of `2^-1074` in `1.0`. -/
def one : Nat := 2 ^ 1074

/-- First magnitude (in units) that is too large for a finite binary64:
`2^1024`, in units. -/
def huge : Nat := 2 ^ 2098

/-- Bit length of `n`, by structural recursion on the fuel. -/
def bitLenAux : Nat → Nat → Nat
  | 0, _ => 0
  | f + 1, n => if n = 0 then 0 else bitLenAux f (n / 2) + 1

/-- Bit length of `n`: the least `k` with `n < 2^k`. -/
def bitLen (n : Nat) : Nat := bitLenAux n n

/-- Nearest integer to `n / d`, ties to the even integer. -/
def rne (n d : Nat) : Nat :=
  let q := n / d
  let r := n % d
  if 2 * r < d then q
  else if d < 2 * r then q + 1
  else if q % 2 = 0 then q else q + 1

/-- Spacing (in units) of the binary64 values around a magnitude whose
integer part is `a`: one unit up to `2^53`, then doubling with every bit. -/
def quantum (a : Nat) : Nat := 2 ^ (bitLen a - 53)

/-- The magnitude `n / d` (in units) rounded to the nearest binary64
magnitude, ties to even. -/
def roundMag (n d : Nat) : Nat :=
  let q := quantum (n / d)
  rne n (d * q) * q

/-- The value `(-1)^neg * n / d` (in units) rounded to binary64; a result
beyond the largest finite value overflows to an infinity. -/
def round (neg : Bool) (n d : Nat) : F64 :=
  let m := roundMag n d
  if m < huge then fin neg m else inf neg

/-- The signed integer number of units of a finite value. -/
def signed (neg : Bool) (mag : Nat) : Int :=
  if neg then -(mag : Int) else (mag : Int)

/-- Conversion `float64(z)` of an integer. -/
def ofInt (z : Int) : F64 := round (decide (z < 0)) (z.natAbs * one) 1

/-- The float64 nearest to the decimal constant `n / d`. -/
def ofRatio (n d : Nat) : F64 := round false (n * one) d

/-- Negation `-x`. -/
def neg : F64 → F64
  | nan => nan
  | inf s => inf (!s)
  | fin s m => fin (!s) m

/-- Addition `x + y`. -/
def add : F64 → F64 → F64
  | nan, _ => nan
  | _, nan => nan
  | inf s, inf t => if s = t then inf s else nan
  | inf s, fin _ _ => inf s
  | fin _ _, inf t => inf t
  | fin s m, fin t k =>
    let z := signed s m + signed t k
    if z = 0 then fin (s && t) 0 else round (decide (z < 0)) z.natAbs 1

/-- Subtraction `x - y`. -/
def sub (x y : F64) : F64 := add x (neg y)

/-- Multiplication `x * y`. -/
def mul : F64 → F64 → F64
  | nan, _ => nan
  | _, nan => nan
  | inf s, inf t => inf (xor s t)
  | inf s, fin t k => if k = 0 then nan else inf (xor s t)
  | fin s m, inf t => if m = 0 then nan else inf (xor s t)
  | fin s m, fin t k => round (xor s t) (m * k) one

/-- Division `x / y`. -/
def div : F64 → F64 → F64
  | nan, _ => nan
  | _, nan => nan
  | inf _, inf _ => nan
  | inf s, fin t _ => inf (xor s t)
  | fin s _, inf t => fin (xor s t) 0
  | fin s m, fin t k =>
    if k = 0 then (if m = 0 then nan else inf (xor s t))
    else round (xor s t) (m * one) k

/-- Comparison `x < y`; false as soon as an operand is a NaN. -/
def lt : F64 → F64 → Bool
  | nan, _ => false
  | _, nan => false
  | inf s, inf t => s && !t
  | inf s, fin _ _ => s
  | fin _ _, inf t => !t
  | fin s m, fin t k => decide (signed s m < signed t k)

/-- Comparison `x > y`. -/
def gt (x y : F64) : Bool := lt y x

/-- Comparison `x <= y`; false as soon as an operand is a NaN. -/
def le : F64 → F64 → Bool
  | nan, _ => false
  | _, nan => false
  | inf s, inf t => s || !t
  | inf s, fin _ _ => s
  | fin _ _, inf t => !t
  | fin s m, fin t k => decide (signed s m ≤ signed t k)

/-- Comparison `x >= y`. -/
def ge (x y : F64) : Bool := le y x

/-- Whether the value is a NaN. -/
def isNaN : F64 → Bool
  | nan => true
  | _ => false

/-- Decimal digits of `n`, at least `width` of them (zero padded). -/
def digits (width n : Nat) : String :=
  let s := toString n
  String.mk (List.replicate (width - s.length) '0') ++ s

/-- Rendering by the verb `%.2f` of `fmt.Sprintf`: the exact value rounded
to two decimals, ties to even. -/
def fmt2 : F64 → String
  | nan => "NaN"
  | inf s => if s then "-Inf" else "+Inf"
  | fin s m =>
    let c := rne (m * 100) one
    (if s then "-" else "") ++ toString (c / 100) ++ "." ++ digits 2 (c % 100)

end F64

/-! ## Data model (`models.go`) -/

/-- Type `RoutePreferences`. -/
structure RoutePreferences where
  Priority : String
  MaxFee : Int
  TimeoutMs : Int
  MinHops : Int
  MaxHops : Int
deriving DecidableEq, Repr

/-- Type `PaymentIntent`. -/
structure PaymentIntent where
  From : String
  To : String
  Amount : Int
  Preferences : RoutePreferences
  Metadata : List (String × String)
deriving DecidableEq, Repr

/-- Type `RouteOption`; `EstimatedTime` is a `time.Duration` in nanoseconds. -/
structure RouteOption where
  RouteID : String
  Hops : List String
  EstimatedFee : Int
  EstimatedTime : Int
  SuccessRate : F64
  Score : F64
  RouteType : String
deriving DecidableEq, Repr

/-- Type `RouteDecision`; `Timestamp` is a clock reading in nanoseconds. -/
structure RouteDecision where
  SelectedRoute : RouteOption
  Reason : String
  Alternatives : List RouteOption
  Timestamp : Int
deriving DecidableEq, Repr

/-- Error values: the package's `Common errors`, and any other error a port
may return. -/
inductive Err where
  | ErrNoRoutesFound
  | ErrRouteNotAvailable
  | ErrPaymentFailed
  | ErrInsufficientFunds
  | ErrTimeoutExceeded
  | ErrFeeExceedsMax
  | other (msg : String)
deriving DecidableEq, Repr

/-- Method `Error` of an error: its message. -/
def Err.Error : Err → String
  | Err.ErrNoRoutesFound => "no routes found"
  | Err.ErrRouteNotAvailable => "route not available"
  | Err.ErrPaymentFailed => "payment execution failed"
  | Err.ErrInsufficientFunds => "insufficient funds"
  | Err.ErrTimeoutExceeded => "timeout exceeded"
  | Err.ErrFeeExceedsMax => "fee exceeds maximum"
  | Err.other msg => msg

/-- Type `PaymentExecution`; `CompletedAt` is a pointer, `none` when nil. -/
structure PaymentExecution where
  ExecutionID : String
  Intent : PaymentIntent
  Route : RouteOption
  TxHash : String
  Status : String
  ActualFee : Int
  ActualTime : Int
  ExecutedAt : Int
  CompletedAt : Option Int
  Error : String
deriving DecidableEq, Repr

/-- Type `RouteMetrics`. -/
structure RouteMetrics where
  RouteID : String
  Success : Bool
  ActualFee : Int
  ActualTime : Int
  ExecutedAt : Int
deriving DecidableEq, Repr

/-- The value an `int64` operation leaves when its exact result is `z`: `z`
wrapped around into the range from `-2^63` to `2^63 - 1`. -/
def wrap64 (z : Int) : Int := (z + 2 ^ 63) % 2 ^ 64 - 2 ^ 63

/-- Method `Duration.Milliseconds` of package `time`: the duration as a
whole number of milliseconds, truncated toward zero. -/
def Milliseconds (d : Int) : Int := Int.tdiv d 1000000

/-- Constant `5 * time.Minute`, in nanoseconds. -/
def fiveMinutes : Int := 5 * 60 * 1000000000

/-- Map key `from + "->" + to` shared by the catalog and the cache. -/
def pairKey (src dst : String) : String := src ++ "->" ++ dst

/-! ## Route catalog (`memory_catalog.go`) -/

/-- Type `MemoryCatalog`: the map from a pair key to the routes registered
for it (the mutex is left out). -/
structure MemoryCatalog where
  routes : String → Option (List RouteOption)

namespace MemoryCatalog

/-- The route `ListRoutes` makes up for a pair with no registered route. -/
def directRoute (src dst : String) : RouteOption :=
  { RouteID := "direct", Hops := [src, dst], EstimatedFee := 2,
    EstimatedTime := 150000000, SuccessRate := F64.ofRatio 99 100,
    Score := F64.fin false 0, RouteType := "direct" }

/-- Method `ListRoutes`; its error is always nil. -/
def ListRoutes (c : MemoryCatalog) (src dst : String) : List RouteOption :=
  match c.routes (pairKey src dst) with
  | some routes => routes
  | none => [directRoute src dst]

/-- Method `ScoreRoute`. -/
def ScoreRoute (_c : MemoryCatalog) (r : RouteOption) (prefs : RoutePreferences) : F64 :=
  let score := F64.ofInt 100
  let score :=
    if prefs.Priority = "speed" then
      F64.sub score (F64.div (F64.ofInt (Milliseconds r.EstimatedTime)) (F64.ofInt 10))
    else if prefs.Priority = "cost" then
      F64.sub score (F64.mul (F64.ofInt r.EstimatedFee) (F64.ofInt 2))
    else if prefs.Priority = "privacy" then
      F64.add score (F64.mul (F64.ofInt r.Hops.length) (F64.ofInt 5))
    else
      F64.add score (F64.mul r.SuccessRate (F64.ofInt 50))
  F64.add score (F64.mul r.SuccessRate (F64.ofInt 20))

/-- Append `r` to the routes stored under `key`. -/
def appendRoute (c : MemoryCatalog) (key : String) (r : RouteOption) : MemoryCatalog :=
  { routes := fun k => if k = key then some ((c.routes key).getD [] ++ [r]) else c.routes k }

/-- Method `RegisterRoute`: the new catalog and the error. -/
def RegisterRoute (c : MemoryCatalog) (r : RouteOption) : MemoryCatalog × Option Err :=
  if r.Hops.length < 2 then (c, some Err.ErrNoRoutesFound)
  else (appendRoute c (pairKey (r.Hops.headD "") (r.Hops.getLastD "")) r, none)

/-- The two routes of `addDefaultRoutes`. -/
def defaultRoutes : List RouteOption :=
  [ { RouteID := "direct", Hops := ["WALLET_A", "WALLET_B"], EstimatedFee := 2,
      EstimatedTime := 150000000, SuccessRate := F64.ofRatio 99 100,
      Score := F64.fin false 0, RouteType := "direct" },
    { RouteID := "fast_lane", Hops := ["WALLET_A", "WALLET_B"], EstimatedFee := 5,
      EstimatedTime := 50000000, SuccessRate := F64.ofRatio 995 1000,
      Score := F64.fin false 0, RouteType := "direct" } ]

/-- Method `addDefaultRoutes`. -/
def addDefaultRoutes (c : MemoryCatalog) : MemoryCatalog :=
  defaultRoutes.foldl
    (fun c r => appendRoute c (pairKey (r.Hops.headD "") (r.Hops.getLastD "")) r) c

/-- Function `NewMemoryCatalog`. -/
def NewMemoryCatalog : MemoryCatalog := addDefaultRoutes { routes := fun _ => none }

end MemoryCatalog

/-! ## Route cache (`memory_cache.go`) -/

/-- Type `RouteHealth`; the two times are clock readings. -/
structure RouteHealth where
  RouteID : String
  IsActive : Bool
  SuccessRate : F64
  AverageFee : Int
  AverageTime : Int
  TotalExecutions : Int
  LastExecuted : Int
  LastUpdated : Int
deriving DecidableEq, Repr

/-- Type `cachedRoute`; `route` is a pointer, `none` when nil. -/
structure cachedRoute where
  route : Option RouteOption
  expiresAt : Int
deriving DecidableEq, Repr

/-- Type `MemoryCache`: the two maps (the mutex is left out). -/
structure MemoryCache where
  routes : String → Option cachedRoute
  health : String → Option RouteHealth

namespace MemoryCache

/-- Function `NewMemoryCache`, without the cleanup goroutine it starts. -/
def NewMemoryCache : MemoryCache := { routes := fun _ => none, health := fun _ => none }

/-- Method `GetHealth`, `now` being the reading of `time.Now()` it takes when
the route has no entry: the pointer and the (nil) error it returns. -/
def GetHealth (c : MemoryCache) (now : Int) (routeID : String) :
    Option RouteHealth × Option Err :=
  match c.health routeID with
  | some health => (some health, none)
  | none =>
    (some { RouteID := routeID, IsActive := true, SuccessRate := F64.ofRatio 99 100,
            AverageFee := 2, AverageTime := 150, TotalExecutions := 0,
            LastExecuted := 0, LastUpdated := now }, none)

/-- A run of `UpdateMetrics`: the cache it leaves, whether it panicked, and
the number of readings of the clock it took. -/
structure Updated where
  cache : MemoryCache
  panicked : Bool
  readings : Nat

/-- The cache with `health` as the entry of a route. -/
def setHealth (c : MemoryCache) (routeID : String) (health : RouteHealth) : MemoryCache :=
  { c with health := fun k => if k = routeID then some health else c.health k }

/-- Method `UpdateMetrics`, `now i` being its reading number `i` of
`time.Now()`. The entry is updated in place, so a panic (an `int64` division
by zero) leaves the assignments made before it. -/
def UpdateMetrics (c : MemoryCache) (now : Nat → Int) (metrics : RouteMetrics) : Updated :=
  let found := c.health metrics.RouteID
  let k := if found.isSome then 0 else 2
  let health := found.getD
    { RouteID := metrics.RouteID, IsActive := true, SuccessRate := F64.ofRatio 99 100,
      AverageFee := 0, AverageTime := 0, TotalExecutions := 0,
      LastExecuted := now 0, LastUpdated := now 1 }
  let n := wrap64 (health.TotalExecutions + 1)
  if metrics.Success then
    let health := { health with
      TotalExecutions := n,
      SuccessRate := F64.div
        (F64.add (F64.mul health.SuccessRate (F64.ofInt (wrap64 (n - 1)))) (F64.ofInt 1))
        (F64.ofInt n) }
    if metrics.ActualFee > 0 ∧ n = 0 then
      { cache := setHealth c metrics.RouteID health, panicked := true, readings := k }
    else
      let health :=
        if metrics.ActualFee > 0 then
          { health with AverageFee := wrap64 (Int.tdiv
              (wrap64 (wrap64 (health.AverageFee * wrap64 (n - 1)) + metrics.ActualFee)) n) }
        else health
      if metrics.ActualTime > 0 ∧ n = 0 then
        { cache := setHealth c metrics.RouteID health, panicked := true, readings := k }
      else
        let health :=
          if metrics.ActualTime > 0 then
            { health with AverageTime := wrap64 (Int.tdiv
                (wrap64 (wrap64 (health.AverageTime * wrap64 (n - 1)) +
                  Milliseconds metrics.ActualTime)) n) }
          else health
        { cache := setHealth c metrics.RouteID
            { health with LastExecuted := metrics.ExecutedAt, LastUpdated := now k },
          panicked := false, readings := k + 1 }
  else
    let health := { health with
      TotalExecutions := n,
      SuccessRate := F64.div (F64.mul health.SuccessRate (F64.ofInt (wrap64 (n - 1))))
        (F64.ofInt n) }
    { cache := setHealth c metrics.RouteID
        { health with LastExecuted := metrics.ExecutedAt, LastUpdated := now k },
      panicked := false, readings := k + 1 }

/-- Method `GetCachedRoute`, `now` being its reading of `time.Now()`: the
pointer and the error it returns. -/
def GetCachedRoute (c : MemoryCache) (now : Int) (src dst : String) :
    Option RouteOption × Option Err :=
  match c.routes (pairKey src dst) with
  | some cached =>
    if now < cached.expiresAt then (cached.route, none)
    else (none, some Err.ErrNoRoutesFound)
  | none => (none, some Err.ErrNoRoutesFound)

/-- Method `CacheRoute`, `now` being its reading of `time.Now()`: the new
cache and the (nil) error. -/
def CacheRoute (c : MemoryCache) (now : Int) (src dst : String) (r : Option RouteOption) :
    MemoryCache × Option Err :=
  ({ c with routes := fun k =>
      if k = pairKey src dst then some { route := r, expiresAt := now + fiveMinutes }
      else c.routes k }, none)

end MemoryCache

/-! ## Mock payment backend (`mock_client.go`) -/

namespace MockPaymentClient

/-- Method `ExecuteTransfer`: the hash; `none` when it panics, on a slice
bound out of range in `from[:8]` or `to[:8]`. Its error is always nil. -/
def ExecuteTransfer (src dst : String) (amount : Int) : Option String :=
  if src.length < 8 ∨ dst.length < 8 then none
  else some ("0x" ++ src.take 8 ++ dst.take 8 ++ toString amount)

/-- Method `GetTransactionStatus`; its error is always nil. -/
def GetTransactionStatus (_txHash : String) : String := "confirmed"

/-- Method `EstimateFee`; its error is always nil. -/
def EstimateFee (_src _dst : String) (amount : Int) : Int :=
  if amount > 10000 then wrap64 (2 + Int.tdiv amount 10000) else 2

/-- Method `GetBalance`; its error is always nil. -/
def GetBalance (_wallet : String) : Int := 1000000

end MockPaymentClient

/-! ## Ports (`ports.go`) and the library routines the service calls -/

/-- Interface `QubicPaymentPort`, over the state `ω` of the world behind the
ports, as far as the service uses it. `ExecuteTransfer` returns a hash and
an error, or `none` when it panics. -/
structure QubicPaymentPort (ω : Type) where
  ExecuteTransfer : String → String → Int → ω → Option (String × Option Err) × ω
  GetBalance : String → ω → (Int × Option Err) × ω


/-- Interface `RouteCatalogPort`, over the state `ω` of the world behind the
ports, as far as the service uses it. `ListRoutes` returns a slice and an
error. A Go slice is a reference: `writeBack src dst l` says what the
elements `l` that the service writes into the slice it got from
`ListRoutes src dst` do to the world. -/
structure RouteCatalogPort (ω : Type) where
  ListRoutes : String → String → ω → (List RouteOption × Option Err) × ω
  ScoreRoute : ω → RouteOption → RoutePreferences → F64
  writeBack : String → String → List RouteOption → ω → ω

/-- Interface `RouteHealthPort`. `GetHealth` and `GetCachedRoute` return a
pointer (`none` when nil) and an error; `UpdateMetrics` returns an error, or
`none` when it panics. -/
structure RouteHealthPort (ω : Type) where
  GetHealth : String → ω → (Option RouteHealth × Option Err) × ω
  UpdateMetrics : RouteMetrics → ω → Option (Option Err) × ω
  GetCachedRoute : String → String → ω → (Option RouteOption × Option Err) × ω
  CacheRoute : String → String → RouteOption → ω → Option Err × ω

/-- Type `Service`. -/
structure Service (ω : Type) where
  paymentPort : QubicPaymentPort ω
  catalogPort : RouteCatalogPort ω
  healthPort : RouteHealthPort ω

/-- The type of `sort.Slice` on a slice of routes: the comparison `less` on
elements, the slice before and the slice after. -/
abbrev SliceSort := (RouteOption → RouteOption → Bool) → List RouteOption → List RouteOption

/-- The library routines the service calls: `time.Now`, `sort.Slice`, and
`rand.Read` of package `crypto/rand`, which gives the bytes for a slice of
the given length. -/
structure Runtime (ω : Type) where
  Now : ω → Int × ω
  sortSlice : SliceSort
  Read : Nat → ω → List Nat × ω

/-- The requirement of package `sort` on `less`, for the elements of `l`: a
strict weak ordering (irreflexive, transitive, and transitive when false). -/
def StrictWeakOn (less : RouteOption → RouteOption → Bool) (l : List RouteOption) : Prop :=
  (∀ a ∈ l, less a a = false) ∧
  (∀ a ∈ l, ∀ b ∈ l, ∀ c ∈ l, less a b = true → less b c = true → less a c = true) ∧
  (∀ a ∈ l, ∀ b ∈ l, ∀ c ∈ l, less a b = false → less b c = false → less a c = false)

/-- What package `sort` documents of `sort.Slice`: it permutes the slice, and
when `less` is a strict weak ordering no element is `less` than one before
it. It is not documented to be stable. -/
def SortContract (sortSlice : SliceSort) : Prop :=
  ∀ less l, (sortSlice less l).Perm l ∧
    (StrictWeakOn less l → (sortSlice less l).Pairwise (fun a b => less b a = false))

/-- One pass of the inner loop of `insertionSort_func` of package `sort`: the new
element moves left past every element it is `less` than; `rev` is the sorted
part of the slice, last element first. -/
def insertLeft (less : RouteOption → RouteOption → Bool) (x : RouteOption) :
    List RouteOption → List RouteOption
  | [] => [x]
  | y :: rev => if less x y then y :: insertLeft less x rev else x :: y :: rev

/-- Function `insertionSort_func` of package `sort`, which `sort.Slice` runs
on a short slice (of at most 12 elements since Go 1.19, of fewer than 7
before). -/
def insertionSort_func : SliceSort :=
  fun less l => (l.foldl (fun rev x => insertLeft less x rev) []).reverse

/-- Another routine within the documented contract of `sort.Slice`: it
reverses the slice and then sorts it by insertion. -/
def reversingSort : SliceSort :=
  fun less l => insertionSort_func less l.reverse

/-! ## Routing service (`service.go`) -/

/-- Calls made on the ports, in the order they are made. -/
inductive Call where
  | GetCachedRoute (src dst : String)
  | ListRoutes (src dst : String)
  | ScoreRoute (r : RouteOption) (prefs : RoutePreferences)
  | CacheRoute (src dst : String) (r : RouteOption)
  | GetBalance (wallet : String)
  | ExecuteTransfer (src dst : String) (amount : Int)
  | UpdateMetrics (metrics : RouteMetrics)
deriving DecidableEq, Repr

/-- What `FindRoute` returns: a decision and a nil error, or a nil decision
and an error; `panic` is the run-time panic of an index out of range. -/
inductive FindResult where
  | ok (d : RouteDecision)
  | fail (e : Err)
  | panic
deriving DecidableEq, Repr

/-- The decision in a result, if it holds one. -/
def FindResult.decision? : FindResult → Option RouteDecision
  | FindResult.ok d => some d
  | _ => none

/-- A run of `FindRoute`: what it returns, the world it leaves, and the
calls it made on the ports. -/
structure Outcome (ω : Type) where
  result : FindResult
  world : ω
  calls : List Call

namespace Service

/-- Function `min`. -/
def min (a b : Nat) : Nat := if a < b then a else b

/-- Method `FindRoute`. -/
def FindRoute {ω : Type} (rt : Runtime ω) (s : Service ω) (intent : PaymentIntent) (w : ω) :
    Outcome ω :=
  -- start := time.Now()
  let w := (rt.Now w).2
  let probe := s.healthPort.GetCachedRoute intent.From intent.To w
  let w := probe.2
  let calls := [Call.GetCachedRoute intent.From intent.To]
  match probe.1 with
  | (some cached, none) =>
    let stamp := rt.Now w
    { result := FindResult.ok
        { SelectedRoute := cached, Reason := "cached_route", Alternatives := [],
          Timestamp := stamp.1 },
      world := stamp.2, calls := calls }
  | _ =>
    let listed := s.catalogPort.ListRoutes intent.From intent.To w
    let w := listed.2
    let calls := calls ++ [Call.ListRoutes intent.From intent.To]
    match listed.1 with
    | (_, some err) => { result := FindResult.fail err, world := w, calls := calls }
    | (routes, none) =>
      if routes.length = 0 then
        { result := FindResult.fail Err.ErrNoRoutesFound, world := w, calls := calls }
      else
        let scored := routes.map
          (fun r => { r with Score := s.catalogPort.ScoreRoute w r intent.Preferences })
        let calls := calls ++ routes.map (fun r => Call.ScoreRoute r intent.Preferences)
        let sorted := rt.sortSlice (fun a b => F64.gt a.Score b.Score) scored
        let w := s.catalogPort.writeBack intent.From intent.To sorted w
        match sorted with
        | [] => { result := FindResult.panic, world := w, calls := calls }
        | bestRoute :: _ =>
          if intent.Preferences.MaxFee > 0 ∧
              bestRoute.EstimatedFee > intent.Preferences.MaxFee then
            { result := FindResult.fail Err.ErrFeeExceedsMax, world := w, calls := calls }
          else
            let w := (s.healthPort.CacheRoute intent.From intent.To bestRoute w).2
            let calls := calls ++ [Call.CacheRoute intent.From intent.To bestRoute]
            -- time.Since(start), an argument of the log statement
            let w := (rt.Now w).2
            let stamp := rt.Now w
            { result := FindResult.ok
                { SelectedRoute := bestRoute,
                  Reason := "best_score_" ++ F64.fmt2 bestRoute.Score,
                  Alternatives := (sorted.take (min sorted.length 4)).drop 1,
                  Timestamp := stamp.1 },
              world := stamp.2, calls := calls }

/-- What `ExecutePayment` and `Pay` return: a pointer to an execution
(`none` when nil) and an error (`none` when nil); `panic` when the call
panics. -/
inductive PayResult where
  | returned (execution : Option PaymentExecution) (err : Option Err)
  | panic
deriving DecidableEq, Repr

/-- A run of `ExecutePayment` or `Pay`: what it returns, the world it
leaves, and the calls it made on the ports. -/
structure PayOutcome (ω : Type) where
  result : PayResult
  world : ω
  calls : List Call

/-- The two lower-case hexadecimal digits of a byte. -/
def hexByte (b : Nat) : String :=
  String.mk [(Nat.toDigits 16 (b % 256 / 16)).headD '0', (Nat.toDigits 16 (b % 16)).headD '0']

/-- Function `hex.EncodeToString` of package `encoding/hex`. -/
def hexEncodeToString (bytes : List Nat) : String :=
  String.join (bytes.map hexByte)

/-- Function `generateExecutionID`. -/
def generateExecutionID {ω : Type} (rt : Runtime ω) (w : ω) : String × ω :=
  let bytes := rt.Read 16 w
  (hexEncodeToString bytes.1, bytes.2)

/-- Method `ExecutePayment`. -/
def ExecutePayment {ω : Type} (rt : Runtime ω) (s : Service ω) (intent : PaymentIntent)
    (route : RouteOption) (w : ω) : PayOutcome ω :=
  let start := rt.Now w
  let executionID := generateExecutionID rt start.2
  let balance := s.paymentPort.GetBalance intent.From executionID.2
  let w := balance.2
  let calls := [Call.GetBalance intent.From]
  match balance.1.2 with
  | some err => { result := PayResult.returned none (some err), world := w, calls := calls }
  | none =>
    if balance.1.1 < wrap64 (intent.Amount + route.EstimatedFee) then
      { result := PayResult.returned none (some Err.ErrInsufficientFunds),
        world := w, calls := calls }
    else
      let transfer := s.paymentPort.ExecuteTransfer intent.From intent.To intent.Amount w
      let w := transfer.2
      let calls := calls ++ [Call.ExecuteTransfer intent.From intent.To intent.Amount]
      match transfer.1 with
      | none => { result := PayResult.panic, world := w, calls := calls }
      | some (_, some err) =>
        let executedAt := rt.Now w
        let metrics : RouteMetrics :=
          { RouteID := route.RouteID, Success := false, ActualFee := 0, ActualTime := 0,
            ExecutedAt := executedAt.1 }
        let updated := s.healthPort.UpdateMetrics metrics executedAt.2
        let calls := calls ++ [Call.UpdateMetrics metrics]
        match updated.1 with
        | none => { result := PayResult.panic, world := updated.2, calls := calls }
        | some _ =>
          let stamp := rt.Now updated.2
          { result := PayResult.returned
              (some { ExecutionID := executionID.1, Intent := intent, Route := route,
                      TxHash := "", Status := "failed", ActualFee := 0, ActualTime := 0,
                      ExecutedAt := stamp.1, CompletedAt := none, Error := err.Error })
              (some Err.ErrPaymentFailed),
            world := stamp.2, calls := calls }
      | some (txHash, none) =>
        let since := rt.Now w
        let actualTime := since.1 - start.1
        let actualFee := route.EstimatedFee
        let executedAt := rt.Now since.2
        let metrics : RouteMetrics :=
          { RouteID := route.RouteID, Success := true, ActualFee := actualFee,
            ActualTime := actualTime, ExecutedAt := executedAt.1 }
        let updated := s.healthPort.UpdateMetrics metrics executedAt.2
        let calls := calls ++ [Call.UpdateMetrics metrics]
        match updated.1 with
        | none => { result := PayResult.panic, world := updated.2, calls := calls }
        | some _ =>
          let completedAt := rt.Now updated.2
          { result := PayResult.returned
              (some { ExecutionID := executionID.1, Intent := intent, Route := route,
                      TxHash := txHash, Status := "executed", ActualFee := actualFee,
                      ActualTime := actualTime, ExecutedAt := start.1,
                      CompletedAt := some completedAt.1, Error := "" })
              none,
            world := completedAt.2, calls := calls }

/-- Method `Pay`. -/
def Pay {ω : Type} (rt : Runtime ω) (s : Service ω) (intent : PaymentIntent) (w : ω) :
    PayOutcome ω :=
  let found := FindRoute rt s intent w
  match found.result with
  | FindResult.fail err =>
    { result := PayResult.returned none (some err), world := found.world,
      calls := found.calls }
  | FindResult.panic =>
    { result := PayResult.panic, world := found.world, calls := found.calls }
  | FindResult.ok decision =>
    let executed := ExecutePayment rt s intent decision.SelectedRoute found.world
    { result := executed.result, world := executed.world,
      calls := found.calls ++ executed.calls }

end Service

/-! ### The steps of `FindRoute`, named for the statements below -/

/-- The cache probe of `FindRoute`: what `GetCachedRoute` returns, and the
world it leaves. -/
def probed {ω : Type} (rt : Runtime ω) (s : Service ω) (intent : PaymentIntent) (w : ω) :
    (Option RouteOption × Option Err) × ω :=
  s.healthPort.GetCachedRoute intent.From intent.To (rt.Now w).2

/-- The probe is a hit: a non-nil route and a nil error. -/
def isHit : Option RouteOption × Option Err → Bool
  | (some _, none) => true
  | _ => false

/-- The discovery step of `FindRoute` on a miss: what `ListRoutes` returns,
and the world it leaves. -/
def listed {ω : Type} (rt : Runtime ω) (s : Service ω) (intent : PaymentIntent) (w : ω) :
    (List RouteOption × Option Err) × ω :=
  s.catalogPort.ListRoutes intent.From intent.To (probed rt s intent w).2

/-- The score `FindRoute` gives a candidate. -/
def scoreOf {ω : Type} (rt : Runtime ω) (s : Service ω) (intent : PaymentIntent) (w : ω)
    (r : RouteOption) : F64 :=
  s.catalogPort.ScoreRoute (listed rt s intent w).2 r intent.Preferences

/-- The candidates with their scores filled in, in the catalog's order. -/
def scored {ω : Type} (rt : Runtime ω) (s : Service ω) (intent : PaymentIntent) (w : ω) :
    List RouteOption :=
  (listed rt s intent w).1.1.map (fun r => { r with Score := scoreOf rt s intent w r })

/-- The comparison `FindRoute` hands to `sort.Slice`. -/
def byScore (a b : RouteOption) : Bool := F64.gt a.Score b.Score

/-- The ranking: the scored candidates after `sort.Slice`. -/
def ranked {ω : Type} (rt : Runtime ω) (s : Service ω) (intent : PaymentIntent) (w : ω) :
    List RouteOption :=
  rt.sortSlice byScore (scored rt s intent w)

/-! ## The service wired to the in-memory adapters (`main.go`) -/

/-- The world of the in-memory adapters: the catalog, the cache, the clock,
given by its successive readings and the number of readings taken, and the
random source, given by the bytes of its successive reads and the number of
reads made. -/
structure World where
  catalog : MemoryCatalog
  cache : MemoryCache
  clock : Nat → Int
  ticks : Nat
  entropy : Nat → List Nat
  reads : Nat

namespace World

/-- Reading `time.Now()`: the next reading of the clock. -/
def Now (w : World) : Int × World := (w.clock w.ticks, { w with ticks := w.ticks + 1 })

/-- Function `rand.Read` on a slice of length `n`: the next read of the random
source. -/
def Read (n : Nat) (w : World) : List Nat × World :=
  ((w.entropy w.reads).take n, { w with reads := w.reads + 1 })

/-- The runtime with the world clock, the given `sort.Slice` and the world's
random source. -/
def runtime (sortSlice : SliceSort) : Runtime World :=
  { Now := Now, sortSlice := sortSlice, Read := Read }

/-- Adapter `MockPaymentClient` as a payment port. -/
def paymentPort : QubicPaymentPort World :=
  { ExecuteTransfer := fun src dst amount w =>
      ((MockPaymentClient.ExecuteTransfer src dst amount).map (fun txHash => (txHash, none)), w)
    GetBalance := fun wallet w => ((MockPaymentClient.GetBalance wallet, none), w) }

/-- Adapter `MemoryCatalog` as a catalog port. The slice `ListRoutes` returns
for a registered pair is the catalog's own, so what the service writes
into it is written into the catalog; for any other pair it is a fresh slice. -/
def catalogPort : RouteCatalogPort World :=
  { ListRoutes := fun src dst w => ((w.catalog.ListRoutes src dst, none), w)
    ScoreRoute := fun w r prefs => w.catalog.ScoreRoute r prefs
    writeBack := fun src dst l w =>
      match w.catalog.routes (pairKey src dst) with
      | some _ =>
        { w with catalog :=
            { routes := fun k => if k = pairKey src dst then some l else w.catalog.routes k } }
      | none => w }

/-- Adapter `MemoryCache` as a health port. `GetCachedRoute` reads the clock
only when the pair has an entry, `GetHealth` only when the route has none. -/
def healthPort : RouteHealthPort World :=
  { GetHealth := fun routeID w =>
      match w.cache.health routeID with
      | some _ => (w.cache.GetHealth 0 routeID, w)
      | none =>
        let t := w.Now
        (t.2.cache.GetHealth t.1 routeID, t.2)
    UpdateMetrics := fun metrics w =>
      let u := w.cache.UpdateMetrics (fun i => w.clock (w.ticks + i)) metrics
      (if u.panicked then none else some none,
        { w with cache := u.cache, ticks := w.ticks + u.readings })
    GetCachedRoute := fun src dst w =>
      match w.cache.routes (pairKey src dst) with
      | some _ =>
        let t := w.Now
        (t.2.cache.GetCachedRoute t.1 src dst, t.2)
      | none => ((none, some Err.ErrNoRoutesFound), w)
    CacheRoute := fun src dst r w =>
      let t := w.Now
      let c := t.2.cache.CacheRoute t.1 src dst (some r)
      (c.2, { t.2 with cache := c.1 }) }

/-- The service of `main.go`: `NewService` on the in-memory adapters. -/
def service : Service World :=
  { paymentPort := paymentPort, catalogPort := catalogPort, healthPort := healthPort }

/-- The world at start-up: `NewMemoryCatalog`, `NewMemoryCache`, a clock, and
a random source that gives zero bytes. -/
def initial (clock : Nat → Int) : World :=
  { catalog := MemoryCatalog.NewMemoryCatalog, cache := MemoryCache.NewMemoryCache,
    clock := clock, ticks := 0, entropy := fun _ => List.replicate 16 0, reads := 0 }

end World

/-! ## Worlds and requests used as examples -/

/-- A catalog port whose `ListRoutes` returns the given slice and error,
whatever the pair. -/
def stubCatalogPort (routes : List RouteOption) (err : Option Err) : RouteCatalogPort World :=
  { ListRoutes := fun _ _ w => ((routes, err), w)
    ScoreRoute := fun w r prefs => w.catalog.ScoreRoute r prefs
    writeBack := fun _ _ _ w => w }

/-- The service on such a catalog port and the in-memory cache. -/
def stubService (routes : List RouteOption) (err : Option Err) : Service World :=
  { paymentPort := World.paymentPort, catalogPort := stubCatalogPort routes err,
    healthPort := World.healthPort }

/-- A payment of 100 from `src` to `dst` with the given priority and fee
bound. -/
def intentFor (src dst priority : String) (maxFee : Int) : PaymentIntent :=
  { From := src, To := dst, Amount := 100,
    Preferences :=
      { Priority := priority, MaxFee := maxFee, TimeoutMs := 0, MinHops := 0, MaxHops := 0 },
    Metadata := [] }

/-- A direct route from `X` to `Y` with the given identifier and success
rate. -/
def routeXY (id : String) (successRate : F64) : RouteOption :=
  { RouteID := id, Hops := ["X", "Y"], EstimatedFee := 2, EstimatedTime := 150000000,
    SuccessRate := successRate, Score := F64.fin false 0, RouteType := "direct" }

/-- The world at start-up after `RegisterRoute` of the given routes, in
order, with a clock that stands at 0. -/
def worldWith (routes : List RouteOption) : World :=
  { catalog := routes.foldl (fun c r => (c.RegisterRoute r).1) MemoryCatalog.NewMemoryCatalog,
    cache := MemoryCache.NewMemoryCache, clock := fun _ => 0, ticks := 0,
    entropy := fun _ => List.replicate 16 0, reads := 0 }

/-- Three routes from `X` to `Y`, the second with a NaN success rate. -/
def routesWithNaN : List RouteOption :=
  [routeXY "steady" (F64.ofRatio 1 2), routeXY "unknown" F64.nan,
   routeXY "better" (F64.ofRatio 9 10)]

/-- Two routes from `X` to `Y` that differ in their identifier only. -/
def routesTied : List RouteOption :=
  [routeXY "first" (F64.ofRatio 99 100), routeXY "second" (F64.ofRatio 99 100)]

/-- Clock readings for three calls in a row: the first call (a miss on an
empty cache, 4 readings) at time 0, the second (a hit, 3 readings) after 4
minutes, the third after 6 minutes. -/
def threeCallClock (n : Nat) : Int :=
  if n < 4 then 0 else if n < 7 then 4 * 60 * 1000000000 else 6 * 60 * 1000000000

/-! ## Exact values, named for the statements about rounding -/

/-- The signed integer `z` (in units) rounded to a binary64 value, in units. -/
def F64.roundInt (z : Int) : Int := F64.signed (decide (z < 0)) (F64.roundMag z.natAbs 1)

/-- The `float64` whose value is the integer `x`, for an `x` that one exists
for. -/
def F64.exactInt (x : Int) : F64 := F64.fin (decide (x < 0)) (x.natAbs * F64.one)

/-- A direct route from `X` to `Y` with success rate 0.99 and the given fee. -/
def routeWithFee (id : String) (fee : Int) : RouteOption :=
  { routeXY id (F64.ofRatio 99 100) with EstimatedFee := fee }

/-! ## The steps of `ExecutePayment`, named for the statements below -/

/-- The balance query of `ExecutePayment`: what `GetBalance` returns, and the
world it leaves. -/
def balanceOf {ω : Type} (rt : Runtime ω) (s : Service ω) (intent : PaymentIntent) (w : ω) :
    (Int × Option Err) × ω :=
  s.paymentPort.GetBalance intent.From (Service.generateExecutionID rt (rt.Now w).2).2

/-- The balance check of `ExecutePayment` passes: `GetBalance` returns no
error and the balance is not less than the `int64` sum of the amount and the
estimated fee. -/
def balancePasses {ω : Type} (rt : Runtime ω) (s : Service ω) (intent : PaymentIntent)
    (route : RouteOption) (w : ω) : Prop :=
  (balanceOf rt s intent w).1.2 = none ∧
  ¬ (balanceOf rt s intent w).1.1 < wrap64 (intent.Amount + route.EstimatedFee)

/-- The transfer of `ExecutePayment`: what `ExecuteTransfer` returns, and the
world it leaves. -/
def transferred {ω : Type} (rt : Runtime ω) (s : Service ω) (intent : PaymentIntent) (w : ω) :
    Option (String × Option Err) × ω :=
  s.paymentPort.ExecuteTransfer intent.From intent.To intent.Amount (balanceOf rt s intent w).2

/-- The metric `ExecutePayment` records when the transfer fails. -/
def failureMetric {ω : Type} (rt : Runtime ω) (s : Service ω) (intent : PaymentIntent)
    (route : RouteOption) (w : ω) : RouteMetrics :=
  { RouteID := route.RouteID, Success := false, ActualFee := 0, ActualTime := 0,
    ExecutedAt := (rt.Now (transferred rt s intent w).2).1 }

/-- What `UpdateMetrics` returns for that metric, and the world it leaves. -/
def failureUpdate {ω : Type} (rt : Runtime ω) (s : Service ω) (intent : PaymentIntent)
    (route : RouteOption) (w : ω) : Option (Option Err) × ω :=
  s.healthPort.UpdateMetrics (failureMetric rt s intent route w)
    (rt.Now (transferred rt s intent w).2).2

/-- The metric `ExecutePayment` records when the transfer succeeds. -/
def successMetric {ω : Type} (rt : Runtime ω) (s : Service ω) (intent : PaymentIntent)
    (route : RouteOption) (w : ω) : RouteMetrics :=
  { RouteID := route.RouteID, Success := true, ActualFee := route.EstimatedFee,
    ActualTime := (rt.Now (transferred rt s intent w).2).1 - (rt.Now w).1,
    ExecutedAt := (rt.Now (rt.Now (transferred rt s intent w).2).2).1 }

/-- What `UpdateMetrics` returns for that metric, and the world it leaves. -/
def successUpdate {ω : Type} (rt : Runtime ω) (s : Service ω) (intent : PaymentIntent)
    (route : RouteOption) (w : ω) : Option (Option Err) × ω :=
  s.healthPort.UpdateMetrics (successMetric rt s intent route w)
    (rt.Now (rt.Now (transferred rt s intent w).2).2).2

/-- A payment port with a fixed balance and a fixed answer to `GetBalance`
and `ExecuteTransfer`. -/
def stubPaymentPort (balance : Int) (balanceErr : Option Err)
    (transfer : Option (String × Option Err)) : QubicPaymentPort World :=
  { ExecuteTransfer := fun _ _ _ w => (transfer, w)
    GetBalance := fun _ w => ((balance, balanceErr), w) }

/-- The service of `main.go` on such a payment port. -/
def paymentService (balance : Int) (balanceErr : Option Err)
    (transfer : Option (String × Option Err)) : Service World :=
  { paymentPort := stubPaymentPort balance balanceErr transfer,
    catalogPort := World.catalogPort, healthPort := World.healthPort }

/-- A payment of the given amount from `WALLET_A` to `WALLET_B`, priority
`cost`, no fee bound. -/
def paymentOf (amount : Int) : PaymentIntent :=
  { intentFor "WALLET_A" "WALLET_B" "cost" 0 with Amount := amount }

/-- Whether a call is one of those `ExecutePayment` makes on the ports:
`GetBalance`, `ExecuteTransfer` or `UpdateMetrics`. -/
def Call.ofExecutePayment : Call → Bool
  | Call.GetBalance _ => true
  | Call.ExecuteTransfer _ _ _ => true
  | Call.UpdateMetrics _ => true
  | _ => false

/-- The error a backend returns for a transfer that timed out. -/
def backendTimeout : Err := Err.ErrTimeoutExceeded

/-! ## Histories of the cache, named for the statements below -/

/-- A call of `CacheRoute`: the reading of the clock it takes and its
arguments. -/
structure CacheWrite where
  time : Int
  src : String
  dst : String
  route : Option RouteOption

/-- The cache after the given calls of `CacheRoute`, in order. -/
def MemoryCache.CacheAll (c : MemoryCache) (writes : List CacheWrite) : MemoryCache :=
  writes.foldl (fun c x => (c.CacheRoute x.time x.src x.dst x.route).1) c

/-- Whether the separator `->` of the cache keys occurs in an identifier. -/
def hasArrow (s : String) : Prop := "->".data <:+: s.data

/-- The entry `UpdateMetrics` works on: the one of the route, or the one it
creates when the route has none. -/
def MemoryCache.entryFor (c : MemoryCache) (now : Nat → Int) (routeID : String) : RouteHealth :=
  (c.health routeID).getD
    { RouteID := routeID, IsActive := true, SuccessRate := F64.ofRatio 99 100,
      AverageFee := 0, AverageTime := 0, TotalExecutions := 0,
      LastExecuted := now 0, LastUpdated := now 1 }
/-- A cache whose only health entry is the given one, under its route. -/
def cacheWithHealth (h : RouteHealth) : MemoryCache :=
  MemoryCache.NewMemoryCache.setHealth h.RouteID h

/-- A health entry of the route `direct` after `n` executions, with the given
averages and a success rate of 1.0. -/
def healthAfter (n fee ms : Int) : RouteHealth :=
  { RouteID := "direct", IsActive := true, SuccessRate := F64.ofInt 1, AverageFee := fee,
    AverageTime := ms, TotalExecutions := n, LastExecuted := 0, LastUpdated := 0 }

/-- A successful metric of the route `direct` with the given fee and time. -/
def successOf (fee time : Int) : RouteMetrics :=
  { RouteID := "direct", Success := true, ActualFee := fee, ActualTime := time,
    ExecutedAt := 0 }

/-- A failed metric of the route `direct`. -/
def failureOf : RouteMetrics :=
  { RouteID := "direct", Success := false, ActualFee := 0, ActualTime := 0, ExecutedAt := 0 }
/-- The calls `UpdateMetrics(m)` for the metrics of a list, in order, on the
in-memory cache: the world they leave, `none` if one of them panics. -/
def World.UpdateAll : World → List RouteMetrics → Option World
  | w, [] => some w
  | w, m :: ms =>
    match (World.healthPort.UpdateMetrics m w).1 with
    | none => none
    | some _ => World.UpdateAll (World.healthPort.UpdateMetrics m w).2 ms

/-- The sum of the fees of a list of metrics. -/
def totalFee (ms : List RouteMetrics) : Int := (ms.map (fun m => m.ActualFee)).sum

/-- The sum of the times of a list of metrics, each in whole milliseconds. -/
def totalMs (ms : List RouteMetrics) : Int :=
  (ms.map (fun m => Milliseconds m.ActualTime)).sum

/-- Three successes of the route `direct` with fees 1, 2, 3 and times of 1, 2
and 3 milliseconds. -/
def threeSuccesses : List RouteMetrics :=
  [successOf 1 1000000, successOf 2 2000000, successOf 3 3000000]

/-! ## Histories of the catalog, named for the statements below -/

/-- The catalog after the calls `RegisterRoute(r)` for the routes of a list,
in order (a call that fails leaves the catalog as it is). -/
def MemoryCatalog.RegisterAll (c : MemoryCatalog) (rs : List RouteOption) : MemoryCatalog :=
  rs.foldl (fun c r => (c.RegisterRoute r).1) c

/-- The key `RegisterRoute` and `addDefaultRoutes` store a route under: the
one of its first and last hop. -/
def routeKey (r : RouteOption) : String :=
  pairKey (r.Hops.headD "") (r.Hops.getLastD "")

/-- A route with the given hops: fee 2, 150 ms, success rate 0.99. -/
def routeVia (id : String) (hops : List String) : RouteOption :=
  { RouteID := id, Hops := hops, EstimatedFee := 2, EstimatedTime := 150000000,
    SuccessRate := F64.ofRatio 99 100, Score := F64.fin false 0, RouteType := "multi-hop" }
/-- One pass of the loop of method `cleanup` of the cache, `now` being its
reading of `time.Now()`: every entry of the route cache that the reading is
after the `expiresAt` of is deleted. -/
def MemoryCache.cleanup (c : MemoryCache) (now : Int) : MemoryCache :=
  { c with routes := fun key =>
      match c.routes key with
      | some cached => if cached.expiresAt < now then none else some cached
      | none => none }

/-- One pass of the loop of `cleanup` in the world of the in-memory adapters. -/
def World.cleanup (w : World) : World :=
  let t := w.Now
  { t.2 with cache := t.2.cache.cleanup t.1 }

/-- A result without the reading of the clock it carries. -/
def FindResult.untimed : FindResult → FindResult
  | FindResult.ok d => FindResult.ok { d with Timestamp := 0 }
  | r => r

/-- The in-memory health port with a route cache whose reads fail with
`readErr` and whose writes fail with `writeErr`, when these are errors; a
read or a write that fails leaves the world as it is. -/
def faultyHealthPort (readErr writeErr : Option Err) : RouteHealthPort World :=
  { GetHealth := World.healthPort.GetHealth
    UpdateMetrics := World.healthPort.UpdateMetrics
    GetCachedRoute := fun src dst w =>
      match readErr with
      | some e => ((none, some e), w)
      | none => World.healthPort.GetCachedRoute src dst w
    CacheRoute := fun src dst r w =>
      match writeErr with
      | some e => (some e, w)
      | none => World.healthPort.CacheRoute src dst r w }

/-- The service of `main.go` on such a health port. -/
def faultyService (readErr writeErr : Option Err) : Service World :=
  { paymentPort := World.paymentPort, catalogPort := World.catalogPort,
    healthPort := faultyHealthPort readErr writeErr }

/-- The error of a cache store that cannot be reached. -/
def cacheDown : Err := Err.other "cache store unreachable"

/-- The number of calls of `UpdateMetrics` made for a route in a list of
metrics. -/
def callsFor (id : String) (ms : List RouteMetrics) : Nat :=
  ms.countP (fun m => decide (m.RouteID = id))

/-- Every slice stored in the catalog holds a route, and every route in it has
at least 2 hops. -/
def MemoryCatalog.WellFormed (c : MemoryCatalog) : Prop :=
  ∀ (key : String) (l : List RouteOption), c.routes key = some l →
    l ≠ [] ∧ ∀ r ∈ l, 2 ≤ r.Hops.length

/-! ## Facts about the model of `float64` -/

namespace F64

theorem mul_comm (x y : F64) : mul x y = mul y x := by
  cases x <;> cases y <;> simp [mul, Bool.xor_comm, Nat.mul_comm]

theorem lt_irrefl (x : F64) : lt x x = false := by
  cases x <;> simp [lt]

theorem lt_trans {x y z : F64} (h₁ : lt x y = true) (h₂ : lt y z = true) : lt x z = true := by
  cases x <;> cases y <;> cases z <;> simp_all [lt] <;> omega

theorem lt_neg_trans {x y z : F64} (hx : isNaN x = false) (hy : isNaN y = false)
    (hz : isNaN z = false) (h₁ : lt x y = false) (h₂ : lt y z = false) : lt x z = false := by
  cases x <;> cases y <;> cases z <;> simp_all [lt, isNaN] <;> omega

theorem le_of_not_lt {x y : F64} (hx : isNaN x = false) (hy : isNaN y = false)
    (h : lt y x = false) : le x y = true := by
  rcases x with _ | s | ⟨s, m⟩ <;> rcases y with _ | t | ⟨t, k⟩ <;> simp_all [lt, le, isNaN]
  cases s <;> cases t <;> simp_all

end F64

/-! ## Facts about sorting -/

theorem StrictWeakOn.mono {less : RouteOption → RouteOption → Bool} {l l' : List RouteOption}
    (h : StrictWeakOn less l) (hsub : ∀ a ∈ l', a ∈ l) : StrictWeakOn less l' :=
  ⟨fun a ha => h.1 a (hsub a ha),
   fun a ha b hb c hc => h.2.1 a (hsub a ha) b (hsub b hb) c (hsub c hc),
   fun a ha b hb c hc => h.2.2 a (hsub a ha) b (hsub b hb) c (hsub c hc)⟩

theorem insertLeft_perm (less : RouteOption → RouteOption → Bool) (x : RouteOption)
    (rev : List RouteOption) : (insertLeft less x rev).Perm (x :: rev) := by
  induction rev with
  | nil => simp [insertLeft]
  | cons y rev ih =>
    simp only [insertLeft]
    split
    · exact (List.Perm.cons y ih).trans (List.Perm.swap x y rev)
    · exact List.Perm.refl _

theorem insertLeft_sorted {less : RouteOption → RouteOption → Bool} {x : RouteOption}
    {rev : List RouteOption} (hw : StrictWeakOn less (x :: rev))
    (hs : rev.Pairwise (fun a b => less a b = false)) :
    (insertLeft less x rev).Pairwise (fun a b => less a b = false) := by
  induction rev with
  | nil => simp [insertLeft]
  | cons y rev ih =>
    have hx : x ∈ x :: y :: rev := by simp
    have hy : y ∈ x :: y :: rev := by simp
    obtain ⟨hy_rev, hs'⟩ := List.pairwise_cons.mp hs
    simp only [insertLeft]
    split
    · next hxy =>
      have hw' : StrictWeakOn less (x :: rev) :=
        hw.mono (fun a ha => by
          rcases List.mem_cons.mp ha with h | h
          · simp [h]
          · simp [h])
      refine List.pairwise_cons.mpr ⟨?_, ih hw' hs'⟩
      intro z hz
      rcases List.mem_cons.mp ((insertLeft_perm less x rev).subset hz) with h | h
      · subst h
        by_contra hcon
        have hyx : less y z = true := by simpa using hcon
        have := hw.2.1 z hx y hy z hx hxy hyx
        simp [hw.1 z hx] at this
      · exact hy_rev z h
    · next hxy =>
      have hxy' : less x y = false := by simpa using hxy
      refine List.pairwise_cons.mpr ⟨?_, hs⟩
      intro z hz
      rcases List.mem_cons.mp hz with h | h
      · subst h; exact hxy'
      · exact hw.2.2 x hx y hy z (by simp [h]) hxy' (hy_rev z h)

theorem foldl_insertLeft_perm (less : RouteOption → RouteOption → Bool)
    (l acc : List RouteOption) :
    (l.foldl (fun rev x => insertLeft less x rev) acc).Perm (l ++ acc) := by
  induction l generalizing acc with
  | nil => simp
  | cons x l ih =>
    simp only [List.foldl_cons]
    refine (ih _).trans ?_
    refine (List.Perm.append_left l (insertLeft_perm less x acc)).trans ?_
    have hmid : (l ++ x :: acc).Perm (x :: (l ++ acc)) := List.perm_middle
    simpa using hmid

theorem foldl_insertLeft_sorted {less : RouteOption → RouteOption → Bool}
    {l acc : List RouteOption} (hw : StrictWeakOn less (l ++ acc))
    (hs : acc.Pairwise (fun a b => less a b = false)) :
    (l.foldl (fun rev x => insertLeft less x rev) acc).Pairwise
      (fun a b => less a b = false) := by
  induction l generalizing acc with
  | nil => simpa using hs
  | cons x l ih =>
    simp only [List.foldl_cons]
    apply ih
    · refine hw.mono (fun a ha => ?_)
      rcases List.mem_append.mp ha with h | h
      · simp [h]
      · rcases List.mem_cons.mp ((insertLeft_perm less x acc).subset h) with h' | h'
        · simp [h']
        · simp [h']
    · exact insertLeft_sorted (hw.mono (fun a ha => by
        rcases List.mem_cons.mp ha with h | h
        · simp [h]
        · simp [h])) hs

theorem insertionSort_func_contract : SortContract insertionSort_func := by
  intro less l
  constructor
  · unfold insertionSort_func
    refine (List.reverse_perm _).trans ?_
    simpa using foldl_insertLeft_perm less l []
  · intro hw
    unfold insertionSort_func
    rw [List.pairwise_reverse]
    exact foldl_insertLeft_sorted (by simpa using hw) List.Pairwise.nil

theorem reversingSort_contract : SortContract reversingSort := by
  intro less l
  obtain ⟨hp, hs⟩ := insertionSort_func_contract less l.reverse
  refine ⟨hp.trans (List.reverse_perm l), fun hw => hs (hw.mono (fun a ha => ?_))⟩
  simpa using ha

/-! ## The paths of `FindRoute` -/

namespace Service

theorem FindRoute_hit {ω : Type} (rt : Runtime ω) (s : Service ω) (intent : PaymentIntent)
    (w : ω) (cached : RouteOption) (h : (probed rt s intent w).1 = (some cached, none)) :
    FindRoute rt s intent w =
      { result := FindResult.ok
          { SelectedRoute := cached, Reason := "cached_route", Alternatives := [],
            Timestamp := (rt.Now (probed rt s intent w).2).1 },
        world := (rt.Now (probed rt s intent w).2).2,
        calls := [Call.GetCachedRoute intent.From intent.To] } := by
  unfold probed at h
  simp only [FindRoute, probed, h]

theorem FindRoute_listErr {ω : Type} (rt : Runtime ω) (s : Service ω) (intent : PaymentIntent)
    (w : ω) (routes : List RouteOption) (e : Err) (hmiss : isHit (probed rt s intent w).1 = false)
    (h : (listed rt s intent w).1 = (routes, some e)) :
    FindRoute rt s intent w =
      { result := FindResult.fail e, world := (listed rt s intent w).2,
        calls := [Call.GetCachedRoute intent.From intent.To,
                  Call.ListRoutes intent.From intent.To] } := by
  unfold listed probed at h
  unfold probed at hmiss
  simp only [FindRoute]
  split
  · next c hc => simp [hc, isHit] at hmiss
  · simp only [listed, probed, h, List.singleton_append]

theorem FindRoute_empty {ω : Type} (rt : Runtime ω) (s : Service ω) (intent : PaymentIntent)
    (w : ω) (hmiss : isHit (probed rt s intent w).1 = false)
    (h : (listed rt s intent w).1 = ([], none)) :
    FindRoute rt s intent w =
      { result := FindResult.fail Err.ErrNoRoutesFound, world := (listed rt s intent w).2,
        calls := [Call.GetCachedRoute intent.From intent.To,
                  Call.ListRoutes intent.From intent.To] } := by
  unfold listed probed at h
  unfold probed at hmiss
  simp only [FindRoute]
  split
  · next c hc => simp [hc, isHit] at hmiss
  · simp only [listed, probed, h, List.singleton_append, List.length_nil, if_true]

theorem FindRoute_ranked {ω : Type} (rt : Runtime ω) (s : Service ω) (intent : PaymentIntent)
    (w : ω) (routes : List RouteOption) (best : RouteOption) (rest : List RouteOption)
    (hmiss : isHit (probed rt s intent w).1 = false)
    (h : (listed rt s intent w).1 = (routes, none)) (hne : routes ≠ [])
    (hr : ranked rt s intent w = best :: rest) :
    FindRoute rt s intent w =
      if intent.Preferences.MaxFee > 0 ∧ best.EstimatedFee > intent.Preferences.MaxFee then
        { result := FindResult.fail Err.ErrFeeExceedsMax,
          world := s.catalogPort.writeBack intent.From intent.To (best :: rest)
            (listed rt s intent w).2,
          calls := [Call.GetCachedRoute intent.From intent.To,
                    Call.ListRoutes intent.From intent.To] ++
                   routes.map (fun r => Call.ScoreRoute r intent.Preferences) }
      else
        { result := FindResult.ok
            { SelectedRoute := best,
              Reason := "best_score_" ++ F64.fmt2 best.Score,
              Alternatives := ((best :: rest).take (min (best :: rest).length 4)).drop 1,
              Timestamp := (rt.Now (rt.Now (s.healthPort.CacheRoute intent.From intent.To best
                (s.catalogPort.writeBack intent.From intent.To (best :: rest)
                  (listed rt s intent w).2)).2).2).1 },
          world := (rt.Now (rt.Now (s.healthPort.CacheRoute intent.From intent.To best
                (s.catalogPort.writeBack intent.From intent.To (best :: rest)
                  (listed rt s intent w).2)).2).2).2,
          calls := [Call.GetCachedRoute intent.From intent.To,
                    Call.ListRoutes intent.From intent.To] ++
                   routes.map (fun r => Call.ScoreRoute r intent.Preferences) ++
                   [Call.CacheRoute intent.From intent.To best] } := by
  have hlen : routes.length ≠ 0 := fun h0 => hne (List.length_eq_zero.mp h0)
  unfold ranked scored scoreOf at hr
  rw [h] at hr
  unfold listed probed at h hr
  unfold probed at hmiss
  simp only [FindRoute]
  split
  · next c hc => simp [hc, isHit] at hmiss
  · simp only [listed, probed, h, List.singleton_append, hlen, if_false]
    unfold byScore at hr
    simp only [hr, List.cons_append, List.nil_append]

theorem FindRoute_panic {ω : Type} (rt : Runtime ω) (s : Service ω) (intent : PaymentIntent)
    (w : ω) (routes : List RouteOption)
    (hmiss : isHit (probed rt s intent w).1 = false)
    (h : (listed rt s intent w).1 = (routes, none)) (hne : routes ≠ [])
    (hr : ranked rt s intent w = []) :
    (FindRoute rt s intent w).result = FindResult.panic := by
  have hlen : routes.length ≠ 0 := fun h0 => hne (List.length_eq_zero.mp h0)
  unfold ranked scored scoreOf at hr
  rw [h] at hr
  unfold listed probed at h hr
  unfold probed at hmiss
  simp only [FindRoute]
  split
  · next c hc => simp [hc, isHit] at hmiss
  · simp only [listed, probed, h, List.singleton_append, hlen, if_false]
    unfold byScore at hr
    simp only [hr]

end Service

/-! ## The ranking -/

theorem byScore_strictWeakOn (l : List RouteOption)
    (h : ∀ a ∈ l, F64.isNaN a.Score = false) : StrictWeakOn byScore l :=
  ⟨fun a _ => F64.lt_irrefl a.Score,
   fun _ _ _ _ _ _ hab hbc => F64.lt_trans hbc hab,
   fun a ha b hb c hc hab hbc => F64.lt_neg_trans (h c hc) (h b hb) (h a ha) hbc hab⟩

theorem scored_length {ω : Type} (rt : Runtime ω) (s : Service ω) (intent : PaymentIntent)
    (w : ω) : (scored rt s intent w).length = (listed rt s intent w).1.1.length := by
  simp [scored]

theorem ranked_perm {ω : Type} (rt : Runtime ω) (s : Service ω) (intent : PaymentIntent)
    (w : ω) (hS : SortContract rt.sortSlice) :
    (ranked rt s intent w).Perm (scored rt s intent w) :=
  (hS byScore (scored rt s intent w)).1

theorem ranked_ne_nil {ω : Type} (rt : Runtime ω) (s : Service ω) (intent : PaymentIntent)
    (w : ω) (hS : SortContract rt.sortSlice) (routes : List RouteOption)
    (hlist : (listed rt s intent w).1 = (routes, none)) (hne : routes ≠ []) :
    ∃ top rest, ranked rt s intent w = top :: rest := by
  have hlen := (ranked_perm rt s intent w hS).length_eq
  rw [scored_length, hlist] at hlen
  cases hr : ranked rt s intent w with
  | nil =>
    rw [hr] at hlen
    exact absurd (List.length_eq_zero.mp hlen.symm) hne
  | cons top rest => exact ⟨top, rest, rfl⟩

theorem scored_noNaN {ω : Type} (rt : Runtime ω) (s : Service ω) (intent : PaymentIntent)
    (w : ω) (hnan : ∀ r ∈ (listed rt s intent w).1.1, F64.isNaN (scoreOf rt s intent w r) = false) :
    ∀ a ∈ scored rt s intent w, F64.isNaN a.Score = false := by
  intro a ha
  obtain ⟨r, hr, rfl⟩ := List.mem_map.mp ha
  exact hnan r hr

theorem ranked_sorted {ω : Type} (rt : Runtime ω) (s : Service ω) (intent : PaymentIntent)
    (w : ω) (hS : SortContract rt.sortSlice)
    (hnan : ∀ r ∈ (listed rt s intent w).1.1, F64.isNaN (scoreOf rt s intent w r) = false) :
    (ranked rt s intent w).Pairwise (fun a b => F64.ge a.Score b.Score = true) := by
  have hn := scored_noNaN rt s intent w hnan
  have hp := ranked_perm rt s intent w hS
  have hs := (hS byScore (scored rt s intent w)).2 (byScore_strictWeakOn _ hn)
  have hs' : (ranked rt s intent w).Pairwise (fun a b => byScore b a = false) := hs
  refine List.Pairwise.imp_of_mem ?_ hs'
  intro a b ha hb hab
  exact F64.le_of_not_lt (hn b (hp.subset hb)) (hn a (hp.subset ha)) hab

/-! ## Claims about `FindRoute` -/

/-- C5: whenever `GetCachedRoute` returns a route (and no error), `FindRoute`
returns that route with reason `"cached_route"` and no alternatives, and the
only call it makes on the ports is that `GetCachedRoute`: no `ListRoutes`, no
`ScoreRoute`, no `CacheRoute`; the world is left as the probe left it, but
for the reading of the clock. -/
theorem C5_cache_hit {ω : Type} (rt : Runtime ω) (s : Service ω) (intent : PaymentIntent)
    (w : ω) (cached : RouteOption) (h : (probed rt s intent w).1 = (some cached, none)) :
    (Service.FindRoute rt s intent w).result.decision?.map
        (fun d => (d.SelectedRoute, d.Reason, d.Alternatives)) =
      some (cached, "cached_route", []) ∧
    (Service.FindRoute rt s intent w).calls = [Call.GetCachedRoute intent.From intent.To] ∧
    (Service.FindRoute rt s intent w).world = (rt.Now (probed rt s intent w).2).2 := by
  rw [Service.FindRoute_hit rt s intent w cached h]
  exact ⟨rfl, rfl, rfl⟩

/-- C8: on a cache miss, when `ListRoutes` returns an empty list, `FindRoute`
fails with `ErrNoRoutesFound`; its only calls are the probe and `ListRoutes`
(no route is scored, nothing is cached) and it leaves the world as
`ListRoutes` left it. -/
theorem C8_no_routes_found {ω : Type} (rt : Runtime ω) (s : Service ω)
    (intent : PaymentIntent) (w : ω) (hmiss : isHit (probed rt s intent w).1 = false)
    (h : (listed rt s intent w).1 = ([], none)) :
    (Service.FindRoute rt s intent w).result = FindResult.fail Err.ErrNoRoutesFound ∧
    (Service.FindRoute rt s intent w).calls =
      [Call.GetCachedRoute intent.From intent.To, Call.ListRoutes intent.From intent.To] ∧
    (Service.FindRoute rt s intent w).world = (listed rt s intent w).2 := by
  rw [Service.FindRoute_empty rt s intent w hmiss h]
  exact ⟨rfl, rfl, rfl⟩

/-- C9, as amended: an error of `ListRoutes` is returned by `FindRoute` as it
is, and every error `FindRoute` returns is `ErrNoRoutesFound`,
`ErrFeeExceedsMax` or the error `ListRoutes` returned. -/
theorem C9_list_error_propagates {ω : Type} (rt : Runtime ω) (s : Service ω)
    (intent : PaymentIntent) (w : ω) (hmiss : isHit (probed rt s intent w).1 = false) :
    (∀ e, (listed rt s intent w).1.2 = some e →
      (Service.FindRoute rt s intent w).result = FindResult.fail e) ∧
    (∀ e, (Service.FindRoute rt s intent w).result = FindResult.fail e →
      e = Err.ErrNoRoutesFound ∨ e = Err.ErrFeeExceedsMax ∨
        (listed rt s intent w).1.2 = some e) := by
  constructor
  · intro e he
    have h : (listed rt s intent w).1 = ((listed rt s intent w).1.1, some e) := by
      rw [← he]
    rw [Service.FindRoute_listErr rt s intent w _ e hmiss h]
  · intro e hfail
    rcases hl : (listed rt s intent w).1 with ⟨routes, _ | e'⟩
    · by_cases hne : routes = []
      · subst hne
        rw [Service.FindRoute_empty rt s intent w hmiss hl] at hfail
        simp only [FindResult.fail.injEq] at hfail
        exact Or.inl hfail.symm
      · cases hr : ranked rt s intent w with
        | nil =>
          rw [Service.FindRoute_panic rt s intent w routes hmiss hl hne hr] at hfail
          cases hfail
        | cons best rest =>
          rw [Service.FindRoute_ranked rt s intent w routes best rest hmiss hl hne hr] at hfail
          split at hfail
          · simp only [FindResult.fail.injEq] at hfail
            exact Or.inr (Or.inl hfail.symm)
          · cases hfail
    · rw [Service.FindRoute_listErr rt s intent w routes e' hmiss hl] at hfail
      simp only [FindResult.fail.injEq] at hfail
      subst hfail
      exact Or.inr (Or.inr rfl)

theorem World_writeBack_cache (src dst : String) (l : List RouteOption) (w : World) :
    (World.catalogPort.writeBack src dst l w).cache = w.cache := by
  simp only [World.catalogPort]
  split <;> rfl

theorem World_probed_frame (sortSlice : SliceSort) (intent : PaymentIntent) (w : World) :
    (probed (World.runtime sortSlice) World.service intent w).2.catalog = w.catalog ∧
    (probed (World.runtime sortSlice) World.service intent w).2.cache = w.cache ∧
    (probed (World.runtime sortSlice) World.service intent w).2.clock = w.clock ∧
    w.ticks ≤ (probed (World.runtime sortSlice) World.service intent w).2.ticks := by
  simp only [probed, World.service, World.healthPort, World.runtime, World.Now]
  split
  · exact ⟨rfl, rfl, rfl, Nat.le_add_right w.ticks 2⟩
  · exact ⟨rfl, rfl, rfl, Nat.le_add_right w.ticks 1⟩

theorem isHit_eq_true {p : Option RouteOption × Option Err} (h : isHit p = true) :
    ∃ c, p = (some c, none) := by
  rcases p with ⟨_ | c, _ | e⟩ <;> simp_all [isHit]

theorem World_fail_cache (sortSlice : SliceSort) (intent : PaymentIntent) (w : World) (e : Err)
    (h : (Service.FindRoute (World.runtime sortSlice) World.service intent w).result =
      FindResult.fail e) :
    (Service.FindRoute (World.runtime sortSlice) World.service intent w).world.cache = w.cache := by
  cases hhit : isHit (probed (World.runtime sortSlice) World.service intent w).1 with
  | true =>
    obtain ⟨c, hc⟩ := isHit_eq_true hhit
    rw [Service.FindRoute_hit _ _ _ _ c hc] at h
    cases h
  | false =>
    have hl : (listed (World.runtime sortSlice) World.service intent w).2.cache = w.cache :=
      (World_probed_frame sortSlice intent w).2.1
    rcases hli : (listed (World.runtime sortSlice) World.service intent w).1 with ⟨routes, _ | e'⟩
    · by_cases hne : routes = []
      · subst hne
        rw [Service.FindRoute_empty _ _ _ _ hhit hli]
        exact hl
      · cases hr : ranked (World.runtime sortSlice) World.service intent w with
        | nil =>
          rw [Service.FindRoute_panic _ _ _ _ routes hhit hli hne hr] at h
          cases h
        | cons best rest =>
          rw [Service.FindRoute_ranked _ _ _ _ routes best rest hhit hli hne hr] at h ⊢
          split at h
          · rw [if_pos (by assumption)]
            exact (World_writeBack_cache _ _ _ _).trans hl
          · cases h
    · rw [Service.FindRoute_listErr _ _ _ _ routes e' hhit hli]
      exact hl

/-- C9, counterexample: with a catalog whose `ListRoutes` fails with the
error "connection refused", `FindRoute` fails with that error, which is
neither `ErrNoRoutesFound` nor `ErrFeeExceedsMax`. -/
theorem C9_counterexample :
    (Service.FindRoute (World.runtime insertionSort_func)
        (stubService [] (some (Err.other "connection refused"))) (intentFor "WALLET_A" "WALLET_B" "cost" 0)
        (World.initial (fun _ => 0))).result = FindResult.fail (Err.other "connection refused") ∧
    Err.other "connection refused" ≠ Err.ErrNoRoutesFound ∧
    Err.other "connection refused" ≠ Err.ErrFeeExceedsMax := by
  decide!

/-- C9, witness: the failing catalog of the counterexample. -/
theorem C9_witness :
    (Service.FindRoute (World.runtime insertionSort_func)
        (stubService [] (some Err.ErrRouteNotAvailable)) (intentFor "WALLET_A" "WALLET_B" "cost" 0)
        (World.initial (fun _ => 0))).result = FindResult.fail Err.ErrRouteNotAvailable :=
  (C9_list_error_propagates (World.runtime insertionSort_func)
    (stubService [] (some Err.ErrRouteNotAvailable)) (intentFor "WALLET_A" "WALLET_B" "cost" 0)
    (World.initial (fun _ => 0)) (by decide!)).1 Err.ErrRouteNotAvailable (by decide!)

/-- The fee check of `FindRoute`: on a cache miss with a non-empty candidate
list, the call fails with `ErrFeeExceedsMax` exactly when `MaxFee > 0` and the
fee of the first route of the ranking exceeds `MaxFee`; when it fails so it
has not called `CacheRoute`, the world is as `ListRoutes` and the ranking left
it, and with the in-memory cache a failed `FindRoute` leaves the cache as it
was. -/
theorem FindRoute_fee_bound {ω : Type} (rt : Runtime ω) (s : Service ω)
    (intent : PaymentIntent) (w : ω) (routes : List RouteOption)
    (hS : SortContract rt.sortSlice) (hmiss : isHit (probed rt s intent w).1 = false)
    (hlist : (listed rt s intent w).1 = (routes, none)) (hne : routes ≠ []) :
    (∃ top rest, ranked rt s intent w = top :: rest ∧
      ((Service.FindRoute rt s intent w).result = FindResult.fail Err.ErrFeeExceedsMax ↔
        (intent.Preferences.MaxFee > 0 ∧ top.EstimatedFee > intent.Preferences.MaxFee)) ∧
      ((Service.FindRoute rt s intent w).result = FindResult.fail Err.ErrFeeExceedsMax →
        (∀ a b r, Call.CacheRoute a b r ∉ (Service.FindRoute rt s intent w).calls) ∧
        (Service.FindRoute rt s intent w).world =
          s.catalogPort.writeBack intent.From intent.To (ranked rt s intent w)
            (listed rt s intent w).2)) ∧
    (∀ (sortSlice : SliceSort) (intent' : PaymentIntent) (w' : World),
      (Service.FindRoute (World.runtime sortSlice) World.service intent' w').result =
          FindResult.fail Err.ErrFeeExceedsMax →
        (Service.FindRoute (World.runtime sortSlice) World.service intent' w').world.cache =
          w'.cache) := by
  refine ⟨?_, fun sortSlice intent' w' h => World_fail_cache sortSlice intent' w' _ h⟩
  obtain ⟨top, rest, hr⟩ := ranked_ne_nil rt s intent w hS routes hlist hne
  refine ⟨top, rest, hr, ?_, ?_⟩
  · rw [Service.FindRoute_ranked rt s intent w routes top rest hmiss hlist hne hr]
    constructor
    · intro h
      by_contra hc
      rw [if_neg hc] at h
      cases h
    · intro h
      rw [if_pos h]
  · intro h
    rw [Service.FindRoute_ranked rt s intent w routes top rest hmiss hlist hne hr] at h ⊢
    split at h
    · rw [if_pos (by assumption), hr]
      refine ⟨?_, rfl⟩
      intro a b r hmem
      simp at hmem
    · cases h

theorem F64.le_refl_of_not_nan {x : F64} (hx : F64.isNaN x = false) : F64.le x x = true :=
  F64.le_of_not_lt hx hx (F64.lt_irrefl x)

theorem alternatives_eq (top : RouteOption) (rest : List RouteOption) :
    ((top :: rest).take (Service.min (top :: rest).length 4)).drop 1 = rest.take 3 := by
  unfold Service.min
  by_cases h : (top :: rest).length < 4
  · rw [if_pos h, List.take_length, List.drop_one, List.tail_cons]
    rw [List.take_of_length_le]
    simp only [List.length_cons] at h
    omega
  · rw [if_neg h]
    rfl

theorem FindRoute_ok_ranked {ω : Type} (rt : Runtime ω) (s : Service ω)
    (intent : PaymentIntent) (w : ω) (routes : List RouteOption) (d : RouteDecision)
    (hmiss : isHit (probed rt s intent w).1 = false)
    (hlist : (listed rt s intent w).1 = (routes, none))
    (hok : (Service.FindRoute rt s intent w).result = FindResult.ok d) :
    routes ≠ [] ∧ ∃ rest, ranked rt s intent w = d.SelectedRoute :: rest ∧
      d.Alternatives = rest.take 3 ∧
      d.Reason = "best_score_" ++ F64.fmt2 d.SelectedRoute.Score ∧
      (Service.FindRoute rt s intent w).world =
        (rt.Now (rt.Now (s.healthPort.CacheRoute intent.From intent.To d.SelectedRoute
          (s.catalogPort.writeBack intent.From intent.To (ranked rt s intent w)
            (listed rt s intent w).2)).2).2).2 := by
  have hne : routes ≠ [] := by
    intro h
    subst h
    rw [Service.FindRoute_empty rt s intent w hmiss hlist] at hok
    cases hok
  refine ⟨hne, ?_⟩
  cases hr : ranked rt s intent w with
  | nil =>
    rw [Service.FindRoute_panic rt s intent w routes hmiss hlist hne hr] at hok
    cases hok
  | cons top rest =>
    rw [Service.FindRoute_ranked rt s intent w routes top rest hmiss hlist hne hr] at hok ⊢
    split at hok
    · cases hok
    · rw [if_neg (by assumption)]
      simp only [FindResult.ok.injEq] at hok
      subst hok
      exact ⟨rest, rfl, alternatives_eq top rest, rfl, rfl⟩

/-- C3, as amended: on a cache miss, the route of a successful `FindRoute` is
one of the candidates `ListRoutes` returned, with its score filled in; and
when no candidate's score is a NaN, its score is greater than or equal to the
score of every candidate. Which of the candidates that tie for the highest
score is selected is left to `sort.Slice`. -/
theorem C3_selected_has_highest_score {ω : Type} (rt : Runtime ω) (s : Service ω)
    (intent : PaymentIntent) (w : ω) (routes : List RouteOption) (d : RouteDecision)
    (hS : SortContract rt.sortSlice) (hmiss : isHit (probed rt s intent w).1 = false)
    (hlist : (listed rt s intent w).1 = (routes, none))
    (hok : (Service.FindRoute rt s intent w).result = FindResult.ok d) :
    (∃ r ∈ routes, d.SelectedRoute = { r with Score := scoreOf rt s intent w r }) ∧
    ((∀ r ∈ routes, F64.isNaN (scoreOf rt s intent w r) = false) →
      ∀ r ∈ routes, F64.ge d.SelectedRoute.Score (scoreOf rt s intent w r) = true) := by
  obtain ⟨_, rest, hr, _, _, _⟩ := FindRoute_ok_ranked rt s intent w routes d hmiss hlist hok
  have hroutes : (listed rt s intent w).1.1 = routes := by rw [hlist]
  have hp := ranked_perm rt s intent w hS
  have hmem_scored : ∀ a, a ∈ scored rt s intent w ↔
      ∃ r ∈ routes, { r with Score := scoreOf rt s intent w r } = a := by
    intro a
    unfold scored
    rw [hroutes]
    exact List.mem_map
  constructor
  · have htop : d.SelectedRoute ∈ scored rt s intent w :=
      hp.subset (by rw [hr]; exact List.mem_cons_self _ _)
    obtain ⟨r, hrm, hreq⟩ := (hmem_scored _).mp htop
    exact ⟨r, hrm, hreq.symm⟩
  · intro hnan r hrm
    have hnan' : ∀ r ∈ (listed rt s intent w).1.1,
        F64.isNaN (scoreOf rt s intent w r) = false := by rw [hroutes]; exact hnan
    have hsorted := ranked_sorted rt s intent w hS hnan'
    rw [hr] at hsorted
    have hin : ({ r with Score := scoreOf rt s intent w r } : RouteOption) ∈
        d.SelectedRoute :: rest := by
      rw [← hr]
      exact hp.symm.subset ((hmem_scored _).mpr ⟨r, hrm, rfl⟩)
    rcases List.mem_cons.mp hin with h | h
    · rw [← h]
      exact F64.le_refl_of_not_nan (hnan r hrm)
    · exact (List.pairwise_cons.mp hsorted).1 _ h

/-- The alternatives of `FindRoute`: on a cache miss, the ranking of a
successful call is the selected route followed by the others, and the
alternatives are the first 3 of the others, `min(n - 1, 3)` of them; when no
candidate's score is a NaN, the ranking is in descending order of score and
each alternative has a score no greater than the selected route's. -/
theorem FindRoute_alternatives {ω : Type} (rt : Runtime ω) (s : Service ω)
    (intent : PaymentIntent) (w : ω) (routes : List RouteOption) (d : RouteDecision)
    (hS : SortContract rt.sortSlice) (hmiss : isHit (probed rt s intent w).1 = false)
    (hlist : (listed rt s intent w).1 = (routes, none))
    (hok : (Service.FindRoute rt s intent w).result = FindResult.ok d) :
    ∃ rest, ranked rt s intent w = d.SelectedRoute :: rest ∧
      (ranked rt s intent w).Perm (scored rt s intent w) ∧
      d.Alternatives = rest.take 3 ∧
      d.Alternatives.length = Nat.min (routes.length - 1) 3 ∧
      ((∀ r ∈ routes, F64.isNaN (scoreOf rt s intent w r) = false) →
        (ranked rt s intent w).Pairwise (fun a b => F64.ge a.Score b.Score = true) ∧
        ∀ a ∈ d.Alternatives, F64.le a.Score d.SelectedRoute.Score = true) := by
  obtain ⟨_, rest, hr, halt, _, _⟩ := FindRoute_ok_ranked rt s intent w routes d hmiss hlist hok
  have hroutes : (listed rt s intent w).1.1 = routes := by rw [hlist]
  have hp := ranked_perm rt s intent w hS
  refine ⟨rest, hr, hp, halt, ?_, ?_⟩
  · have hlen := hp.length_eq
    rw [scored_length, hroutes, hr, List.length_cons] at hlen
    rw [halt, List.length_take, ← hlen]
    simp only [Nat.add_sub_cancel]
    exact Nat.min_comm _ _
  · intro hnan
    have hnan' : ∀ r ∈ (listed rt s intent w).1.1,
        F64.isNaN (scoreOf rt s intent w r) = false := by rw [hroutes]; exact hnan
    have hsorted := ranked_sorted rt s intent w hS hnan'
    refine ⟨hsorted, ?_⟩
    intro a ha
    rw [hr] at hsorted
    rw [halt] at ha
    exact (List.pairwise_cons.mp hsorted).1 a (List.mem_of_mem_take ha)

/-- C3, counterexample. First: three candidates with success rates 0.5, NaN
and 0.9, ranked by the insertion sort that `sort.Slice` runs on a slice this
short: the route of rate 0.5 is selected although the route of rate 0.9 has a
higher score. Second: two candidates with equal scores, ranked by a routine
within the documented contract of `sort.Slice`: the one the catalog returned
second is selected. -/
theorem C3_counterexample :
    ((worldWith routesWithNaN).catalog.ListRoutes "X" "Y" = routesWithNaN ∧
      (Service.FindRoute (World.runtime insertionSort_func) World.service
          (intentFor "X" "Y" "reliability" 0) (worldWith routesWithNaN)).result.decision?.map
        (fun d => (d.SelectedRoute.RouteID,
          F64.ge d.SelectedRoute.Score
            ((worldWith routesWithNaN).catalog.ScoreRoute (routeXY "better" (F64.ofRatio 9 10))
              (intentFor "X" "Y" "reliability" 0).Preferences))) = some ("steady", false)) ∧
    (SortContract reversingSort ∧
      (worldWith routesTied).catalog.ListRoutes "X" "Y" = routesTied ∧
      routesTied.map (fun r => (r.RouteID, (worldWith routesTied).catalog.ScoreRoute r
          (intentFor "X" "Y" "reliability" 0).Preferences)) =
        [("first", F64.ofRatio 1693 10), ("second", F64.ofRatio 1693 10)] ∧
      (Service.FindRoute (World.runtime reversingSort) World.service
          (intentFor "X" "Y" "reliability" 0) (worldWith routesTied)).result.decision?.map
        (fun d => d.SelectedRoute.RouteID) = some "second") :=
  ⟨by decide!, reversingSort_contract, by decide!⟩

theorem startup_speed_ok :
    ∃ d, (Service.FindRoute (World.runtime insertionSort_func) World.service
      (intentFor "WALLET_A" "WALLET_B" "speed" 0) (World.initial (fun _ => 0))).result =
        FindResult.ok d := by
  have h : ((Service.FindRoute (World.runtime insertionSort_func) World.service
      (intentFor "WALLET_A" "WALLET_B" "speed" 0)
      (World.initial (fun _ => 0))).result.decision?).isSome = true := by decide!
  cases hres : (Service.FindRoute (World.runtime insertionSort_func) World.service
      (intentFor "WALLET_A" "WALLET_B" "speed" 0) (World.initial (fun _ => 0))).result with
  | ok d => exact ⟨d, rfl⟩
  | fail e => rw [hres] at h; cases h
  | panic => rw [hres] at h; cases h

/-- C3, witness: the call for priority `speed` at start-up. -/
theorem C3_witness :
    ∃ d, (Service.FindRoute (World.runtime insertionSort_func) World.service
        (intentFor "WALLET_A" "WALLET_B" "speed" 0) (World.initial (fun _ => 0))).result =
          FindResult.ok d ∧
      ∀ r ∈ MemoryCatalog.defaultRoutes, F64.ge d.SelectedRoute.Score
        (scoreOf (World.runtime insertionSort_func) World.service
          (intentFor "WALLET_A" "WALLET_B" "speed" 0) (World.initial (fun _ => 0)) r) = true := by
  obtain ⟨d, hd⟩ := startup_speed_ok
  exact ⟨d, hd, (C3_selected_has_highest_score (World.runtime insertionSort_func)
    World.service (intentFor "WALLET_A" "WALLET_B" "speed" 0) (World.initial (fun _ => 0))
    MemoryCatalog.defaultRoutes d insertionSort_func_contract (by decide!) (by decide!)
    hd).2 (by decide!)⟩

theorem World_probed_none (sortSlice : SliceSort) (intent : PaymentIntent) (w : World)
    (h : w.cache.routes (pairKey intent.From intent.To) = none) :
    (probed (World.runtime sortSlice) World.service intent w).1 =
      (none, some Err.ErrNoRoutesFound) := by
  simp only [probed, World.service, World.healthPort, World.runtime, World.Now, h]

theorem World_probed_some (sortSlice : SliceSort) (intent : PaymentIntent) (w : World)
    (entry : cachedRoute) (h : w.cache.routes (pairKey intent.From intent.To) = some entry) :
    (probed (World.runtime sortSlice) World.service intent w).1 =
      w.cache.GetCachedRoute (w.clock (w.ticks + 1)) intent.From intent.To := by
  simp only [probed, World.service, World.healthPort, World.runtime, World.Now, h]

theorem World_listed (sortSlice : SliceSort) (intent : PaymentIntent) (w : World) :
    (listed (World.runtime sortSlice) World.service intent w).1 =
      (w.catalog.ListRoutes intent.From intent.To, none) := by
  show (((probed (World.runtime sortSlice) World.service intent w).2.catalog.ListRoutes
    intent.From intent.To, none) : List RouteOption × Option Err) = _
  rw [(World_probed_frame sortSlice intent w).1]

theorem ranked_head_strict_best {ω : Type} (rt : Runtime ω) (s : Service ω)
    (intent : PaymentIntent) (w : ω) (hS : SortContract rt.sortSlice)
    (hnan : ∀ a ∈ scored rt s intent w, F64.isNaN a.Score = false)
    (m : RouteOption) (hm : m ∈ scored rt s intent w)
    (hbest : ∀ a ∈ scored rt s intent w, a ≠ m → byScore m a = true)
    (top : RouteOption) (rest : List RouteOption) (hr : ranked rt s intent w = top :: rest) :
    top = m := by
  have hp := ranked_perm rt s intent w hS
  have hs := (hS byScore (scored rt s intent w)).2 (byScore_strictWeakOn _ hnan)
  have hs' : (ranked rt s intent w).Pairwise (fun a b => byScore b a = false) := hs
  rw [hr] at hs'
  by_contra hne
  have htop : top ∈ scored rt s intent w := hp.subset (by rw [hr]; exact List.mem_cons_self _ _)
  have hmr : m ∈ top :: rest := by rw [← hr]; exact hp.symm.subset hm
  rcases List.mem_cons.mp hmr with h | h
  · exact hne h.symm
  · have h1 := (List.pairwise_cons.mp hs').1 m h
    rw [hbest top htop hne] at h1
    cases h1

theorem startup_selection (sortSlice : SliceSort) (hS : SortContract sortSlice) (w : World)
    (intent : PaymentIntent) (priority : String) (m : RouteOption)
    (hfrom : intent.From = "WALLET_A") (hto : intent.To = "WALLET_B")
    (hcat : w.catalog.routes (pairKey "WALLET_A" "WALLET_B") = some MemoryCatalog.defaultRoutes)
    (hcache : w.cache.routes (pairKey "WALLET_A" "WALLET_B") = none)
    (hfee : intent.Preferences.MaxFee = 0) (hprio : intent.Preferences.Priority = priority)
    (hnan : ∀ a ∈ MemoryCatalog.defaultRoutes.map (fun r => { r with Score :=
      (MemoryCatalog.ScoreRoute MemoryCatalog.NewMemoryCatalog r
        { Priority := priority, MaxFee := 0, TimeoutMs := 0, MinHops := 0, MaxHops := 0 }) }),
      F64.isNaN a.Score = false)
    (hm : m ∈ MemoryCatalog.defaultRoutes.map (fun r => { r with Score :=
      (MemoryCatalog.ScoreRoute MemoryCatalog.NewMemoryCatalog r
        { Priority := priority, MaxFee := 0, TimeoutMs := 0, MinHops := 0, MaxHops := 0 }) }))
    (hbest : ∀ a ∈ MemoryCatalog.defaultRoutes.map (fun r => { r with Score :=
      (MemoryCatalog.ScoreRoute MemoryCatalog.NewMemoryCatalog r
        { Priority := priority, MaxFee := 0, TimeoutMs := 0, MinHops := 0, MaxHops := 0 }) }),
      a ≠ m → byScore m a = true) :
    ∃ d, (Service.FindRoute (World.runtime sortSlice) World.service intent w).result =
        FindResult.ok d ∧ d.SelectedRoute = m := by
  have hmiss : isHit (probed (World.runtime sortSlice) World.service intent w).1 = false := by
    rw [World_probed_none sortSlice intent w (by rw [hfrom, hto]; exact hcache)]
    rfl
  have hlist : (listed (World.runtime sortSlice) World.service intent w).1 =
      (MemoryCatalog.defaultRoutes, none) := by
    rw [World_listed, hfrom, hto]
    simp [MemoryCatalog.ListRoutes, hcat]
  have hsc : scored (World.runtime sortSlice) World.service intent w =
      MemoryCatalog.defaultRoutes.map (fun r => { r with Score :=
        (MemoryCatalog.ScoreRoute MemoryCatalog.NewMemoryCatalog r
          { Priority := priority, MaxFee := 0, TimeoutMs := 0, MinHops := 0, MaxHops := 0 }) }) := by
    unfold scored
    rw [hlist]
    apply List.map_congr_left
    intro r _
    have hs : scoreOf (World.runtime sortSlice) World.service intent w r =
        MemoryCatalog.ScoreRoute MemoryCatalog.NewMemoryCatalog r
          { Priority := priority, MaxFee := 0, TimeoutMs := 0, MinHops := 0, MaxHops := 0 } := by
      rw [← hprio]
      rfl
    rw [hs]
  have hne : MemoryCatalog.defaultRoutes ≠ [] := by simp [MemoryCatalog.defaultRoutes]
  obtain ⟨top, rest, hr⟩ := ranked_ne_nil (World.runtime sortSlice) World.service intent w hS
    MemoryCatalog.defaultRoutes hlist hne
  have htop := ranked_head_strict_best (World.runtime sortSlice) World.service intent w hS
    (by rw [hsc]; exact hnan) m (by rw [hsc]; exact hm) (by rw [hsc]; exact hbest) top rest hr
  subst htop
  rw [Service.FindRoute_ranked _ _ _ _ _ top rest hmiss hlist hne hr]
  rw [if_neg (by rw [hfee]; simp)]
  exact ⟨_, rfl, rfl⟩

/-- C10: with the catalog holding for `WALLET_A->WALLET_B` the two routes of
`addDefaultRoutes` (fee 2, 150ms, success 0.99; fee 5, 50ms, success 0.995)
and no cached route for the pair, `FindRoute` without a fee bound selects the
50ms route (`fast_lane`, fee 5) for priority `speed` and the route of fee 2
(`direct`) for priority `cost`, whatever `sort.Slice` does within its
contract. -/
theorem C10_speed_and_cost_scenario (sortSlice : SliceSort) (hS : SortContract sortSlice)
    (w : World) (intent : PaymentIntent)
    (hfrom : intent.From = "WALLET_A") (hto : intent.To = "WALLET_B")
    (hcat : w.catalog.routes (pairKey "WALLET_A" "WALLET_B") = some MemoryCatalog.defaultRoutes)
    (hcache : w.cache.routes (pairKey "WALLET_A" "WALLET_B") = none)
    (hfee : intent.Preferences.MaxFee = 0) :
    (intent.Preferences.Priority = "speed" →
      ∃ d, (Service.FindRoute (World.runtime sortSlice) World.service intent w).result =
          FindResult.ok d ∧
        d.SelectedRoute.RouteID = "fast_lane" ∧ d.SelectedRoute.EstimatedFee = 5 ∧
        d.SelectedRoute.EstimatedTime = 50000000) ∧
    (intent.Preferences.Priority = "cost" →
      ∃ d, (Service.FindRoute (World.runtime sortSlice) World.service intent w).result =
          FindResult.ok d ∧
        d.SelectedRoute.RouteID = "direct" ∧ d.SelectedRoute.EstimatedFee = 2 ∧
        d.SelectedRoute.EstimatedTime = 150000000) := by
  constructor
  · intro hprio
    obtain ⟨d, hd, hsel⟩ := startup_selection sortSlice hS w intent "speed"
      { RouteID := "fast_lane", Hops := ["WALLET_A", "WALLET_B"], EstimatedFee := 5,
        EstimatedTime := 50000000, SuccessRate := F64.ofRatio 995 1000,
        Score := F64.ofRatio 1149 10, RouteType := "direct" }
      hfrom hto hcat hcache hfee hprio (by decide!) (by decide!) (by decide!)
    exact ⟨d, hd, by rw [hsel], by rw [hsel], by rw [hsel]⟩
  · intro hprio
    obtain ⟨d, hd, hsel⟩ := startup_selection sortSlice hS w intent "cost"
      { RouteID := "direct", Hops := ["WALLET_A", "WALLET_B"], EstimatedFee := 2,
        EstimatedTime := 150000000, SuccessRate := F64.ofRatio 99 100,
        Score := F64.ofRatio 1158 10, RouteType := "direct" }
      hfrom hto hcat hcache hfee hprio (by decide!) (by decide!) (by decide!)
    exact ⟨d, hd, by rw [hsel], by rw [hsel], by rw [hsel]⟩

/-- C10, witness: the service at start-up, with the insertion sort. -/
theorem C10_witness :
    (Service.FindRoute (World.runtime insertionSort_func) World.service
        (intentFor "WALLET_A" "WALLET_B" "speed" 0) (World.initial (fun _ => 0))).result.decision?.map
      (fun d => d.SelectedRoute.RouteID) = some "fast_lane" ∧
    (Service.FindRoute (World.runtime insertionSort_func) World.service
        (intentFor "WALLET_A" "WALLET_B" "cost" 0) (World.initial (fun _ => 0))).result.decision?.map
      (fun d => d.SelectedRoute.RouteID) = some "direct" := by
  obtain ⟨d, hd, hid, _⟩ := (C10_speed_and_cost_scenario insertionSort_func
    insertionSort_func_contract (World.initial (fun _ => 0))
    (intentFor "WALLET_A" "WALLET_B" "speed" 0) rfl rfl (by decide!) rfl rfl).1 rfl
  obtain ⟨d', hd', hid', _⟩ := (C10_speed_and_cost_scenario insertionSort_func
    insertionSort_func_contract (World.initial (fun _ => 0))
    (intentFor "WALLET_A" "WALLET_B" "cost" 0) rfl rfl (by decide!) rfl rfl).2 rfl
  rw [hd, hd']
  exact ⟨by simp [FindResult.decision?, hid], by simp [FindResult.decision?, hid']⟩

theorem World_writeBack_ticks (src dst : String) (l : List RouteOption) (w : World) :
    (World.catalogPort.writeBack src dst l w).ticks = w.ticks := by
  simp only [World.catalogPort]
  split <;> rfl

theorem World_writeBack_clock (src dst : String) (l : List RouteOption) (w : World) :
    (World.catalogPort.writeBack src dst l w).clock = w.clock := by
  simp only [World.catalogPort]
  split <;> rfl

theorem World_CacheRoute_routes (src dst : String) (r : RouteOption) (w : World) :
    (World.healthPort.CacheRoute src dst r w).2.cache.routes (pairKey src dst) =
      some { route := some r, expiresAt := w.clock w.ticks + fiveMinutes } := by
  simp [World.healthPort, World.Now, MemoryCache.CacheRoute]

/-- C6, counterexample: at start-up a call for priority `speed` at time 0
caches `fast_lane`. A call for priority `cost` that starts at 4 minutes
succeeds (it is served `fast_lane` from the cache), and a call with the same
pair at 6 minutes, earlier than 4 + 5 minutes, finds the entry expired: it
selects `direct`, and its reason is not `"cached_route"`. -/
theorem C6_counterexample :
    (Service.FindRoute (World.runtime insertionSort_func) World.service
        (intentFor "WALLET_A" "WALLET_B" "cost" 0)
        (Service.FindRoute (World.runtime insertionSort_func) World.service
          (intentFor "WALLET_A" "WALLET_B" "speed" 0)
          (World.initial threeCallClock)).world).result.decision?.map
      (fun d => (d.SelectedRoute.RouteID, d.Reason)) = some ("fast_lane", "cached_route") ∧
    (Service.FindRoute (World.runtime insertionSort_func) World.service
        (intentFor "WALLET_A" "WALLET_B" "cost" 0)
        (Service.FindRoute (World.runtime insertionSort_func) World.service
          (intentFor "WALLET_A" "WALLET_B" "cost" 0)
          (Service.FindRoute (World.runtime insertionSort_func) World.service
            (intentFor "WALLET_A" "WALLET_B" "speed" 0)
            (World.initial threeCallClock)).world).world).result.decision?.map
      (fun d => (d.SelectedRoute.RouteID, d.Reason)) = some ("direct", "best_score_115.80") ∧
    (Service.FindRoute (World.runtime insertionSort_func) World.service
      (intentFor "WALLET_A" "WALLET_B" "speed" 0) (World.initial threeCallClock)).world.ticks = 4 ∧
    (Service.FindRoute (World.runtime insertionSort_func) World.service
        (intentFor "WALLET_A" "WALLET_B" "cost" 0)
        (Service.FindRoute (World.runtime insertionSort_func) World.service
          (intentFor "WALLET_A" "WALLET_B" "speed" 0)
          (World.initial threeCallClock)).world).world.ticks = 7 ∧
    (threeCallClock 4, threeCallClock 7, threeCallClock 8) =
      (4 * 60 * 1000000000, 6 * 60 * 1000000000, 6 * 60 * 1000000000) ∧
    threeCallClock 8 < threeCallClock 4 + fiveMinutes := by
  decide!

/-- C6, as amended: when a `FindRoute` call that starts at time `t` misses the
cache and succeeds, every later call for the same pair whose cache probe is
made before `t + 5 minutes`, with no write to the route cache in between,
returns the same route, with reason `"cached_route"`. The clock of the first
call is assumed not to run backwards. -/
theorem C6_idempotent_within_ttl (sortSlice sortSlice' : SliceSort)
    (intent intent' : PaymentIntent) (w w' : World) (d : RouteDecision)
    (hmiss : isHit (probed (World.runtime sortSlice) World.service intent w).1 = false)
    (hok : (Service.FindRoute (World.runtime sortSlice) World.service intent w).result =
      FindResult.ok d)
    (hclock : ∀ i j, i ≤ j → w.clock i ≤ w.clock j)
    (hfrom : intent'.From = intent.From) (hto : intent'.To = intent.To)
    (hcache : w'.cache.routes =
      (Service.FindRoute (World.runtime sortSlice) World.service intent w).world.cache.routes)
    (hsoon : w'.clock (w'.ticks + 1) < w.clock w.ticks + fiveMinutes) :
    ∃ d', (Service.FindRoute (World.runtime sortSlice') World.service intent' w').result =
        FindResult.ok d' ∧
      d'.SelectedRoute = d.SelectedRoute ∧
      d'.SelectedRoute.RouteID = d.SelectedRoute.RouteID ∧
      d'.Reason = "cached_route" := by
  obtain ⟨_, rest, _, _, _, hworld⟩ := FindRoute_ok_ranked (World.runtime sortSlice)
    World.service intent w (w.catalog.ListRoutes intent.From intent.To) d hmiss
    (World_listed sortSlice intent w) hok
  obtain ⟨_, _, hpc, hpt⟩ := World_probed_frame sortSlice intent w
  have hentry : (Service.FindRoute (World.runtime sortSlice) World.service intent w).world.cache.routes
      (pairKey intent.From intent.To) =
      some { route := some d.SelectedRoute,
             expiresAt := (w.clock
               (probed (World.runtime sortSlice) World.service intent w).2.ticks + fiveMinutes) } := by
    rw [hworld]
    show (World.healthPort.CacheRoute intent.From intent.To d.SelectedRoute
      (World.catalogPort.writeBack intent.From intent.To
        (ranked (World.runtime sortSlice) World.service intent w)
        (listed (World.runtime sortSlice) World.service intent w).2)).2.cache.routes
      (pairKey intent.From intent.To) = _
    rw [World_CacheRoute_routes, World_writeBack_ticks, World_writeBack_clock]
    have hlp : (listed (World.runtime sortSlice) World.service intent w).2 =
        (probed (World.runtime sortSlice) World.service intent w).2 := rfl
    rw [hlp, hpc]
  have hlate := hclock w.ticks _ hpt
  have hkey : w'.cache.routes (pairKey intent'.From intent'.To) =
      some { route := some d.SelectedRoute,
             expiresAt := (w.clock
               (probed (World.runtime sortSlice) World.service intent w).2.ticks + fiveMinutes) } := by
    rw [hcache, hfrom, hto, hentry]
  have hprobe : (probed (World.runtime sortSlice') World.service intent' w').1 =
      (some d.SelectedRoute, none) := by
    rw [World_probed_some sortSlice' intent' w' _ hkey]
    simp only [MemoryCache.GetCachedRoute, hkey]
    rw [if_pos (by omega)]
  rw [Service.FindRoute_hit _ _ _ _ d.SelectedRoute hprobe]
  exact ⟨_, rfl, rfl, rfl, rfl⟩

theorem threeCallClock_mono : ∀ i j, i ≤ j → threeCallClock i ≤ threeCallClock j := by
  intro i j h
  unfold threeCallClock
  split_ifs <;> omega

theorem ok_of_isSome {r : FindResult} (h : r.decision?.isSome = true) :
    ∃ d, r = FindResult.ok d := by
  cases r with
  | ok d => exact ⟨d, rfl⟩
  | fail e => cases h
  | panic => cases h

/-- C6, witness: at start-up, a call for priority `speed` at time 0 and a call
for priority `cost` after 4 minutes. -/
theorem C6_witness :
    ∃ d d', (Service.FindRoute (World.runtime insertionSort_func) World.service
        (intentFor "WALLET_A" "WALLET_B" "speed" 0) (World.initial threeCallClock)).result =
          FindResult.ok d ∧
      (Service.FindRoute (World.runtime insertionSort_func) World.service
        (intentFor "WALLET_A" "WALLET_B" "cost" 0)
        (Service.FindRoute (World.runtime insertionSort_func) World.service
          (intentFor "WALLET_A" "WALLET_B" "speed" 0)
          (World.initial threeCallClock)).world).result = FindResult.ok d' ∧
      d'.SelectedRoute.RouteID = d.SelectedRoute.RouteID ∧ d'.Reason = "cached_route" := by
  have hsome : ((Service.FindRoute (World.runtime insertionSort_func)
    World.service (intentFor "WALLET_A" "WALLET_B" "speed" 0)
    (World.initial threeCallClock)).result.decision?).isSome = true := by decide!
  obtain ⟨d, hd⟩ := ok_of_isSome hsome
  obtain ⟨d', hd', _, hid, hreason⟩ := C6_idempotent_within_ttl insertionSort_func
    insertionSort_func (intentFor "WALLET_A" "WALLET_B" "speed" 0)
    (intentFor "WALLET_A" "WALLET_B" "cost" 0) (World.initial threeCallClock)
    (Service.FindRoute (World.runtime insertionSort_func) World.service
      (intentFor "WALLET_A" "WALLET_B" "speed" 0) (World.initial threeCallClock)).world
    d (by decide!) hd threeCallClock_mono rfl rfl rfl (by decide!)
  exact ⟨d, d', hd, hd', hid, hreason⟩

/-- C1: `ScoreRoute` is `100 + adj + 20 * successRate` in `float64`
arithmetic, where `adj` is `-(milliseconds / 10)` for priority `speed`,
`-(2 * estimatedFee)` for `cost`, `5 * (number of hops)` for `privacy` and
`50 * successRate` for every other priority; it is a function of the route
and the preferences alone, the same for every catalog. -/
theorem C1_ScoreRoute_formula (c c' : MemoryCatalog) (r : RouteOption) (p : RoutePreferences) :
    c.ScoreRoute r p =
      F64.add
        (F64.add (F64.ofInt 100)
          (if p.Priority = "speed" then
            F64.neg (F64.div (F64.ofInt (Milliseconds r.EstimatedTime)) (F64.ofInt 10))
          else if p.Priority = "cost" then
            F64.neg (F64.mul (F64.ofInt 2) (F64.ofInt r.EstimatedFee))
          else if p.Priority = "privacy" then
            F64.mul (F64.ofInt 5) (F64.ofInt r.Hops.length)
          else F64.mul (F64.ofInt 50) r.SuccessRate))
        (F64.mul (F64.ofInt 20) r.SuccessRate) ∧
    c'.ScoreRoute r p = c.ScoreRoute r p := by
  refine ⟨?_, rfl⟩
  unfold MemoryCatalog.ScoreRoute
  simp only [F64.sub]
  rw [F64.mul_comm r.SuccessRate (F64.ofInt 20)]
  split
  · rfl
  · split
    · rw [F64.mul_comm (F64.ofInt r.EstimatedFee)]
    · split
      · rw [F64.mul_comm (F64.ofInt ↑r.Hops.length)]
      · rw [F64.mul_comm r.SuccessRate]

/-- C5, witness: at start-up, a call for priority `speed` caches `fast_lane`;
the next call for the pair is served from the cache. -/
theorem C5_witness :
    (Service.FindRoute (World.runtime insertionSort_func) World.service
        (intentFor "WALLET_A" "WALLET_B" "cost" 0)
        (Service.FindRoute (World.runtime insertionSort_func) World.service
          (intentFor "WALLET_A" "WALLET_B" "speed" 0)
          (World.initial (fun _ => 0))).world).calls =
      [Call.GetCachedRoute "WALLET_A" "WALLET_B"] :=
  (C5_cache_hit (World.runtime insertionSort_func) World.service
    (intentFor "WALLET_A" "WALLET_B" "cost" 0)
    (Service.FindRoute (World.runtime insertionSort_func) World.service
      (intentFor "WALLET_A" "WALLET_B" "speed" 0) (World.initial (fun _ => 0))).world
    { RouteID := "fast_lane", Hops := ["WALLET_A", "WALLET_B"], EstimatedFee := 5,
      EstimatedTime := 50000000, SuccessRate := F64.ofRatio 995 1000,
      Score := F64.ofRatio 1149 10, RouteType := "direct" }
    (by decide!)).2.1

/-- C8, witness: a catalog port that returns no route. -/
theorem C8_witness :
    (Service.FindRoute (World.runtime insertionSort_func) (stubService [] none)
        (intentFor "WALLET_A" "WALLET_B" "cost" 0) (World.initial (fun _ => 0))).result =
      FindResult.fail Err.ErrNoRoutesFound :=
  (C8_no_routes_found (World.runtime insertionSort_func) (stubService [] none)
    (intentFor "WALLET_A" "WALLET_B" "cost" 0) (World.initial (fun _ => 0))
    (by decide!) (by decide!)).1

/-! ## Rounding to `float64` -/

namespace F64

theorem one_eq : one = 2 ^ 1074 := rfl

theorem one_pos : 0 < one := by
  rw [one_eq]
  exact Nat.two_pow_pos _

theorem bitLenAux_zero (f : Nat) : bitLenAux f 0 = 0 := by
  cases f <;> simp [bitLenAux]

theorem bitLenAux_spec (f : Nat) :
    ∀ n, n ≤ f → n < 2 ^ bitLenAux f n ∧ (n ≠ 0 → 2 ^ (bitLenAux f n - 1) ≤ n) := by
  induction f with
  | zero =>
    intro n hn
    have h0 : n = 0 := by omega
    subst h0
    simp [bitLenAux]
  | succ f ih =>
    intro n hn
    by_cases h0 : n = 0
    · subst h0
      simp [bitLenAux]
    · simp only [bitLenAux, h0, if_false]
      obtain ⟨h1, h2⟩ := ih (n / 2) (by omega)
      constructor
      · rw [pow_succ]
        generalize 2 ^ bitLenAux f (n / 2) = P at h1
        omega
      · intro _
        simp only [Nat.add_sub_cancel]
        by_cases h3 : n / 2 = 0
        · rw [h3, bitLenAux_zero]
          simp
          omega
        · have h4 := h2 h3
          have hL : 1 ≤ bitLenAux f (n / 2) := by
            by_contra hc
            have hz : bitLenAux f (n / 2) = 0 := by omega
            rw [hz] at h1
            simp at h1
            exact h3 h1
          have hp : 2 ^ bitLenAux f (n / 2) = 2 ^ (bitLenAux f (n / 2) - 1) * 2 := by
            rw [← pow_succ]
            congr 1
            omega
          rw [hp]
          generalize 2 ^ (bitLenAux f (n / 2) - 1) = P at h4
          omega

theorem lt_two_pow_bitLen (n : Nat) : n < 2 ^ bitLen n :=
  (bitLenAux_spec n n (Nat.le_refl n)).1

theorem two_pow_bitLen_le {n : Nat} (h : n ≠ 0) : 2 ^ (bitLen n - 1) ≤ n :=
  (bitLenAux_spec n n (Nat.le_refl n)).2 h

theorem bitLen_le_of_lt {n L : Nat} (h : n < 2 ^ L) : bitLen n ≤ L := by
  by_contra hc
  have h0 : n ≠ 0 := by
    intro h0
    subst h0
    have : bitLen 0 = 0 := rfl
    omega
  have h1 := two_pow_bitLen_le h0
  have h2 : 2 ^ L ≤ 2 ^ (bitLen n - 1) := Nat.pow_le_pow_right (by decide) (by omega)
  omega

theorem bitLen_mono {a b : Nat} (h : a ≤ b) : bitLen a ≤ bitLen b :=
  bitLen_le_of_lt (Nat.lt_of_le_of_lt h (lt_two_pow_bitLen b))

theorem quantum_pos (a : Nat) : 0 < quantum a := Nat.two_pow_pos _

theorem quantum_dvd {a b : Nat} (h : a ≤ b) : quantum a ∣ quantum b :=
  Nat.pow_dvd_pow 2 (Nat.sub_le_sub_right (bitLen_mono h) 53)

theorem quantum_le_succ (a : Nat) : quantum a ≤ a + 1 := by
  unfold quantum
  by_cases h0 : a = 0
  · subst h0
    have : bitLen 0 = 0 := rfl
    rw [this]
    simp
  · have h1 := two_pow_bitLen_le h0
    have h2 : 2 ^ (bitLen a - 53) ≤ 2 ^ (bitLen a - 1) :=
      Nat.pow_le_pow_right (by decide) (by omega)
    omega

theorem rne_of_dvd {n q : Nat} (h : q ∣ n) : rne n q = n / q := by
  unfold rne
  have hm : n % q = 0 := Nat.mod_eq_zero_of_dvd h
  simp only [hm]
  by_cases hq : q = 0
  · subst hq
    simp
  · rw [if_pos (by omega)]

theorem rne_le (n q : Nat) : rne n q ≤ n / q + 1 := by
  unfold rne
  simp only []
  split
  · omega
  · split
    · omega
    · split <;> omega

theorem rne_mono {a b q : Nat} (hq : 0 < q) (h : a ≤ b) : rne a q ≤ rne b q := by
  have hdiv : a / q ≤ b / q := Nat.div_le_div_right h
  have ha := Nat.div_add_mod a q
  have hb := Nat.div_add_mod b q
  have hra := Nat.mod_lt a hq
  have hrb := Nat.mod_lt b hq
  by_cases heq : a / q = b / q
  · have hr : a % q ≤ b % q := by
      rw [heq] at ha
      generalize q * (b / q) = P at ha hb
      omega
    clear ha hb hdiv
    unfold rne
    simp only [heq]
    generalize a % q = ra at *
    generalize b % q = rb at *
    generalize b / q = t at *
    split_ifs <;> omega
  · have hlt : a / q + 1 ≤ b / q := by omega
    have h1 := rne_le a q
    have h2 : b / q ≤ rne b q := by
      unfold rne
      simp only []
      split
      · omega
      · split
        · omega
        · split <;> omega
    omega

theorem roundMag_one (n : Nat) : roundMag n 1 = rne n (quantum n) * quantum n := by
  simp [roundMag]

theorem roundMag_exact {m : Nat} (h : quantum m ∣ m) : roundMag m 1 = m := by
  rw [roundMag_one, rne_of_dvd h, Nat.div_mul_cancel h]

theorem roundMag_mono {a b : Nat} (h : a ≤ b) : roundMag a 1 ≤ roundMag b 1 := by
  rw [roundMag_one, roundMag_one]
  by_cases hq : quantum a = quantum b
  · rw [hq]
    exact Nat.mul_le_mul_right _ (rne_mono (quantum_pos b) h)
  · -- the binade of `b` starts at a power of two that is above `a`
    have hb0 : b ≠ 0 := by
      intro hb0
      subst hb0
      have : a = 0 := by omega
      subst this
      exact hq rfl
    have hlen : bitLen a < bitLen b := by
      rcases Nat.lt_or_ge (bitLen a) (bitLen b) with h1 | h1
      · exact h1
      · exfalso
        apply hq
        unfold quantum
        have := bitLen_mono h
        have : bitLen a = bitLen b := by omega
        rw [this]
    have hB : 2 ^ (bitLen b - 1) ≤ b := two_pow_bitLen_le hb0
    have haB : a ≤ 2 ^ (bitLen b - 1) :=
      Nat.le_of_lt (Nat.lt_of_lt_of_le (lt_two_pow_bitLen a)
        (Nat.pow_le_pow_right (by decide) (by omega)))
    have hqa : quantum a ∣ 2 ^ (bitLen b - 1) := Nat.pow_dvd_pow 2 (by omega)
    have hqb : quantum b ∣ 2 ^ (bitLen b - 1) := Nat.pow_dvd_pow 2 (by omega)
    calc rne a (quantum a) * quantum a
        ≤ rne (2 ^ (bitLen b - 1)) (quantum a) * quantum a :=
          Nat.mul_le_mul_right _ (rne_mono (quantum_pos a) haB)
      _ = 2 ^ (bitLen b - 1) := by rw [rne_of_dvd hqa, Nat.div_mul_cancel hqa]
      _ = rne (2 ^ (bitLen b - 1)) (quantum b) * quantum b := by
          rw [rne_of_dvd hqb, Nat.div_mul_cancel hqb]
      _ ≤ rne b (quantum b) * quantum b :=
          Nat.mul_le_mul_right _ (rne_mono (quantum_pos b) hB)

end F64

namespace F64

theorem roundMag_le (n d : Nat) : roundMag n d ≤ 2 * (n / d) + 1 := by
  unfold roundMag
  simp only []
  have h1 := rne_le n (d * quantum (n / d))
  rw [← Nat.div_div_eq_div_mul] at h1
  have h2 := Nat.div_mul_le_self (n / d) (quantum (n / d))
  have h3 := quantum_le_succ (n / d)
  calc rne n (d * quantum (n / d)) * quantum (n / d)
      ≤ (n / d / quantum (n / d) + 1) * quantum (n / d) := Nat.mul_le_mul_right _ h1
    _ = n / d / quantum (n / d) * quantum (n / d) + quantum (n / d) := by ring
    _ ≤ 2 * (n / d) + 1 := by omega

theorem roundMag_zero (d : Nat) : roundMag 0 d = 0 := by
  simp [roundMag, rne]

theorem quantum_dvd_small {n : Nat} (hn : n < 2 ^ 53) : quantum (n * one) ∣ n * one := by
  have hlt : n * one < 2 ^ 1127 := by
    have h1 : n * one < 2 ^ 53 * one := Nat.mul_lt_mul_of_pos_right hn one_pos
    have h2 : 2 ^ 53 * one = 2 ^ 1127 := by rw [one_eq, ← pow_add]
    omega
  have hlen := bitLen_le_of_lt hlt
  have hq : quantum (n * one) ∣ one := by
    have h53 : bitLen (n * one) - 53 ≤ 1074 := by omega
    rw [one_eq]
    exact Nat.pow_dvd_pow 2 h53
  exact Dvd.dvd.mul_left hq n

theorem small_lt_huge {n : Nat} (hn : n < 2 ^ 53) : n * one < huge := by
  have h1 : n * one < 2 ^ 53 * one := Nat.mul_lt_mul_of_pos_right hn one_pos
  have h2 : 2 ^ 53 * one < huge := by decide!
  omega

theorem round_small (s : Bool) {n : Nat} (hn : n < 2 ^ 53) :
    round s (n * one) 1 = fin s (n * one) := by
  unfold round
  simp only []
  rw [roundMag_exact (quantum_dvd_small hn), if_pos (small_lt_huge hn)]

theorem round_small_div (s : Bool) {n : Nat} (hn : n < 2 ^ 53) :
    round s (n * one * one) one = fin s (n * one) := by
  have hq := quantum_dvd_small hn
  have hmag : roundMag (n * one * one) one = n * one := by
    unfold roundMag
    simp only []
    rw [Nat.mul_div_cancel _ one_pos]
    have hd : one * quantum (n * one) ∣ n * one * one := by
      rw [Nat.mul_comm (n * one) one]
      exact Nat.mul_dvd_mul_left one hq
    rw [rne_of_dvd hd, Nat.mul_comm (n * one) one,
      Nat.mul_div_mul_left _ _ one_pos, Nat.div_mul_cancel hq]
  unfold round
  simp only []
  rw [hmag, if_pos (small_lt_huge hn)]

theorem ofInt_small {z : Int} (hz : z.natAbs < 2 ^ 53) : ofInt z = exactInt z :=
  round_small _ hz

theorem signed_exactInt (x : Int) :
    signed (decide (x < 0)) (x.natAbs * one) = x * (one : Int) := by
  unfold signed
  by_cases h : x < 0
  · simp only [h, decide_True, if_true, Nat.cast_mul]
    rw [Int.ofNat_natAbs_of_nonpos (le_of_lt h)]
    ring
  · simp only [h, decide_False, Nat.cast_mul]
    rw [Int.natAbs_of_nonneg (not_lt.mp h)]
    simp

theorem roundInt_exact {y : Int} (hy : y.natAbs < 2 ^ 53) :
    roundInt (y * (one : Int)) = y * (one : Int) := by
  unfold roundInt
  have habs : (y * (one : Int)).natAbs = y.natAbs * one := by
    rw [Int.natAbs_mul, Int.natAbs_ofNat]
  have hsign : decide (y * (one : Int) < 0) = decide (y < 0) := by
    have hpos : (0 : Int) < (one : Int) := by exact_mod_cast one_pos
    by_cases h : y < 0
    · simp [h, mul_neg_of_neg_of_pos h hpos]
    · have : ¬ y * (one : Int) < 0 := not_lt.mpr (mul_nonneg (not_lt.mp h) (le_of_lt hpos))
      simp [h, this]
  rw [habs, hsign, roundMag_exact (quantum_dvd_small hy), signed_exactInt]

theorem roundInt_mono {x y : Int} (h : x ≤ y) : roundInt x ≤ roundInt y := by
  unfold roundInt signed
  by_cases hx : x < 0 <;> by_cases hy : y < 0
  · simp only [hx, hy, decide_True, if_true]
    have : y.natAbs ≤ x.natAbs := by omega
    have := roundMag_mono this
    omega
  · simp only [hx, hy, decide_True, decide_False, if_true]
    have h1 : (0 : Int) ≤ (roundMag x.natAbs 1 : Int) := Int.ofNat_nonneg _
    have h2 : (0 : Int) ≤ (roundMag y.natAbs 1 : Int) := Int.ofNat_nonneg _
    simp only [Bool.false_eq_true, if_false]
    omega
  · omega
  · simp only [hx, hy, decide_False, Bool.false_eq_true, if_false]
    have : x.natAbs ≤ y.natAbs := by omega
    have := roundMag_mono this
    omega

end F64
namespace F64

theorem signed_zero (s : Bool) : signed s 0 = 0 := by
  cases s <;> simp [signed]

theorem roundInt_zero : roundInt 0 = 0 := by
  simp [roundInt, roundMag_zero, signed]

theorem add_fin (s t : Bool) (m k : Nat)
    (hlt : roundMag (signed s m + signed t k).natAbs 1 < huge) :
    ∃ s' m', add (fin s m) (fin t k) = fin s' m' ∧
      signed s' m' = roundInt (signed s m + signed t k) := by
  unfold add
  simp only []
  by_cases hz : signed s m + signed t k = 0
  · rw [if_pos hz, hz, roundInt_zero]
    exact ⟨_, _, rfl, signed_zero _⟩
  · rw [if_neg hz]
    unfold round
    simp only []
    rw [if_pos hlt]
    exact ⟨_, _, rfl, rfl⟩

theorem costBase {fee : Int} (h : fee.natAbs ≤ 2 ^ 51) :
    ∃ s m, sub (ofInt 100) (mul (ofInt fee) (ofInt 2)) = fin s m ∧
      signed s m = (100 - 2 * fee) * (one : Int) := by
  have h100 : ofInt 100 = fin false (100 * one) := ofInt_small (by decide)
  have h2 : ofInt 2 = fin false (2 * one) := ofInt_small (by decide)
  have hf : ofInt fee = fin (decide (fee < 0)) (fee.natAbs * one) := ofInt_small (by omega)
  have hmul : mul (ofInt fee) (ofInt 2) = fin (decide (fee < 0)) (2 * fee.natAbs * one) := by
    rw [hf, h2]
    unfold mul
    simp only [Bool.xor_false]
    have hre : fee.natAbs * one * (2 * one) = 2 * fee.natAbs * one * one := by ring
    rw [hre]
    exact round_small_div _ (by omega)
  have hpos : (0 : Int) < (one : Int) := by exact_mod_cast one_pos
  have hsum : signed false (100 * one) + signed (!decide (fee < 0)) (2 * fee.natAbs * one) =
      (100 - 2 * fee) * (one : Int) := by
    unfold signed
    by_cases hneg : fee < 0
    · simp only [hneg, decide_True, Bool.not_true, Bool.false_eq_true, if_false, Nat.cast_mul,
        Nat.cast_ofNat]
      rw [Int.ofNat_natAbs_of_nonpos (le_of_lt hneg)]
      ring
    · simp only [hneg, decide_False, Bool.not_false, if_true, Bool.false_eq_true, if_false,
        Nat.cast_mul, Nat.cast_ofNat]
      rw [Int.natAbs_of_nonneg (not_lt.mp hneg)]
      ring
  unfold sub
  rw [hmul, h100]
  unfold neg
  simp only []
  have hexact : roundInt ((100 - 2 * fee) * (one : Int)) = (100 - 2 * fee) * (one : Int) :=
    roundInt_exact (by omega)
  have hlt : roundMag (signed false (100 * one) +
      signed (!decide (fee < 0)) (2 * fee.natAbs * one)).natAbs 1 < huge := by
    rw [hsum]
    have habs : ((100 - 2 * fee) * (one : Int)).natAbs = (100 - 2 * fee).natAbs * one := by
      rw [Int.natAbs_mul, Int.natAbs_ofNat]
    rw [habs, roundMag_exact (quantum_dvd_small (by omega))]
    exact small_lt_huge (by omega)
  obtain ⟨s', m', heq, hval⟩ := add_fin false (!decide (fee < 0)) (100 * one)
    (2 * fee.natAbs * one) hlt
  exact ⟨s', m', heq, by rw [hval, hsum, hexact]⟩

theorem successTerm {sr : F64} (h0 : le (ofInt 0) sr = true) (h1 : le sr (ofInt 1) = true) :
    ∃ s k, mul sr (ofInt 20) = fin s k ∧ 0 ≤ signed s k ∧ signed s k ≤ 41 * (one : Int) := by
  have hz : ofInt 0 = fin false (0 * one) := ofInt_small (by decide)
  have ho : ofInt 1 = fin false (1 * one) := ofInt_small (by decide)
  have h20 : ofInt 20 = fin false (20 * one) := ofInt_small (by decide)
  rw [hz] at h0
  rw [ho] at h1
  rcases sr with _ | t | ⟨s, m⟩
  · simp [le] at h0
  · cases t <;> simp [le] at h0 h1
  · simp only [le, decide_eq_true_eq] at h0 h1
    rw [h20]
    unfold mul
    simp only [Bool.xor_false]
    have hm : m ≤ one ∧ (s = true → m = 0) := by
      unfold signed at h0 h1
      cases s
      · simp at h0 h1
        exact ⟨by omega, by simp⟩
      · simp at h0 h1
        have hm0 : m = 0 := by omega
        exact ⟨by omega, fun _ => hm0⟩
    have hdiv : m * (20 * one) / one = m * 20 := by
      rw [← Nat.mul_assoc]
      exact Nat.mul_div_cancel _ one_pos
    have hle := roundMag_le (m * (20 * one)) one
    rw [hdiv] at hle
    have hhuge : 41 * one < huge := by decide!
    have h1le : 1 ≤ one := one_pos
    unfold round
    simp only []
    rw [if_pos (by omega)]
    refine ⟨s, _, rfl, ?_, ?_⟩
    · cases s
      · simp [signed]
      · rw [hm.2 rfl]
        simp [roundMag_zero, signed]
    · cases s
      · simp only [signed, Bool.false_eq_true, if_false]
        omega
      · rw [hm.2 rfl]
        simp [roundMag_zero, signed]

theorem sum_lt_of_base_lt {sa sb ss : Bool} {ma mb k : Nat} {xa xb : Int}
    (ha : signed sa ma = xa * (one : Int)) (hb : signed sb mb = xb * (one : Int))
    (hxa : xa.natAbs ≤ 2 ^ 52 + 100) (hxb : xb.natAbs ≤ 2 ^ 52 + 100)
    (hk0 : 0 ≤ signed ss k) (hk1 : signed ss k ≤ 41 * (one : Int))
    (hlt : xb + 2 ≤ xa) :
    lt (add (fin sb mb) (fin ss k)) (add (fin sa ma) (fin ss k)) = true := by
  have hpos : (0 : Int) < (one : Int) := by exact_mod_cast one_pos
  have hhuge : (2 * ((2 ^ 52 + 141) * one) + 1 : Nat) < huge := by decide!
  have bound : ∀ x : Int, x.natAbs ≤ 2 ^ 52 + 100 →
      roundMag (x * (one : Int) + signed ss k).natAbs 1 < huge := by
    intro x hx
    have h1 := roundMag_le (x * (one : Int) + signed ss k).natAbs 1
    rw [Nat.div_one] at h1
    have h2 : (x * (one : Int) + signed ss k).natAbs ≤ (2 ^ 52 + 141) * one := by
      have h3 : (x * (one : Int)).natAbs = x.natAbs * one := by
        rw [Int.natAbs_mul, Int.natAbs_ofNat]
      have h4 := Int.natAbs_add_le (x * (one : Int)) (signed ss k)
      have h5 : (signed ss k).natAbs ≤ 41 * one := by omega
      have h6 : x.natAbs * one ≤ (2 ^ 52 + 100) * one := Nat.mul_le_mul_right _ hx
      rw [h3] at h4
      have h7 : (2 ^ 52 + 141) * one = (2 ^ 52 + 100) * one + 41 * one := by ring
      omega
    omega
  obtain ⟨sa', ma', heqa, hva⟩ := add_fin sa ss ma k (by rw [ha]; exact bound xa hxa)
  obtain ⟨sb', mb', heqb, hvb⟩ := add_fin sb ss mb k (by rw [hb]; exact bound xb hxb)
  rw [heqa, heqb]
  simp only [lt, decide_eq_true_eq]
  rw [hva, hvb, ha, hb]
  -- two integers lie between the two sums
  obtain ⟨j, r, hjr, hr0, hr1, hj0, hj1⟩ : ∃ j r : Int, signed ss k = j * (one : Int) + r ∧
      0 ≤ r ∧ r < (one : Int) ∧ 0 ≤ j ∧ j ≤ 41 := by
    refine ⟨signed ss k / (one : Int), signed ss k % (one : Int), ?_,
      Int.emod_nonneg _ (ne_of_gt hpos), Int.emod_lt_of_pos _ hpos,
      Int.ediv_nonneg hk0 (le_of_lt hpos), ?_⟩
    · rw [Int.mul_comm]
      exact (Int.ediv_add_emod _ _).symm
    · exact Int.ediv_le_of_le_mul hpos hk1
  have hy1 : roundInt ((xb + j + 1) * (one : Int)) = (xb + j + 1) * (one : Int) :=
    roundInt_exact (by omega)
  have hy2 : roundInt ((xb + j + 2) * (one : Int)) = (xb + j + 2) * (one : Int) :=
    roundInt_exact (by omega)
  have hxab : (xb + 2) * (one : Int) ≤ xa * (one : Int) :=
    mul_le_mul_of_nonneg_right hlt (le_of_lt hpos)
  have h1 : roundInt (xb * (one : Int) + signed ss k) ≤ (xb + j + 1) * (one : Int) := by
    rw [← hy1]
    apply roundInt_mono
    rw [hjr]
    have : (xb + j + 1) * (one : Int) = xb * (one : Int) + j * (one : Int) + (one : Int) := by
      ring
    omega
  have h2 : (xb + j + 2) * (one : Int) ≤ roundInt (xa * (one : Int) + signed ss k) := by
    rw [← hy2]
    apply roundInt_mono
    rw [hjr]
    have e1 : (xb + j + 2) * (one : Int) =
        xb * (one : Int) + j * (one : Int) + 2 * (one : Int) := by ring
    have e2 : (xb + 2) * (one : Int) = xb * (one : Int) + 2 * (one : Int) := by ring
    omega
  have h3 : (xb + j + 1) * (one : Int) < (xb + j + 2) * (one : Int) := by
    have e1 : (xb + j + 2) * (one : Int) = (xb + j + 1) * (one : Int) + (one : Int) := by ring
    omega
  omega

end F64

/-- C2, as amended: for priority `cost`, two routes with the same success
rate, between 0 and 1, and fees of magnitude at most `2^51`: the route with
the smaller fee has the strictly greater score. -/
theorem C2_cost_ranks_by_fee (c : MemoryCatalog) (a b : RouteOption) (p : RoutePreferences)
    (hp : p.Priority = "cost") (hsr : a.SuccessRate = b.SuccessRate)
    (h0 : F64.le (F64.ofInt 0) a.SuccessRate = true)
    (h1 : F64.le a.SuccessRate (F64.ofInt 1) = true)
    (ha : a.EstimatedFee.natAbs ≤ 2 ^ 51) (hb : b.EstimatedFee.natAbs ≤ 2 ^ 51)
    (hfee : a.EstimatedFee < b.EstimatedFee) :
    F64.gt (c.ScoreRoute a p) (c.ScoreRoute b p) = true := by
  have hscore : ∀ r : RouteOption, c.ScoreRoute r p =
      F64.add (F64.sub (F64.ofInt 100) (F64.mul (F64.ofInt r.EstimatedFee) (F64.ofInt 2)))
        (F64.mul r.SuccessRate (F64.ofInt 20)) := by
    intro r
    unfold MemoryCatalog.ScoreRoute
    simp [hp]
  rw [hscore a, hscore b, ← hsr]
  obtain ⟨sa, ma, hea, hva⟩ := F64.costBase ha
  obtain ⟨sb, mb, heb, hvb⟩ := F64.costBase hb
  obtain ⟨ss, k, hes, hk0, hk1⟩ := F64.successTerm h0 h1
  rw [hea, heb, hes]
  unfold F64.gt
  exact F64.sum_lt_of_base_lt hva hvb (by omega) (by omega) hk0 hk1 (by omega)

/-- C2, counterexample: the fees `2^53` and `2^53 + 1` convert to the same
`float64`, so two routes with these fees and the same success rate get the
same score under priority `cost`: the cheaper one is not ranked strictly
first. -/
theorem C2_counterexample :
    (routeWithFee "a" 9007199254740992).EstimatedFee <
      (routeWithFee "b" 9007199254740993).EstimatedFee ∧
    (routeWithFee "a" 9007199254740992).SuccessRate =
      (routeWithFee "b" 9007199254740993).SuccessRate ∧
    MemoryCatalog.ScoreRoute MemoryCatalog.NewMemoryCatalog (routeWithFee "a" 9007199254740992)
        (intentFor "X" "Y" "cost" 0).Preferences =
      MemoryCatalog.ScoreRoute MemoryCatalog.NewMemoryCatalog (routeWithFee "b" 9007199254740993)
        (intentFor "X" "Y" "cost" 0).Preferences ∧
    F64.gt
      (MemoryCatalog.ScoreRoute MemoryCatalog.NewMemoryCatalog
        (routeWithFee "a" 9007199254740992) (intentFor "X" "Y" "cost" 0).Preferences)
      (MemoryCatalog.ScoreRoute MemoryCatalog.NewMemoryCatalog
        (routeWithFee "b" 9007199254740993) (intentFor "X" "Y" "cost" 0).Preferences) = false := by
  decide!

/-- C2, witness: fees 2 and 5 with success rate 0.99. -/
theorem C2_witness :
    F64.gt
      (MemoryCatalog.ScoreRoute MemoryCatalog.NewMemoryCatalog (routeWithFee "a" 2)
        (intentFor "X" "Y" "cost" 0).Preferences)
      (MemoryCatalog.ScoreRoute MemoryCatalog.NewMemoryCatalog (routeWithFee "b" 5)
        (intentFor "X" "Y" "cost" 0).Preferences) = true :=
  C2_cost_ranks_by_fee MemoryCatalog.NewMemoryCatalog (routeWithFee "a" 2) (routeWithFee "b" 5)
    (intentFor "X" "Y" "cost" 0).Preferences rfl rfl (by decide!) (by decide!) (by decide)
    (by decide) (by decide)

/-! ## The paths of `ExecutePayment` -/

namespace Service

theorem ExecutePayment_balanceErr {ω : Type} (rt : Runtime ω) (s : Service ω)
    (intent : PaymentIntent) (route : RouteOption) (w : ω) (e : Err)
    (h : (balanceOf rt s intent w).1.2 = some e) :
    ExecutePayment rt s intent route w =
      { result := PayResult.returned none (some e), world := (balanceOf rt s intent w).2,
        calls := [Call.GetBalance intent.From] } := by
  unfold balanceOf at h
  simp only [ExecutePayment, balanceOf, h]

theorem ExecutePayment_insufficient {ω : Type} (rt : Runtime ω) (s : Service ω)
    (intent : PaymentIntent) (route : RouteOption) (w : ω)
    (h : (balanceOf rt s intent w).1.2 = none)
    (hlt : (balanceOf rt s intent w).1.1 < wrap64 (intent.Amount + route.EstimatedFee)) :
    ExecutePayment rt s intent route w =
      { result := PayResult.returned none (some Err.ErrInsufficientFunds),
        world := (balanceOf rt s intent w).2, calls := [Call.GetBalance intent.From] } := by
  unfold balanceOf at h hlt
  simp only [ExecutePayment, balanceOf, h, hlt, if_true]

theorem ExecutePayment_transferPanic {ω : Type} (rt : Runtime ω) (s : Service ω)
    (intent : PaymentIntent) (route : RouteOption) (w : ω)
    (hb : balancePasses rt s intent route w) (ht : (transferred rt s intent w).1 = none) :
    ExecutePayment rt s intent route w =
      { result := PayResult.panic, world := (transferred rt s intent w).2,
        calls := [Call.GetBalance intent.From,
                  Call.ExecuteTransfer intent.From intent.To intent.Amount] } := by
  obtain ⟨h, hlt⟩ := hb
  unfold transferred balanceOf at ht
  unfold balanceOf at h hlt
  simp only [ExecutePayment, transferred, balanceOf, h, hlt, if_false, ht,
    List.singleton_append]

theorem ExecutePayment_failed {ω : Type} (rt : Runtime ω) (s : Service ω)
    (intent : PaymentIntent) (route : RouteOption) (w : ω) (txHash : String) (e : Err)
    (hb : balancePasses rt s intent route w)
    (ht : (transferred rt s intent w).1 = some (txHash, some e)) :
    ExecutePayment rt s intent route w =
      match (failureUpdate rt s intent route w).1 with
      | none =>
        { result := PayResult.panic, world := (failureUpdate rt s intent route w).2,
          calls := [Call.GetBalance intent.From,
                    Call.ExecuteTransfer intent.From intent.To intent.Amount,
                    Call.UpdateMetrics (failureMetric rt s intent route w)] }
      | some _ =>
        { result := PayResult.returned
            (some { ExecutionID := (generateExecutionID rt (rt.Now w).2).1, Intent := intent,
                    Route := route, TxHash := "", Status := "failed", ActualFee := 0,
                    ActualTime := 0,
                    ExecutedAt := (rt.Now (failureUpdate rt s intent route w).2).1,
                    CompletedAt := none, Error := e.Error })
            (some Err.ErrPaymentFailed),
          world := (rt.Now (failureUpdate rt s intent route w).2).2,
          calls := [Call.GetBalance intent.From,
                    Call.ExecuteTransfer intent.From intent.To intent.Amount,
                    Call.UpdateMetrics (failureMetric rt s intent route w)] } := by
  obtain ⟨h, hlt⟩ := hb
  unfold transferred balanceOf at ht
  unfold balanceOf at h hlt
  simp only [ExecutePayment, failureUpdate, failureMetric, transferred, balanceOf, h, hlt,
    if_false, ht, List.singleton_append, List.cons_append, List.nil_append]

theorem ExecutePayment_executed {ω : Type} (rt : Runtime ω) (s : Service ω)
    (intent : PaymentIntent) (route : RouteOption) (w : ω) (txHash : String)
    (hb : balancePasses rt s intent route w)
    (ht : (transferred rt s intent w).1 = some (txHash, none)) :
    ExecutePayment rt s intent route w =
      match (successUpdate rt s intent route w).1 with
      | none =>
        { result := PayResult.panic, world := (successUpdate rt s intent route w).2,
          calls := [Call.GetBalance intent.From,
                    Call.ExecuteTransfer intent.From intent.To intent.Amount,
                    Call.UpdateMetrics (successMetric rt s intent route w)] }
      | some _ =>
        { result := PayResult.returned
            (some { ExecutionID := (generateExecutionID rt (rt.Now w).2).1, Intent := intent,
                    Route := route, TxHash := txHash, Status := "executed",
                    ActualFee := route.EstimatedFee,
                    ActualTime := (rt.Now (transferred rt s intent w).2).1 - (rt.Now w).1,
                    ExecutedAt := (rt.Now w).1,
                    CompletedAt := some (rt.Now (successUpdate rt s intent route w).2).1,
                    Error := "" })
            none,
          world := (rt.Now (successUpdate rt s intent route w).2).2,
          calls := [Call.GetBalance intent.From,
                    Call.ExecuteTransfer intent.From intent.To intent.Amount,
                    Call.UpdateMetrics (successMetric rt s intent route w)] } := by
  obtain ⟨h, hlt⟩ := hb
  unfold transferred balanceOf at ht
  unfold balanceOf at h hlt
  simp only [ExecutePayment, successUpdate, successMetric, transferred, balanceOf, h, hlt,
    if_false, ht, List.singleton_append, List.cons_append, List.nil_append]

end Service

/-! ## Claims about `ExecutePayment` and `Pay` -/

theorem wrap64_of_range {z : Int} (hlo : -(2 : Int) ^ 63 ≤ z) (hhi : z < (2 : Int) ^ 63) :
    wrap64 z = z := by
  unfold wrap64
  have h : (z + 2 ^ 63) % 2 ^ 64 = z + 2 ^ 63 :=
    Int.emod_eq_of_lt (by omega) (by omega)
  omega

/-- When the sum of the amount and the fee is in the range of `int64` and the
balance is less than it, `ExecutePayment` fails with `ErrInsufficientFunds`
after the one call of `GetBalance`. -/
theorem Service.ExecutePayment_shortfall {ω : Type} (rt : Runtime ω) (s : Service ω)
    (intent : PaymentIntent) (route : RouteOption) (w : ω)
    (h : (balanceOf rt s intent w).1.2 = none)
    (hlo : -(2 : Int) ^ 63 ≤ intent.Amount + route.EstimatedFee)
    (hhi : intent.Amount + route.EstimatedFee < (2 : Int) ^ 63)
    (hlt : (balanceOf rt s intent w).1.1 < intent.Amount + route.EstimatedFee) :
    Service.ExecutePayment rt s intent route w =
      { result := Service.PayResult.returned none (some Err.ErrInsufficientFunds),
        world := (balanceOf rt s intent w).2, calls := [Call.GetBalance intent.From] } :=
  Service.ExecutePayment_insufficient rt s intent route w h
    (by rw [wrap64_of_range hlo hhi]; exact hlt)

/-- C11 (the code diverges): the scenario of the specification (balance 100,
amount 99, fee 2) fails with `ErrInsufficientFunds` after the one call of
`GetBalance`; but on the wired adapters a payment of 9223372036854775807 over
the direct route (fee 2) from a wallet whose balance is 1000000 passes the
balance check, because the `int64` sum wraps to -9223372036854775807:
`ExecuteTransfer` is called, a success metric is recorded and the payment is
returned as executed. -/
theorem C11_overflow_passes_balance_check :
    ((Service.ExecutePayment (World.runtime insertionSort_func)
        (paymentService 100 none (some ("", none))) (paymentOf 99)
        (MemoryCatalog.directRoute "WALLET_A" "WALLET_B")
        (World.initial (fun n => 1000 * (n : Int)))).result
      = Service.PayResult.returned none (some Err.ErrInsufficientFunds) ∧
     (Service.ExecutePayment (World.runtime insertionSort_func)
        (paymentService 100 none (some ("", none))) (paymentOf 99)
        (MemoryCatalog.directRoute "WALLET_A" "WALLET_B")
        (World.initial (fun n => 1000 * (n : Int)))).calls
      = [Call.GetBalance "WALLET_A"]) ∧
    (MockPaymentClient.GetBalance "WALLET_A" <
        (paymentOf 9223372036854775807).Amount +
          (MemoryCatalog.directRoute "WALLET_A" "WALLET_B").EstimatedFee ∧
     wrap64 ((paymentOf 9223372036854775807).Amount +
          (MemoryCatalog.directRoute "WALLET_A" "WALLET_B").EstimatedFee)
       = -9223372036854775807 ∧
     (Service.ExecutePayment (World.runtime insertionSort_func) World.service
        (paymentOf 9223372036854775807) (MemoryCatalog.directRoute "WALLET_A" "WALLET_B")
        (World.initial (fun n => 1000 * (n : Int)))).calls
      = [Call.GetBalance "WALLET_A",
         Call.ExecuteTransfer "WALLET_A" "WALLET_B" 9223372036854775807,
         Call.UpdateMetrics { RouteID := "direct", Success := true, ActualFee := 2,
                              ActualTime := 1000, ExecutedAt := 2000 }] ∧
     (Service.ExecutePayment (World.runtime insertionSort_func) World.service
        (paymentOf 9223372036854775807) (MemoryCatalog.directRoute "WALLET_A" "WALLET_B")
        (World.initial (fun n => 1000 * (n : Int)))).result
      = Service.PayResult.returned
          (some { ExecutionID := "00000000000000000000000000000000",
                  Intent := paymentOf 9223372036854775807,
                  Route := MemoryCatalog.directRoute "WALLET_A" "WALLET_B",
                  TxHash := "0xWALLET_AWALLET_B9223372036854775807", Status := "executed",
                  ActualFee := 2, ActualTime := 1000, ExecutedAt := 0,
                  CompletedAt := some 6000,
                  Error := "" })
          none) := by
  refine ⟨⟨?_, ?_⟩, ?_, ?_, ?_, ?_⟩
  · decide!
  · decide!
  · decide!
  · decide!
  · decide!
  · decide!
theorem Service.FindRoute_calls {ω : Type} (rt : Runtime ω) (s : Service ω)
    (intent : PaymentIntent) (w : ω) :
    ∀ c ∈ (Service.FindRoute rt s intent w).calls, c.ofExecutePayment = false := by
  intro c hc
  unfold Service.FindRoute at hc
  simp only [] at hc
  repeat' split at hc
  all_goals
    simp only [List.mem_append, List.mem_map, List.mem_singleton, List.mem_cons,
      List.not_mem_nil, or_false] at hc
  all_goals
    first
    | (subst hc; rfl)
    | (rcases hc with rfl | rfl <;> rfl)
    | (rcases hc with (rfl | rfl) | ⟨r, -, rfl⟩ <;> rfl)
    | (rcases hc with ((rfl | rfl) | ⟨r, -, rfl⟩) | rfl <;> rfl)
/-- C12: when the balance check passes, `ExecuteTransfer` fails with error
`e` and `UpdateMetrics` returns, `ExecutePayment` returns the error
`ErrPaymentFailed` together with an execution that has the given intent and
route, status `failed`, the message of `e` as its error and an empty
transaction hash; the calls it made are `GetBalance`, `ExecuteTransfer` and one
`UpdateMetrics`, whose metric has the identifier of the route, `Success`
false, and fee and time 0. -/
theorem C12_failed_transfer {ω : Type} (rt : Runtime ω) (s : Service ω)
    (intent : PaymentIntent) (route : RouteOption) (w : ω) (txHash : String) (e : Err)
    (hb : balancePasses rt s intent route w)
    (ht : (transferred rt s intent w).1 = some (txHash, some e))
    (hu : (failureUpdate rt s intent route w).1 ≠ none) :
    (Service.ExecutePayment rt s intent route w).result =
      Service.PayResult.returned
        (some { ExecutionID := (Service.generateExecutionID rt (rt.Now w).2).1,
                Intent := intent, Route := route, TxHash := "", Status := "failed",
                ActualFee := 0, ActualTime := 0,
                ExecutedAt := (rt.Now (failureUpdate rt s intent route w).2).1,
                CompletedAt := none, Error := e.Error })
        (some Err.ErrPaymentFailed) ∧
    (Service.ExecutePayment rt s intent route w).calls =
      [Call.GetBalance intent.From,
       Call.ExecuteTransfer intent.From intent.To intent.Amount,
       Call.UpdateMetrics
         { RouteID := route.RouteID, Success := false, ActualFee := 0, ActualTime := 0,
           ExecutedAt := (rt.Now (transferred rt s intent w).2).1 }] ∧
    (Service.ExecutePayment rt s intent route w).world =
      (rt.Now (failureUpdate rt s intent route w).2).2 := by
  rw [Service.ExecutePayment_failed rt s intent route w txHash e hb ht]
  cases hcase : (failureUpdate rt s intent route w).1 with
  | none => exact absurd hcase hu
  | some _ => exact ⟨rfl, rfl, rfl⟩

/-- C13: when the balance check passes, `ExecuteTransfer` succeeds with hash
`h` and `UpdateMetrics` returns, `ExecutePayment` returns no error and an
execution with status `executed`, transaction hash `h`, the estimated fee of
the route as its actual fee, a completion time and an empty error; the calls
it made are `GetBalance`, `ExecuteTransfer` and one `UpdateMetrics`, whose
metric has the identifier of the route, `Success` true and the estimated fee
of the route as its fee. -/
theorem C13_executed_transfer {ω : Type} (rt : Runtime ω) (s : Service ω)
    (intent : PaymentIntent) (route : RouteOption) (w : ω) (h : String)
    (hb : balancePasses rt s intent route w)
    (ht : (transferred rt s intent w).1 = some (h, none))
    (hu : (successUpdate rt s intent route w).1 ≠ none) :
    (Service.ExecutePayment rt s intent route w).result =
      Service.PayResult.returned
        (some { ExecutionID := (Service.generateExecutionID rt (rt.Now w).2).1,
                Intent := intent, Route := route, TxHash := h, Status := "executed",
                ActualFee := route.EstimatedFee,
                ActualTime := (rt.Now (transferred rt s intent w).2).1 - (rt.Now w).1,
                ExecutedAt := (rt.Now w).1,
                CompletedAt := some (rt.Now (successUpdate rt s intent route w).2).1,
                Error := "" })
        none ∧
    (Service.ExecutePayment rt s intent route w).calls =
      [Call.GetBalance intent.From,
       Call.ExecuteTransfer intent.From intent.To intent.Amount,
       Call.UpdateMetrics
         { RouteID := route.RouteID, Success := true, ActualFee := route.EstimatedFee,
           ActualTime := (rt.Now (transferred rt s intent w).2).1 - (rt.Now w).1,
           ExecutedAt := (rt.Now (rt.Now (transferred rt s intent w).2).2).1 }] ∧
    (Service.ExecutePayment rt s intent route w).world =
      (rt.Now (successUpdate rt s intent route w).2).2 := by
  rw [Service.ExecutePayment_executed rt s intent route w h hb ht]
  cases hcase : (successUpdate rt s intent route w).1 with
  | none => exact absurd hcase hu
  | some _ => exact ⟨rfl, rfl, rfl⟩

/-- C14 (the code diverges): every execution `ExecutePayment` returns is either
an executed one (status `executed`, completion time present, empty error,
returned with no error) or a failed one (status `failed`, empty transaction
hash, returned with `ErrPaymentFailed`) whose completion time is absent and
whose error is the message of the backend error, empty if that message is. -/
theorem C14_record_shape {ω : Type} (rt : Runtime ω) (s : Service ω)
    (intent : PaymentIntent) (route : RouteOption) (w : ω) (x : PaymentExecution)
    (err : Option Err)
    (hx : (Service.ExecutePayment rt s intent route w).result =
      Service.PayResult.returned (some x) err) :
    (x.Status = "executed" ∧ x.CompletedAt.isSome = true ∧ x.Error = "" ∧ err = none) ∨
    (x.Status = "failed" ∧ x.CompletedAt = none ∧ x.TxHash = "" ∧
      err = some Err.ErrPaymentFailed ∧
      ∃ txHash e, (transferred rt s intent w).1 = some (txHash, some e) ∧
        x.Error = e.Error) := by
  cases hbal : (balanceOf rt s intent w).1.2 with
  | some e =>
    rw [Service.ExecutePayment_balanceErr rt s intent route w e hbal] at hx
    simp at hx
  | none =>
    by_cases hlt : (balanceOf rt s intent w).1.1 < wrap64 (intent.Amount + route.EstimatedFee)
    · rw [Service.ExecutePayment_insufficient rt s intent route w hbal hlt] at hx
      simp at hx
    · have hb : balancePasses rt s intent route w := ⟨hbal, hlt⟩
      cases ht : (transferred rt s intent w).1 with
      | none =>
        rw [Service.ExecutePayment_transferPanic rt s intent route w hb ht] at hx
        simp at hx
      | some p =>
        obtain ⟨txHash, oe⟩ := p
        cases oe with
        | some e =>
          rw [Service.ExecutePayment_failed rt s intent route w txHash e hb ht] at hx
          cases hcase : (failureUpdate rt s intent route w).1 with
          | none => rw [hcase] at hx; simp at hx
          | some _ =>
            rw [hcase] at hx
            simp only [Service.PayResult.returned.injEq, Option.some.injEq] at hx
            obtain ⟨hx, herr⟩ := hx
            subst hx
            exact Or.inr ⟨rfl, rfl, rfl, herr.symm, txHash, e, rfl, rfl⟩
        | none =>
          rw [Service.ExecutePayment_executed rt s intent route w txHash hb ht] at hx
          cases hcase : (successUpdate rt s intent route w).1 with
          | none => rw [hcase] at hx; simp at hx
          | some _ =>
            rw [hcase] at hx
            simp only [Service.PayResult.returned.injEq, Option.some.injEq] at hx
            obtain ⟨hx, herr⟩ := hx
            subst hx
            exact Or.inl ⟨rfl, rfl, rfl, herr.symm⟩

/-- C15: `Pay` is `FindRoute` followed by `ExecutePayment`. If `FindRoute`
fails with error `e`, `Pay` returns no execution and `e`, makes the calls of
`FindRoute` only, none of them a `GetBalance`, an `ExecuteTransfer` or an
`UpdateMetrics`, and leaves the world as `FindRoute` does. If `FindRoute`
returns a decision, `Pay` returns what `ExecutePayment` returns for the
selected route, run in the world `FindRoute` leaves, and makes the calls of
the two in that order. -/
theorem C15_Pay_is_FindRoute_then_ExecutePayment {ω : Type} (rt : Runtime ω) (s : Service ω)
    (intent : PaymentIntent) (w : ω) :
    (∀ e, (Service.FindRoute rt s intent w).result = FindResult.fail e →
      (Service.Pay rt s intent w).result = Service.PayResult.returned none (some e) ∧
      (Service.Pay rt s intent w).calls = (Service.FindRoute rt s intent w).calls ∧
      (Service.Pay rt s intent w).world = (Service.FindRoute rt s intent w).world ∧
      ∀ c ∈ (Service.Pay rt s intent w).calls, c.ofExecutePayment = false) ∧
    (∀ d, (Service.FindRoute rt s intent w).result = FindResult.ok d →
      (Service.Pay rt s intent w).result =
        (Service.ExecutePayment rt s intent d.SelectedRoute
          (Service.FindRoute rt s intent w).world).result ∧
      (Service.Pay rt s intent w).world =
        (Service.ExecutePayment rt s intent d.SelectedRoute
          (Service.FindRoute rt s intent w).world).world ∧
      (Service.Pay rt s intent w).calls =
        (Service.FindRoute rt s intent w).calls ++
          (Service.ExecutePayment rt s intent d.SelectedRoute
            (Service.FindRoute rt s intent w).world).calls) := by
  constructor
  · intro e he
    have hpay : Service.Pay rt s intent w =
        { result := Service.PayResult.returned none (some e),
          world := (Service.FindRoute rt s intent w).world,
          calls := (Service.FindRoute rt s intent w).calls } := by
      simp only [Service.Pay, he]
    rw [hpay]
    exact ⟨rfl, rfl, rfl, Service.FindRoute_calls rt s intent w⟩
  · intro d hd
    simp only [Service.Pay, hd, and_self]
/-- C12, witness: a backend with balance 1000000 whose transfer times out,
started at start-up with a clock that advances by 1000 at each reading. -/
theorem C12_witness :
    (Service.ExecutePayment (World.runtime insertionSort_func)
        (paymentService 1000000 none (some ("", some backendTimeout))) (paymentOf 100)
        (MemoryCatalog.directRoute "WALLET_A" "WALLET_B")
        (World.initial (fun n => 1000 * (n : Int)))).result =
      Service.PayResult.returned
        (some { ExecutionID := "00000000000000000000000000000000",
                Intent := paymentOf 100,
                Route := MemoryCatalog.directRoute "WALLET_A" "WALLET_B",
                TxHash := "", Status := "failed", ActualFee := 0, ActualTime := 0,
                ExecutedAt := 5000, CompletedAt := none, Error := "timeout exceeded" })
        (some Err.ErrPaymentFailed) :=
  (C12_failed_transfer (World.runtime insertionSort_func)
    (paymentService 1000000 none (some ("", some backendTimeout))) (paymentOf 100)
    (MemoryCatalog.directRoute "WALLET_A" "WALLET_B")
    (World.initial (fun n => 1000 * (n : Int))) "" backendTimeout
    ⟨by decide!, by decide!⟩ (by decide!) (by decide!)).1

/-- C13, witness: the wired adapters at start-up, with a clock that advances
by 1000 at each reading. -/
theorem C13_witness :
    (Service.ExecutePayment (World.runtime insertionSort_func) World.service (paymentOf 100)
        (MemoryCatalog.directRoute "WALLET_A" "WALLET_B")
        (World.initial (fun n => 1000 * (n : Int)))).result =
      Service.PayResult.returned
        (some { ExecutionID := "00000000000000000000000000000000",
                Intent := paymentOf 100,
                Route := MemoryCatalog.directRoute "WALLET_A" "WALLET_B",
                TxHash := "0xWALLET_AWALLET_B100", Status := "executed", ActualFee := 2,
                ActualTime := 1000, ExecutedAt := 0, CompletedAt := some 6000,
                Error := "" })
        none :=
  (C13_executed_transfer (World.runtime insertionSort_func) World.service (paymentOf 100)
    (MemoryCatalog.directRoute "WALLET_A" "WALLET_B")
    (World.initial (fun n => 1000 * (n : Int))) "0xWALLET_AWALLET_B100"
    ⟨by decide!, by decide!⟩ (by decide!) (by decide!)).1

/-- C14, witness: the execution returned when the transfer times out has
status `failed` and no completion time. -/
theorem C14_witness :
    (Service.ExecutePayment (World.runtime insertionSort_func)
        (paymentService 1000000 none (some ("", some backendTimeout))) (paymentOf 100)
        (MemoryCatalog.directRoute "WALLET_A" "WALLET_B")
        (World.initial (fun n => 1000 * (n : Int)))).result =
      Service.PayResult.returned
        (some { ExecutionID := "00000000000000000000000000000000",
                Intent := paymentOf 100,
                Route := MemoryCatalog.directRoute "WALLET_A" "WALLET_B",
                TxHash := "", Status := "failed", ActualFee := 0, ActualTime := 0,
                ExecutedAt := 5000, CompletedAt := none, Error := "timeout exceeded" })
        (some Err.ErrPaymentFailed) ∧
    ((("failed" : String) = "executed" ∧ (none : Option Int).isSome = true ∧
        ("timeout exceeded" : String) = "" ∧ some Err.ErrPaymentFailed = none) ∨
     (("failed" : String) = "failed" ∧ (none : Option Int) = none ∧ ("" : String) = "" ∧
        some Err.ErrPaymentFailed = some Err.ErrPaymentFailed ∧
        ∃ txHash e,
          (transferred (World.runtime insertionSort_func)
            (paymentService 1000000 none (some ("", some backendTimeout))) (paymentOf 100)
            (World.initial (fun n => 1000 * (n : Int)))).1 = some (txHash, some e) ∧
          ("timeout exceeded" : String) = e.Error)) :=
  ⟨by decide!,
   C14_record_shape (World.runtime insertionSort_func)
    (paymentService 1000000 none (some ("", some backendTimeout))) (paymentOf 100)
    (MemoryCatalog.directRoute "WALLET_A" "WALLET_B")
    (World.initial (fun n => 1000 * (n : Int)))
    { ExecutionID := "00000000000000000000000000000000",
      Intent := paymentOf 100,
      Route := MemoryCatalog.directRoute "WALLET_A" "WALLET_B",
      TxHash := "", Status := "failed", ActualFee := 0, ActualTime := 0,
      ExecutedAt := 5000, CompletedAt := none, Error := "timeout exceeded" }
    (some Err.ErrPaymentFailed) (by decide!)⟩

/-- C15, witness: at start-up `Pay` with a fee bound of 1 fails as `FindRoute`
does, with `ErrFeeExceedsMax`, and makes no call of `GetBalance`,
`ExecuteTransfer` or `UpdateMetrics`. -/
theorem C15_witness :
    (Service.Pay (World.runtime insertionSort_func) World.service
        (intentFor "WALLET_A" "WALLET_B" "cost" 1)
        (World.initial (fun n => 1000 * (n : Int)))).result =
      Service.PayResult.returned none (some Err.ErrFeeExceedsMax) ∧
    ∀ c ∈ (Service.Pay (World.runtime insertionSort_func) World.service
        (intentFor "WALLET_A" "WALLET_B" "cost" 1)
        (World.initial (fun n => 1000 * (n : Int)))).calls, c.ofExecutePayment = false :=
  ⟨((C15_Pay_is_FindRoute_then_ExecutePayment (World.runtime insertionSort_func)
      World.service (intentFor "WALLET_A" "WALLET_B" "cost" 1)
      (World.initial (fun n => 1000 * (n : Int)))).1 Err.ErrFeeExceedsMax (by decide!)).1,
   ((C15_Pay_is_FindRoute_then_ExecutePayment (World.runtime insertionSort_func)
      World.service (intentFor "WALLET_A" "WALLET_B" "cost" 1)
      (World.initial (fun n => 1000 * (n : Int)))).1 Err.ErrFeeExceedsMax
      (by decide!)).2.2.2⟩

/-! ## Claims about the cache -/

/-- C19, counterexample: for a route with no history the default of
`GetHealth` has an average fee of 2 and an average time of 150, not 0. -/
theorem C19_counterexample :
    MemoryCache.NewMemoryCache.health "direct" = none ∧
    (MemoryCache.NewMemoryCache.GetHealth 0 "direct").1.map (fun h => h.AverageFee) = some 2 ∧
    (MemoryCache.NewMemoryCache.GetHealth 0 "direct").1.map (fun h => h.AverageTime)
      = some 150 ∧
    (MemoryCache.NewMemoryCache.GetHealth 0 "direct").1 ≠
      some { RouteID := "direct", IsActive := true, SuccessRate := F64.ofRatio 99 100,
             AverageFee := 0, AverageTime := 0, TotalExecutions := 0, LastExecuted := 0,
             LastUpdated := 0 } := by
  refine ⟨rfl, rfl, rfl, ?_⟩
  decide!

/-- C19, amended: for a route with no entry, `GetHealth` returns, with no
error, a default with the identifier of the route, `IsActive` true, success
rate 0.99, no execution, an average fee of 2 and an average time of 150, last
updated at the reading of the clock; the two maps of the cache are as they
were, so the next `GetHealth` finds no entry either and returns the default
again. -/
theorem C19_default_health (w : World) (routeID : String)
    (h : w.cache.health routeID = none) :
    (∀ now, w.cache.GetHealth now routeID =
      (some { RouteID := routeID, IsActive := true, SuccessRate := F64.ofRatio 99 100,
              AverageFee := 2, AverageTime := 150, TotalExecutions := 0, LastExecuted := 0,
              LastUpdated := now }, none)) ∧
    (World.healthPort.GetHealth routeID w).1 =
      (some { RouteID := routeID, IsActive := true, SuccessRate := F64.ofRatio 99 100,
              AverageFee := 2, AverageTime := 150, TotalExecutions := 0, LastExecuted := 0,
              LastUpdated := w.clock w.ticks }, none) ∧
    (World.healthPort.GetHealth routeID w).2.cache.health = w.cache.health ∧
    (World.healthPort.GetHealth routeID w).2.cache.routes = w.cache.routes ∧
    (World.healthPort.GetHealth routeID (World.healthPort.GetHealth routeID w).2).1 =
      (some { RouteID := routeID, IsActive := true, SuccessRate := F64.ofRatio 99 100,
              AverageFee := 2, AverageTime := 150, TotalExecutions := 0, LastExecuted := 0,
              LastUpdated := w.clock (w.ticks + 1) }, none) := by
  have hport : World.healthPort.GetHealth routeID w =
      ((w.Now).2.cache.GetHealth (w.Now).1 routeID, (w.Now).2) := by
    simp only [World.healthPort, h]
  have hget : ∀ (c : MemoryCache) (now : Int), c.health routeID = none →
      c.GetHealth now routeID =
        (some { RouteID := routeID, IsActive := true, SuccessRate := F64.ofRatio 99 100,
                AverageFee := 2, AverageTime := 150, TotalExecutions := 0,
                LastExecuted := 0, LastUpdated := now }, none) := by
    intro c now hc
    simp only [MemoryCache.GetHealth, hc]
  have h2 : (w.Now).2.cache.health routeID = none := h
  refine ⟨fun now => hget _ now h, ?_, ?_, ?_, ?_⟩
  · rw [hport]
    exact hget _ _ h2
  · rw [hport]
    rfl
  · rw [hport]
    rfl
  · rw [hport]
    have hport2 : World.healthPort.GetHealth routeID (w.Now).2 =
        (((w.Now).2.Now).2.cache.GetHealth ((w.Now).2.Now).1 routeID, ((w.Now).2.Now).2) := by
      simp only [World.healthPort, h2]
    rw [hport2]
    exact hget _ _ h2

/-- C19, witness: the route `direct` at start-up. -/
theorem C19_witness :
    (World.healthPort.GetHealth "direct" (World.initial (fun n => 1000 * (n : Int)))).1 =
      (some { RouteID := "direct", IsActive := true, SuccessRate := F64.ofRatio 99 100,
              AverageFee := 2, AverageTime := 150, TotalExecutions := 0, LastExecuted := 0,
              LastUpdated := 0 }, none) :=
  (C19_default_health (World.initial (fun n => 1000 * (n : Int))) "direct" rfl).2.1
theorem arrow_split {α : Type} {x y : α} (hxy : x ≠ y) :
    ∀ (a a' b b' : List α), ¬ [x, y] <:+: a → ¬ [x, y] <:+: a' →
      a ++ x :: y :: b = a' ++ x :: y :: b' → a = a' ∧ b = b' := by
  intro a
  induction a with
  | nil =>
    intro a' b b' _ ha' h
    cases a' with
    | nil => simpa using h
    | cons c cs =>
      cases cs with
      | nil =>
        simp only [List.nil_append, List.cons_append, List.cons.injEq] at h
        exact absurd h.2.1.symm hxy
      | cons d ds =>
        simp only [List.nil_append, List.cons_append, List.cons.injEq] at h
        obtain ⟨h1, h2, -⟩ := h
        subst h1 h2
        exact absurd ⟨[], ds, rfl⟩ ha'
  | cons c cs ih =>
    intro a' b b' ha ha' h
    cases a' with
    | nil =>
      cases cs with
      | nil =>
        simp only [List.nil_append, List.cons_append, List.cons.injEq] at h
        exact absurd h.2.1 hxy
      | cons d ds =>
        simp only [List.nil_append, List.cons_append, List.cons.injEq] at h
        obtain ⟨h1, h2, -⟩ := h
        subst h1 h2
        exact absurd ⟨[], ds, rfl⟩ ha
    | cons c' cs' =>
      simp only [List.cons_append, List.cons.injEq] at h
      obtain ⟨h1, h2⟩ := h
      subst h1
      have hcs : ¬ [x, y] <:+: cs := fun hh => ha (hh.trans (List.suffix_cons c cs).isInfix)
      have hcs' : ¬ [x, y] <:+: cs' :=
        fun hh => ha' (hh.trans (List.suffix_cons c cs').isInfix)
      obtain ⟨e1, e2⟩ := ih cs' b b' hcs hcs' h2
      exact ⟨by rw [e1], e2⟩

/-- Two pairs whose sources hold no `->` have the same key only if they are
the same pair. -/
theorem pairKey_injective {a b a' b' : String} (ha : ¬ hasArrow a) (ha' : ¬ hasArrow a')
    (h : pairKey a b = pairKey a' b') : a = a' ∧ b = b' := by
  have hd : a.data ++ '-' :: '>' :: b.data = a'.data ++ '-' :: '>' :: b'.data := by
    have := congrArg String.data h
    simpa [pairKey, String.data_append] using this
  obtain ⟨e1, e2⟩ := arrow_split (by decide) a.data a'.data b.data b'.data ha ha' hd
  exact ⟨String.ext e1, String.ext e2⟩

theorem MemoryCache.CacheAll_routes (key : String) (writes : List CacheWrite) :
    ∀ c : MemoryCache, (∀ x ∈ writes, pairKey x.src x.dst ≠ key) →
      (c.CacheAll writes).routes key = c.routes key := by
  induction writes with
  | nil => intro c _; rfl
  | cons x xs ih =>
    intro c hx
    have hstep : c.CacheAll (x :: xs) =
        ((c.CacheRoute x.time x.src x.dst x.route).1).CacheAll xs := rfl
    rw [hstep, ih _ (fun y hy => hx y (List.mem_cons_of_mem _ hy))]
    have hne : key ≠ pairKey x.src x.dst := fun e => hx x (List.mem_cons_self _ _) e.symm
    simp only [MemoryCache.CacheRoute, hne, if_false]

/-- C20, counterexample: after `CacheRoute("a", "b->c", r)` the pair
(`a->b`, `c`), which was never cached, is served `r`, since the two pairs have
the same key `a->b->c`. -/
theorem C20_counterexample :
    (("a->b", "c") : String × String) ≠ ("a", "b->c") ∧
    pairKey "a->b" "c" = pairKey "a" "b->c" ∧
    ((MemoryCache.NewMemoryCache.CacheRoute 0 "a" "b->c"
        (some (MemoryCatalog.directRoute "a" "b->c"))).1.GetCachedRoute 0 "a->b" "c")
      = (some (MemoryCatalog.directRoute "a" "b->c"), none) := by
  refine ⟨by decide, by decide, ?_⟩
  decide!

/-- C20, amended: pairs are told apart by their key `from->to` only. After
`CacheRoute(from, to, r)` at time `t` and later writes under other keys only,
`GetCachedRoute(from, to)` at time `t'` returns `r` with no error if
`t' < t + 5 minutes`, and fails with `ErrNoRoutesFound` if
`t' >= t + 5 minutes`; it fails at any time in a cache built from
`NewMemoryCache` by writes under other keys only; whenever it returns with no
error, the entry of the key has `t'` before its `expiresAt`. Two pairs
whose sources hold no `->` have the same key only if they are the same pair. -/
theorem C20_cache_ttl (c : MemoryCache) (t t' : Int) (src dst : String)
    (r : Option RouteOption) (later : List CacheWrite)
    (hlater : ∀ x ∈ later, pairKey x.src x.dst ≠ pairKey src dst) :
    (t' < t + fiveMinutes →
      ((c.CacheRoute t src dst r).1.CacheAll later).GetCachedRoute t' src dst = (r, none)) ∧
    (t + fiveMinutes ≤ t' →
      ((c.CacheRoute t src dst r).1.CacheAll later).GetCachedRoute t' src dst
        = (none, some Err.ErrNoRoutesFound)) ∧
    (∀ writes : List CacheWrite, (∀ x ∈ writes, pairKey x.src x.dst ≠ pairKey src dst) →
      (MemoryCache.NewMemoryCache.CacheAll writes).GetCachedRoute t' src dst
        = (none, some Err.ErrNoRoutesFound)) ∧
    (∀ (c₀ : MemoryCache) (served : Option RouteOption),
      c₀.GetCachedRoute t' src dst = (served, none) →
      ∃ cached, c₀.routes (pairKey src dst) = some cached ∧ cached.route = served ∧
        t' < cached.expiresAt) ∧
    (∀ a b a' b' : String, ¬ hasArrow a → ¬ hasArrow a' →
      (pairKey a b = pairKey a' b' ↔ a = a' ∧ b = b')) := by
  have hentry : ((c.CacheRoute t src dst r).1.CacheAll later).routes (pairKey src dst)
      = some { route := r, expiresAt := t + fiveMinutes } := by
    rw [MemoryCache.CacheAll_routes _ later _ hlater]
    simp only [MemoryCache.CacheRoute, if_true]
  refine ⟨?_, ?_, ?_, ?_, ?_⟩
  · intro ht
    simp only [MemoryCache.GetCachedRoute, hentry, ht, if_true]
  · intro ht
    have hn : ¬ t' < t + fiveMinutes := not_lt.mpr ht
    simp only [MemoryCache.GetCachedRoute, hentry, hn, if_false]
  · intro writes hw
    have hnone : (MemoryCache.NewMemoryCache.CacheAll writes).routes (pairKey src dst) = none := by
      rw [MemoryCache.CacheAll_routes _ writes _ hw]
      rfl
    simp only [MemoryCache.GetCachedRoute, hnone]
  · intro c₀ served hs
    unfold MemoryCache.GetCachedRoute at hs
    cases hc : c₀.routes (pairKey src dst) with
    | none => rw [hc] at hs; simp at hs
    | some cached =>
      rw [hc] at hs
      simp only [] at hs
      by_cases hlt : t' < cached.expiresAt
      · rw [if_pos hlt] at hs
        simp only [Prod.mk.injEq, and_true] at hs
        exact ⟨cached, rfl, hs, hlt⟩
      · rw [if_neg hlt] at hs
        simp at hs
  · intro a b a' b' ha ha'
    constructor
    · exact pairKey_injective ha ha'
    · rintro ⟨rfl, rfl⟩
      rfl

/-- C20, witness: at start-up the pair (`WALLET_A`, `WALLET_B`) is cached at
time 0, then another pair; the first is served one nanosecond before the five
minutes are over. -/
theorem C20_witness :
    (((MemoryCache.NewMemoryCache.CacheRoute 0 "WALLET_A" "WALLET_B"
        (some (MemoryCatalog.directRoute "WALLET_A" "WALLET_B"))).1.CacheAll
      [{ time := 1000, src := "WALLET_B", dst := "WALLET_A", route := none }]).GetCachedRoute
        299999999999 "WALLET_A" "WALLET_B")
      = (some (MemoryCatalog.directRoute "WALLET_A" "WALLET_B"), none) :=
  (C20_cache_ttl MemoryCache.NewMemoryCache 0 299999999999 "WALLET_A" "WALLET_B"
    (some (MemoryCatalog.directRoute "WALLET_A" "WALLET_B"))
    [{ time := 1000, src := "WALLET_B", dst := "WALLET_A", route := none }]
    (by decide) ).1 (by decide)
/-! ## Claims about `UpdateMetrics` -/

theorem wrap64_nonneg_lt {z : Int} (hlo : 0 ≤ z) (hhi : z < (2 : Int) ^ 63) : wrap64 z = z :=
  wrap64_of_range (by omega) hhi

/-- The update of an average in `int64` when nothing overflows: the truncated
quotient of the integers. -/
theorem average_in_range {avg te x : Int} (h0 : 0 ≤ te) (h1 : te + 1 < 2 ^ 63)
    (ha : 0 ≤ avg) (hx : 0 ≤ x) (hsum : avg * te + x < 2 ^ 63) :
    wrap64 (Int.tdiv (wrap64 (wrap64 (avg * wrap64 (wrap64 (te + 1) - 1)) + x))
      (wrap64 (te + 1))) = (avg * te + x) / (te + 1) := by
  have hn : wrap64 (te + 1) = te + 1 := wrap64_nonneg_lt (by omega) h1
  have hte : wrap64 (te + 1 - 1) = te := by
    rw [show te + 1 - 1 = te by ring]
    exact wrap64_nonneg_lt h0 (by omega)
  have hprod : 0 ≤ avg * te := mul_nonneg ha h0
  have hp : wrap64 (avg * te) = avg * te := wrap64_nonneg_lt hprod (by omega)
  have hs : wrap64 (avg * te + x) = avg * te + x := wrap64_nonneg_lt (by omega) hsum
  rw [hn, hte, hp, hs, Int.tdiv_eq_ediv (by omega) (by omega)]
  have hq0 : 0 ≤ (avg * te + x) / (te + 1) := Int.ediv_nonneg (by omega) (by omega)
  have hq1 : (avg * te + x) / (te + 1) ≤ avg * te + x :=
    Int.ediv_le_self _ (by omega)
  exact wrap64_nonneg_lt hq0 (by omega)

theorem Milliseconds_nonneg {d : Int} (h : 0 ≤ d) : 0 ≤ Milliseconds d := by
  unfold Milliseconds
  exact Int.tdiv_nonneg h (by decide)

/-- What `UpdateMetrics` does, for every cache and metric. -/
theorem MemoryCache.UpdateMetrics_spec (c : MemoryCache) (now : Nat → Int) (m : RouteMetrics) :
    (c.UpdateMetrics now m).cache.routes = c.routes ∧
    (∀ id, id ≠ m.RouteID → (c.UpdateMetrics now m).cache.health id = c.health id) ∧
    ((c.UpdateMetrics now m).panicked = true ↔
      m.Success = true ∧ wrap64 ((c.entryFor now m.RouteID).TotalExecutions + 1) = 0 ∧
        (m.ActualFee > 0 ∨ m.ActualTime > 0)) ∧
    ((c.UpdateMetrics now m).panicked = false →
      ∃ h, (c.UpdateMetrics now m).cache.health m.RouteID = some h ∧
        h.RouteID = (c.entryFor now m.RouteID).RouteID ∧
        h.IsActive = (c.entryFor now m.RouteID).IsActive ∧
        h.TotalExecutions = wrap64 ((c.entryFor now m.RouteID).TotalExecutions + 1) ∧
        h.SuccessRate =
          (if m.Success = true then
            F64.div
              (F64.add
                (F64.mul (c.entryFor now m.RouteID).SuccessRate
                  (F64.ofInt (wrap64 (h.TotalExecutions - 1))))
                (F64.ofInt 1))
              (F64.ofInt h.TotalExecutions)
           else
            F64.div
              (F64.mul (c.entryFor now m.RouteID).SuccessRate
                (F64.ofInt (wrap64 (h.TotalExecutions - 1))))
              (F64.ofInt h.TotalExecutions)) ∧
        h.AverageFee =
          (if m.Success = true ∧ m.ActualFee > 0 then
            wrap64 (Int.tdiv
              (wrap64 (wrap64 ((c.entryFor now m.RouteID).AverageFee *
                wrap64 (h.TotalExecutions - 1)) + m.ActualFee))
              h.TotalExecutions)
           else (c.entryFor now m.RouteID).AverageFee) ∧
        h.AverageTime =
          (if m.Success = true ∧ m.ActualTime > 0 then
            wrap64 (Int.tdiv
              (wrap64 (wrap64 ((c.entryFor now m.RouteID).AverageTime *
                wrap64 (h.TotalExecutions - 1)) + Milliseconds m.ActualTime))
              h.TotalExecutions)
           else (c.entryFor now m.RouteID).AverageTime) ∧
        h.LastExecuted = m.ExecutedAt ∧
        (0 ≤ (c.entryFor now m.RouteID).TotalExecutions →
         (c.entryFor now m.RouteID).TotalExecutions + 1 < 2 ^ 63 →
         h.TotalExecutions = (c.entryFor now m.RouteID).TotalExecutions + 1 ∧
         (0 ≤ (c.entryFor now m.RouteID).AverageFee →
          (c.entryFor now m.RouteID).AverageFee * (c.entryFor now m.RouteID).TotalExecutions
            + m.ActualFee < 2 ^ 63 →
          h.AverageFee =
           (if m.Success = true ∧ m.ActualFee > 0 then
             ((c.entryFor now m.RouteID).AverageFee *
               (c.entryFor now m.RouteID).TotalExecutions + m.ActualFee) /
               ((c.entryFor now m.RouteID).TotalExecutions + 1)
            else (c.entryFor now m.RouteID).AverageFee)) ∧
         (0 ≤ (c.entryFor now m.RouteID).AverageTime →
          (c.entryFor now m.RouteID).AverageTime * (c.entryFor now m.RouteID).TotalExecutions
            + Milliseconds m.ActualTime < 2 ^ 63 →
          h.AverageTime =
           (if m.Success = true ∧ m.ActualTime > 0 then
             ((c.entryFor now m.RouteID).AverageTime *
               (c.entryFor now m.RouteID).TotalExecutions + Milliseconds m.ActualTime) /
               ((c.entryFor now m.RouteID).TotalExecutions + 1)
            else (c.entryFor now m.RouteID).AverageTime)))) := by
  simp only [MemoryCache.UpdateMetrics, MemoryCache.entryFor]
  generalize (c.health m.RouteID).getD _ = old
  generalize (if (c.health m.RouteID).isSome = true then 0 else 2) = k
  cases hS : m.Success
  · simp only [Bool.false_eq_true, if_false, false_and, MemoryCache.setHealth]
    refine ⟨trivial, fun id hid => if_neg hid, ?_, fun _ => ⟨_, if_pos trivial, rfl, rfl, rfl,
      rfl, rfl, rfl, rfl,
      fun h0 h1 => ⟨wrap64_nonneg_lt (by omega) h1, fun _ _ => rfl, fun _ _ => rfl⟩⟩⟩
    simp
  · simp only [if_true]
    refine ⟨?_, ?_, ?_, ?_⟩
    · split_ifs <;> rfl
    · intro id hid
      split_ifs <;> exact if_neg hid
    · by_cases hn : wrap64 (old.TotalExecutions + 1) = 0 <;>
        by_cases hfee : m.ActualFee > 0 <;> by_cases htime : m.ActualTime > 0 <;>
        simp [hn, hfee, htime]
    · intro hp
      by_cases hn : wrap64 (old.TotalExecutions + 1) = 0
      · by_cases hfee : m.ActualFee > 0
        · simp [hn, hfee] at hp
        · by_cases htime : m.ActualTime > 0
          · simp [hn, hfee, htime] at hp
          · simp only [hn, hfee, htime, eq_self_iff_true, true_and, and_true, false_and,
              and_false, if_true, if_false, MemoryCache.setHealth]
            refine ⟨_, rfl, rfl, rfl, rfl, rfl, rfl, rfl, rfl, fun h0 h1 => ?_⟩
            have := wrap64_nonneg_lt (show 0 ≤ old.TotalExecutions + 1 by omega) h1
            omega
      · by_cases hfee : m.ActualFee > 0 <;> by_cases htime : m.ActualTime > 0
        all_goals
          simp only [hn, hfee, htime, eq_self_iff_true, true_and, and_true, false_and,
            and_false, if_true, if_false, MemoryCache.setHealth]
          refine ⟨_, rfl, rfl, rfl, rfl, rfl, rfl, rfl, rfl, fun h0 h1 => ?_⟩
          refine ⟨wrap64_nonneg_lt (by omega) h1, fun ha hf => ?_, fun hb ht => ?_⟩
        · exact average_in_range h0 h1 ha (by omega) hf
        · exact average_in_range h0 h1 hb (Milliseconds_nonneg (by omega)) ht
        · exact average_in_range h0 h1 ha (by omega) hf
        · rfl
        · rfl
        · exact average_in_range h0 h1 hb (Milliseconds_nonneg (by omega)) ht
        · rfl
        · rfl

/-! ## The success rate as a running mean in `float64` -/

namespace F64

theorem rne_mul_right (n d : Nat) {c : Nat} (hc : 0 < c) : rne (n * c) (d * c) = rne n d := by
  unfold rne
  simp only []
  rw [Nat.mul_div_mul_right _ _ hc, Nat.mul_mod_mul_right]
  have h1 : 2 * (n % d * c) < d * c ↔ 2 * (n % d) < d := by
    rw [← Nat.mul_assoc]
    exact Nat.mul_lt_mul_right hc
  have h2 : d * c < 2 * (n % d * c) ↔ d < 2 * (n % d) := by
    rw [← Nat.mul_assoc]
    exact Nat.mul_lt_mul_right hc
  simp only [h1, h2]

/-- Rounding a quotient does not depend on a common factor of its terms. -/
theorem round_mul_right (s : Bool) (n d : Nat) {c : Nat} (hc : 0 < c) :
    round s (n * c) (d * c) = round s n d := by
  have hmag : roundMag (n * c) (d * c) = roundMag n d := by
    unfold roundMag
    simp only []
    rw [Nat.mul_div_mul_right _ _ hc]
    have hre : d * c * quantum (n / d) = d * quantum (n / d) * c := by ring
    rw [hre, rne_mul_right _ _ hc]
  unfold round
  simp only []
  rw [hmag]

theorem ofInt_of_nonneg {k : Int} (h0 : 0 ≤ k) (h1 : k < 2 ^ 53) :
    ofInt k = fin false (k.toNat * one) := by
  have hk : k.natAbs < 2 ^ 53 := by omega
  rw [ofInt_small hk]
  unfold exactInt
  have hneg : decide (k < 0) = false := by simp [not_lt.mpr h0]
  have habs : k.natAbs = k.toNat := by omega
  rw [hneg, habs]

theorem ofInt_one : ofInt 1 = fin false one := by
  have h := ofInt_of_nonneg (show (0 : Int) ≤ 1 by decide) (by decide)
  simpa using h

theorem mul_one_small {K : Nat} (hK : K < 2 ^ 53) :
    mul (fin false one) (fin false (K * one)) = fin false (K * one) := by
  unfold mul
  simp only [Bool.xor_false]
  have hre : one * (K * one) = K * one * one := by ring
  rw [hre, round_small_div false hK]

theorem mul_zero_small (s : Bool) (M : Nat) : mul (fin s M) (fin false 0) = fin s 0 := by
  unfold mul
  simp only [Bool.xor_false, Nat.mul_zero]
  unfold round
  simp only [roundMag_zero]
  rw [if_pos (by decide!)]

theorem add_one_small {K : Nat} (hK : K + 1 < 2 ^ 53) :
    add (fin false (K * one)) (fin false one) = fin false ((K + 1) * one) := by
  unfold add
  simp only [signed, Bool.false_eq_true, if_false, Bool.and_self]
  have hpos : (0 : Int) < (one : Int) := by exact_mod_cast one_pos
  have hz : ((K * one : Nat) : Int) + (one : Int) ≠ 0 := by
    have : (0 : Int) ≤ ((K * one : Nat) : Int) := Int.ofNat_nonneg _
    omega
  rw [if_neg hz]
  have habs : (((K * one : Nat) : Int) + (one : Int)).natAbs = (K + 1) * one := by
    have : ((K * one : Nat) : Int) + (one : Int) = (((K + 1) * one : Nat) : Int) := by
      push_cast
      ring
    rw [this, Int.natAbs_ofNat]
  have hneg : decide (((K * one : Nat) : Int) + (one : Int) < 0) = false := by
    have : (0 : Int) ≤ ((K * one : Nat) : Int) := Int.ofNat_nonneg _
    simp only [decide_eq_false_iff_not, not_lt]
    omega
  rw [habs, hneg, round_small false hK]

/-- The quotient of two integers held exactly is the correctly rounded
quotient of the integers. -/
theorem div_small (K : Nat) {D : Nat} (hD : 0 < D) :
    div (fin false (K * one)) (fin false (D * one)) = ofRatio K D := by
  unfold div
  simp only [Bool.xor_false]
  have hne : D * one ≠ 0 :=
    Nat.mul_ne_zero (Nat.pos_iff_ne_zero.mp hD) (Nat.pos_iff_ne_zero.mp one_pos)
  rw [if_neg hne, round_mul_right false (K * one) D one_pos]
  rfl

theorem ofRatio_self {K : Nat} (hK : 0 < K) : ofRatio K K = fin false one := by
  unfold ofRatio
  have h1 : round false (K * one) K = round false (one * K) (1 * K) := by
    rw [Nat.mul_comm K one, Nat.one_mul]
  rw [h1, round_mul_right false one 1 hK]
  have := round_small false (show 1 < 2 ^ 53 by decide)
  simpa using this

/-- The success rate after a success, when it was 1.0 or when the entry had no
execution: 1.0. -/
theorem successRate_success {sr : F64} {k : Int} (h0 : 0 ≤ k) (h1 : k + 1 < 2 ^ 53)
    (hsr : sr = ofInt 1 ∨ (k = 0 ∧ sr = ofRatio 99 100)) :
    div (add (mul sr (ofInt k)) (ofInt 1)) (ofInt (k + 1)) = ofInt 1 := by
  have hK : k.toNat + 1 < 2 ^ 53 := by omega
  have hmul : mul sr (ofInt k) = fin false (k.toNat * one) := by
    rw [ofInt_of_nonneg h0 (by omega)]
    rcases hsr with hsr | ⟨hk, hsr⟩
    · rw [hsr, ofInt_one]
      exact mul_one_small (by omega)
    · subst hk
      rw [hsr]
      decide!
  have hk1 : (k + 1).toNat = k.toNat + 1 := by omega
  rw [hmul, ofInt_one, add_one_small hK, ofInt_of_nonneg (by omega) h1, hk1,
    div_small _ (by omega), ofRatio_self (by omega)]

/-- The success rate after a failure, when it was 1.0 or when the entry had no
execution: the `float64` nearest to `k / (k + 1)`. -/
theorem successRate_failure {sr : F64} {k : Int} (h0 : 0 ≤ k) (h1 : k + 1 < 2 ^ 53)
    (hsr : sr = ofInt 1 ∨ (k = 0 ∧ sr = ofRatio 99 100)) :
    div (mul sr (ofInt k)) (ofInt (k + 1)) = ofRatio k.toNat (k.toNat + 1) := by
  have hmul : mul sr (ofInt k) = fin false (k.toNat * one) := by
    rw [ofInt_of_nonneg h0 (by omega)]
    rcases hsr with hsr | ⟨hk, hsr⟩
    · rw [hsr, ofInt_one]
      exact mul_one_small (by omega)
    · subst hk
      rw [hsr]
      decide!
  have hk1 : (k + 1).toNat = k.toNat + 1 := by omega
  rw [hmul, ofInt_of_nonneg (by omega) h1, hk1, div_small _ (by omega)]

end F64
/-! ## Runs of `UpdateMetrics` -/

theorem World.UpdateAll_append (a b : List RouteMetrics) :
    ∀ w : World, w.UpdateAll (a ++ b) = (w.UpdateAll a).bind (fun w' => w'.UpdateAll b) := by
  induction a with
  | nil => intro w; rfl
  | cons m ms ih =>
    intro w
    simp only [List.cons_append, World.UpdateAll]
    cases (World.healthPort.UpdateMetrics m w).1 with
    | none => rfl
    | some _ => exact ih _

theorem MemoryCache.entryFor_some {c : MemoryCache} {id : String} {h : RouteHealth}
    (hc : c.health id = some h) (now : Nat → Int) : c.entryFor now id = h := by
  simp only [MemoryCache.entryFor, hc, Option.getD_some]

/-- One call of `UpdateMetrics` on the in-memory cache for a route whose
number of executions is not negative and less than `2^63 - 1`: it returns,
and the entry is the one `UpdateMetrics_spec` describes. -/
theorem World.UpdateMetrics_step (w : World) (m : RouteMetrics) (old : RouteHealth)
    (hold : w.cache.entryFor (fun i => w.clock (w.ticks + i)) m.RouteID = old)
    (h0 : 0 ≤ old.TotalExecutions) (h1 : old.TotalExecutions + 1 < 2 ^ 63) :
    ∃ w' h, World.healthPort.UpdateMetrics m w = (some none, w') ∧
      w'.cache.routes = w.cache.routes ∧
      (∀ id, id ≠ m.RouteID → w'.cache.health id = w.cache.health id) ∧
      w'.cache.health m.RouteID = some h ∧
      h.TotalExecutions = old.TotalExecutions + 1 ∧
      h.SuccessRate =
        (if m.Success = true then
          F64.div (F64.add (F64.mul old.SuccessRate (F64.ofInt old.TotalExecutions))
            (F64.ofInt 1)) (F64.ofInt (old.TotalExecutions + 1))
         else
          F64.div (F64.mul old.SuccessRate (F64.ofInt old.TotalExecutions))
            (F64.ofInt (old.TotalExecutions + 1))) ∧
      (0 ≤ old.AverageFee → old.AverageFee * old.TotalExecutions + m.ActualFee < 2 ^ 63 →
        h.AverageFee =
          (if m.Success = true ∧ m.ActualFee > 0 then
            (old.AverageFee * old.TotalExecutions + m.ActualFee) / (old.TotalExecutions + 1)
           else old.AverageFee)) ∧
      (0 ≤ old.AverageTime →
        old.AverageTime * old.TotalExecutions + Milliseconds m.ActualTime < 2 ^ 63 →
        h.AverageTime =
          (if m.Success = true ∧ m.ActualTime > 0 then
            (old.AverageTime * old.TotalExecutions + Milliseconds m.ActualTime) /
              (old.TotalExecutions + 1)
           else old.AverageTime)) := by
  obtain ⟨hr, hframe, hpanic, hentry⟩ :=
    MemoryCache.UpdateMetrics_spec w.cache (fun i => w.clock (w.ticks + i)) m
  rw [hold] at hpanic hentry
  have hn : wrap64 (old.TotalExecutions + 1) = old.TotalExecutions + 1 :=
    wrap64_nonneg_lt (by omega) h1
  have hnp : (w.cache.UpdateMetrics (fun i => w.clock (w.ticks + i)) m).panicked = false := by
    cases hp : (w.cache.UpdateMetrics (fun i => w.clock (w.ticks + i)) m).panicked with
    | false => rfl
    | true =>
      have := (hpanic.mp hp).2.1
      omega
  obtain ⟨h, hh, -, -, hte, hsr, -, -, -, hrange⟩ := hentry hnp
  obtain ⟨hte', hfee, htime⟩ := hrange h0 h1
  have hw : wrap64 (h.TotalExecutions - 1) = old.TotalExecutions := by
    rw [hte', show old.TotalExecutions + 1 - 1 = old.TotalExecutions by ring]
    exact wrap64_nonneg_lt h0 (by omega)
  rw [hw, hte'] at hsr
  refine ⟨{ w with
      cache := (w.cache.UpdateMetrics (fun i => w.clock (w.ticks + i)) m).cache,
      ticks := w.ticks + (w.cache.UpdateMetrics (fun i => w.clock (w.ticks + i)) m).readings },
    h, ?_, hr, hframe, hh, hte', hsr, hfee, htime⟩
  simp only [World.healthPort, hnp, Bool.false_eq_true, if_false]

/-- One step of a running mean with truncated quotients: the mean stays
below the exact mean, by at most half of the number of values less one. -/
theorem average_step {avg k f S : Int} (hk : 0 ≤ k) (ha : 0 ≤ avg) (hf : 0 ≤ f)
    (h1 : avg * k ≤ S) (h2 : 2 * (S - avg * k) ≤ k * (k - 1)) :
    0 ≤ (avg * k + f) / (k + 1) ∧
    (avg * k + f) / (k + 1) * (k + 1) ≤ S + f ∧
    2 * (S + f - (avg * k + f) / (k + 1) * (k + 1)) ≤ (k + 1) * (k + 1 - 1) := by
  have hpos : 0 < k + 1 := by omega
  have hX : 0 ≤ avg * k + f := add_nonneg (mul_nonneg ha hk) hf
  have hq := Int.ediv_add_emod (avg * k + f) (k + 1)
  have hr0 := Int.emod_nonneg (avg * k + f) (show k + 1 ≠ 0 by omega)
  have hr1 := Int.emod_lt_of_pos (avg * k + f) hpos
  have e : (avg * k + f) / (k + 1) * (k + 1) = avg * k + f - (avg * k + f) % (k + 1) := by
    rw [mul_comm]
    omega
  refine ⟨Int.ediv_nonneg hX (by omega), ?_, ?_⟩
  · rw [e]
    omega
  · rw [e]
    have hkk : (k + 1) * (k + 1 - 1) = k * (k - 1) + 2 * k := by ring
    rw [hkk]
    omega

theorem totalFee_append (pre : List RouteMetrics) (m : RouteMetrics) :
    totalFee (pre ++ [m]) = totalFee pre + m.ActualFee := by
  simp [totalFee, List.map_append, List.sum_append]

theorem totalMs_append (pre : List RouteMetrics) (m : RouteMetrics) :
    totalMs (pre ++ [m]) = totalMs pre + Milliseconds m.ActualTime := by
  simp [totalMs, List.map_append, List.sum_append]

/-- A run of successes on a route with no entry: every call returns; the
other entries and the route cache are as they were; after at least one call
the entry has success rate 1.0, as many executions as there were calls, and
averages that are running means with truncated quotients. -/
theorem World.UpdateAll_successes (w : World) (id : String)
    (hfresh : w.cache.health id = none) :
    ∀ ms : List RouteMetrics, (∀ m ∈ ms, m.RouteID = id ∧ m.Success = true) →
      (ms.length : Int) < 2 ^ 53 →
      ∃ w', w.UpdateAll ms = some w' ∧ w'.cache.routes = w.cache.routes ∧
        (∀ id', id' ≠ id → w'.cache.health id' = w.cache.health id') ∧
        (ms = [] → w'.cache.health id = none) ∧
        (ms ≠ [] → ∃ h, w'.cache.health id = some h ∧ h.SuccessRate = F64.ofInt 1 ∧
          h.TotalExecutions = (ms.length : Int) ∧
          ((∀ m ∈ ms, 0 < m.ActualFee) → totalFee ms < 2 ^ 63 →
            0 ≤ h.AverageFee ∧ h.AverageFee * (ms.length : Int) ≤ totalFee ms ∧
            2 * (totalFee ms - h.AverageFee * (ms.length : Int))
              ≤ (ms.length : Int) * ((ms.length : Int) - 1) ∧
            ∀ f, (∀ m ∈ ms, m.ActualFee = f) → h.AverageFee = f) ∧
          ((∀ m ∈ ms, 0 < m.ActualTime) → totalMs ms < 2 ^ 63 →
            0 ≤ h.AverageTime ∧ h.AverageTime * (ms.length : Int) ≤ totalMs ms ∧
            2 * (totalMs ms - h.AverageTime * (ms.length : Int))
              ≤ (ms.length : Int) * ((ms.length : Int) - 1) ∧
            ∀ t, (∀ m ∈ ms, Milliseconds m.ActualTime = t) → h.AverageTime = t)) := by
  intro ms
  induction ms using List.reverseRecOn with
  | nil =>
    intro _ _
    exact ⟨w, rfl, rfl, fun _ _ => rfl, fun _ => hfresh, fun h => absurd rfl h⟩
  | append_singleton pre m ih =>
    intro hall hlen
    have hlen' : ((pre.length : Int) + 1) < 2 ^ 53 := by
      simpa [List.length_append] using hlen
    have hallpre : ∀ x ∈ pre, x.RouteID = id ∧ x.Success = true :=
      fun x hx => hall x (List.mem_append_left _ hx)
    have hm : m.RouteID = id ∧ m.Success = true :=
      hall m (List.mem_append_right _ (List.mem_singleton_self m))
    obtain ⟨w1, hrun, hroutes, hframe, hnil, hcons⟩ := ih hallpre (by omega)
    -- the entry the call works on
    have hold : ∃ old, w1.cache.entryFor (fun i => w1.clock (w1.ticks + i)) m.RouteID = old ∧
        old.TotalExecutions = (pre.length : Int) ∧
        (old.SuccessRate = F64.ofInt 1 ∨
          (old.TotalExecutions = 0 ∧ old.SuccessRate = F64.ofRatio 99 100)) ∧
        ((∀ x ∈ pre, 0 < x.ActualFee) → totalFee pre < 2 ^ 63 →
          0 ≤ old.AverageFee ∧ old.AverageFee * (pre.length : Int) ≤ totalFee pre ∧
          2 * (totalFee pre - old.AverageFee * (pre.length : Int))
            ≤ (pre.length : Int) * ((pre.length : Int) - 1) ∧
          ∀ f, (∀ x ∈ pre, x.ActualFee = f) →
            old.AverageFee * (pre.length : Int) = f * (pre.length : Int)) ∧
        ((∀ x ∈ pre, 0 < x.ActualTime) → totalMs pre < 2 ^ 63 →
          0 ≤ old.AverageTime ∧ old.AverageTime * (pre.length : Int) ≤ totalMs pre ∧
          2 * (totalMs pre - old.AverageTime * (pre.length : Int))
            ≤ (pre.length : Int) * ((pre.length : Int) - 1) ∧
          ∀ t, (∀ x ∈ pre, Milliseconds x.ActualTime = t) →
            old.AverageTime * (pre.length : Int) = t * (pre.length : Int)) := by
      by_cases hpre : pre = []
      · subst hpre
        have hnone : w1.cache.health m.RouteID = none := by rw [hm.1]; exact hnil rfl
        refine ⟨_, rfl, ?_, ?_, ?_, ?_⟩
        · simp [MemoryCache.entryFor, hnone]
        · right
          simp [MemoryCache.entryFor, hnone]
        · intro _ _
          simp [MemoryCache.entryFor, hnone, totalFee]
        · intro _ _
          simp [MemoryCache.entryFor, hnone, totalMs]
      · obtain ⟨h, hh, hsr, hte, hfee, htime⟩ := hcons hpre
        have hent : w1.cache.entryFor (fun i => w1.clock (w1.ticks + i)) m.RouteID = h :=
          MemoryCache.entryFor_some (by rw [hm.1]; exact hh) _
        refine ⟨h, hent, hte, Or.inl hsr, ?_, ?_⟩
        · intro hp hs
          obtain ⟨a, b, c, d⟩ := hfee hp hs
          exact ⟨a, b, c, fun f hf => by rw [d f hf]⟩
        · intro hp hs
          obtain ⟨a, b, c, d⟩ := htime hp hs
          exact ⟨a, b, c, fun t ht => by rw [d t ht]⟩
    obtain ⟨old, hent, hte, hsr, hfee, htime⟩ := hold
    have h0 : 0 ≤ old.TotalExecutions := by rw [hte]; exact Int.ofNat_nonneg _
    obtain ⟨w2, h2, hcall, hroutes2, hframe2, hh2, hte2, hsr2, hfee2, htime2⟩ :=
      World.UpdateMetrics_step w1 m old hent h0 (by omega)
    have hrun2 : w.UpdateAll (pre ++ [m]) = some w2 := by
      rw [World.UpdateAll_append, hrun]
      show World.UpdateAll w1 [m] = some w2
      simp only [World.UpdateAll, hcall]
    refine ⟨w2, hrun2, hroutes2.trans hroutes, ?_, ?_, ?_⟩
    · intro id' hid'
      rw [hframe2 id' (by rw [hm.1]; exact hid'), hframe id' hid']
    · intro habs
      simp at habs
    · intro _
      have hlenc : (((pre ++ [m]).length : Nat) : Int) = (pre.length : Int) + 1 := by
        simp [List.length_append]
      refine ⟨h2, by rw [← hm.1]; exact hh2, ?_, ?_, ?_, ?_⟩
      · rw [hsr2, if_pos hm.2]
        exact F64.successRate_success h0 (by omega) hsr
      · rw [hte2, hte, hlenc]
      · intro hp hs
        rw [totalFee_append] at hs
        have hmf : 0 < m.ActualFee := hp m (List.mem_append_right _ (List.mem_singleton_self m))
        obtain ⟨a, b, c, d⟩ := hfee (fun x hx => hp x (List.mem_append_left _ hx)) (by omega)
        have hv := hfee2 a (by rw [hte]; omega)
        rw [if_pos ⟨hm.2, hmf⟩, hte] at hv
        obtain ⟨s1, s2, s3⟩ := average_step (Int.ofNat_nonneg pre.length) a (le_of_lt hmf) b c
        rw [hv, hlenc, totalFee_append]
        refine ⟨s1, s2, s3, ?_⟩
        intro f hf
        have hfm : m.ActualFee = f := hf m (List.mem_append_right _ (List.mem_singleton_self m))
        rw [d f (fun x hx => hf x (List.mem_append_left _ hx)), hfm]
        have : f * (pre.length : Int) + f = f * ((pre.length : Int) + 1) := by ring
        rw [this]
        exact Int.mul_ediv_cancel _ (by omega)
      · intro hp hs
        rw [totalMs_append] at hs
        have hmt : 0 < m.ActualTime := hp m (List.mem_append_right _ (List.mem_singleton_self m))
        have hms : 0 ≤ Milliseconds m.ActualTime := Milliseconds_nonneg (le_of_lt hmt)
        obtain ⟨a, b, c, d⟩ := htime (fun x hx => hp x (List.mem_append_left _ hx)) (by omega)
        have hv := htime2 a (by rw [hte]; omega)
        rw [if_pos ⟨hm.2, hmt⟩, hte] at hv
        obtain ⟨s1, s2, s3⟩ := average_step (Int.ofNat_nonneg pre.length) a hms b c
        rw [hv, hlenc, totalMs_append]
        refine ⟨s1, s2, s3, ?_⟩
        intro t ht
        have htm : Milliseconds m.ActualTime = t :=
          ht m (List.mem_append_right _ (List.mem_singleton_self m))
        rw [d t (fun x hx => ht x (List.mem_append_left _ hx)), htm]
        have : t * (pre.length : Int) + t = t * ((pre.length : Int) + 1) := by ring
        rw [this]
        exact Int.mul_ediv_cancel _ (by omega)
namespace F64

/-- The nearest integer to `n / d` is within one half of it. -/
theorem rne_err (n : Nat) {d : Nat} (hd : 0 < d) :
    2 * (rne n d * d) ≤ 2 * n + d ∧ 2 * n ≤ 2 * (rne n d * d) + d := by
  have hdm := Nat.div_add_mod n d
  have hlt := Nat.mod_lt n hd
  unfold rne
  simp only []
  generalize n / d = q at hdm ⊢
  generalize n % d = r at hdm hlt ⊢
  have hqd : q * d = d * q := Nat.mul_comm _ _
  have e : (q + 1) * d = d * q + d := by ring
  split_ifs with h1 h2 h3
  · rw [hqd]; omega
  · rw [e]; omega
  · rw [hqd]; omega
  · rw [e]; omega

/-- A rounded quotient is within half a spacing of the quotient. -/
theorem roundMag_err (n : Nat) {d : Nat} (hd : 0 < d) :
    2 * (roundMag n d * d) ≤ 2 * n + d * quantum (n / d) ∧
    2 * n ≤ 2 * (roundMag n d * d) + d * quantum (n / d) := by
  unfold roundMag
  simp only []
  have h := rne_err n (Nat.mul_pos hd (quantum_pos (n / d)))
  have e : rne n (d * quantum (n / d)) * quantum (n / d) * d
      = rne n (d * quantum (n / d)) * (d * quantum (n / d)) := by ring
  rw [e]
  exact h

/-- The `float64` nearest to `k / (k + 1)` is a finite value within `2^-54` of
it: with `M` its magnitude in units of `2^-1074`, the distance between
`M * (k + 1)` and `k * 2^1074` is at most `(k + 1) * 2^1020`. -/
theorem ofRatio_succ_err (k : Nat) :
    ∃ M, ofRatio k (k + 1) = fin false M ∧
      M * (k + 1) ≤ k * one + (k + 1) * 2 ^ 1020 ∧
      k * one ≤ M * (k + 1) + (k + 1) * 2 ^ 1020 := by
  have hlt : k * one / (k + 1) < one := by
    rw [Nat.div_lt_iff_lt_mul (show 0 < k + 1 by omega)]
    have := one_pos
    nlinarith
  have hq : quantum (k * one / (k + 1)) ∣ 2 ^ 1021 := by
    unfold quantum
    have hlen : bitLen (k * one / (k + 1)) ≤ 1074 :=
      bitLen_le_of_lt (by rw [← one_eq]; exact hlt)
    exact Nat.pow_dvd_pow 2 (by omega)
  have hqle : quantum (k * one / (k + 1)) ≤ 2 ^ 1021 := Nat.le_of_dvd (Nat.two_pow_pos _) hq
  have hmag : roundMag (k * one) (k + 1) < huge := by
    have h1 := roundMag_le (k * one) (k + 1)
    have h2 : 2 * one + 1 < huge := by decide!
    omega
  obtain ⟨e1, e2⟩ := roundMag_err (k * one) (show 0 < k + 1 by omega)
  have hb : (k + 1) * quantum (k * one / (k + 1)) ≤ (k + 1) * 2 ^ 1021 :=
    Nat.mul_le_mul_left _ hqle
  have hp : (k + 1) * 2 ^ 1021 = 2 * ((k + 1) * 2 ^ 1020) := by ring
  refine ⟨roundMag (k * one) (k + 1), ?_, ?_, ?_⟩
  · unfold ofRatio round
    simp only []
    rw [if_pos hmag]
  · omega
  · omega

end F64

/-- Beyond `2^53` executions the success rate of a run of successes leaves
1.0: the update of an entry with `2^53 + 1` executions and success rate 1.0. -/
theorem successRate_beyond_exact_integers :
    F64.div (F64.add (F64.mul (F64.ofInt 1) (F64.ofInt (2 ^ 53 + 1))) (F64.ofInt 1))
      (F64.ofInt (2 ^ 53 + 2)) ≠ F64.ofInt 1 := by
  decide!

/-- C17, counterexample: at start-up, after successes of the route `direct` with
fees 1, 2, 3 and times of 1, 2, 3 milliseconds the average fee is 1 and the
average time 1 millisecond, while the arithmetic means are 2. -/
theorem C17_counterexample :
    totalFee threeSuccesses = 2 * 3 ∧ totalMs threeSuccesses = 2 * 3 ∧
    (((World.initial (fun _ => 0)).UpdateAll threeSuccesses).bind
      (fun w => w.cache.health "direct")).map
        (fun h => (h.TotalExecutions, h.AverageFee, h.AverageTime)) = some (3, 1, 1) := by
  refine ⟨by decide, by decide, ?_⟩
  decide!

/-- C17, amended: for `1 <= n < 2^53` successes with positive fees and times
on a route with no entry, the fees and the whole milliseconds of the times
each summing to less than `2^63`: every call returns, and the entry has success
rate 1.0, `n` executions and averages that are not negative, at most the
arithmetic mean (of the fees, of the whole milliseconds) and less than it by
at most `(n - 1) / 2`; an average is the mean when the values are all equal. -/
theorem C17_running_mean (w : World) (id : String) (ms : List RouteMetrics)
    (hfresh : w.cache.health id = none) (hne : ms ≠ [])
    (hall : ∀ m ∈ ms,
      m.RouteID = id ∧ m.Success = true ∧ 0 < m.ActualFee ∧ 0 < m.ActualTime)
    (hlen : (ms.length : Int) < 2 ^ 53)
    (hfee : totalFee ms < 2 ^ 63) (htime : totalMs ms < 2 ^ 63) :
    ∃ w' h, w.UpdateAll ms = some w' ∧ w'.cache.health id = some h ∧
      h.SuccessRate = F64.ofInt 1 ∧ h.TotalExecutions = (ms.length : Int) ∧
      (0 ≤ h.AverageFee ∧ h.AverageFee * (ms.length : Int) ≤ totalFee ms ∧
        2 * (totalFee ms - h.AverageFee * (ms.length : Int))
          ≤ (ms.length : Int) * ((ms.length : Int) - 1) ∧
        ∀ f, (∀ m ∈ ms, m.ActualFee = f) → h.AverageFee = f) ∧
      (0 ≤ h.AverageTime ∧ h.AverageTime * (ms.length : Int) ≤ totalMs ms ∧
        2 * (totalMs ms - h.AverageTime * (ms.length : Int))
          ≤ (ms.length : Int) * ((ms.length : Int) - 1) ∧
        ∀ t, (∀ m ∈ ms, Milliseconds m.ActualTime = t) → h.AverageTime = t) := by
  obtain ⟨w', hrun, -, -, -, hcons⟩ :=
    World.UpdateAll_successes w id hfresh ms (fun m hm => ⟨(hall m hm).1, (hall m hm).2.1⟩) hlen
  obtain ⟨h, hh, hsr, hte, hf, ht⟩ := hcons hne
  exact ⟨w', h, hrun, hh, hsr, hte, hf (fun m hm => (hall m hm).2.2.1) hfee,
    ht (fun m hm => (hall m hm).2.2.2) htime⟩

/-- C17, witness: at start-up, two successes of the route `direct` with fee 7
and a time of 250 milliseconds. -/
theorem C17_witness :
    ∃ w' h, (World.initial (fun _ => 0)).UpdateAll [successOf 7 250000000, successOf 7 250000000]
        = some w' ∧
      w'.cache.health "direct" = some h ∧
      h.SuccessRate = F64.ofInt 1 ∧ h.TotalExecutions = 2 ∧ h.AverageFee = 7 ∧
      h.AverageTime = 250 := by
  obtain ⟨w', h, hrun, hh, hsr, hte, hf, ht⟩ :=
    C17_running_mean (World.initial (fun _ => 0)) "direct"
      [successOf 7 250000000, successOf 7 250000000] rfl (by simp)
      (by decide) (by decide) (by decide) (by decide)
  exact ⟨w', h, hrun, hh, hsr, hte, hf.2.2.2 7 (by decide), ht.2.2.2 250 (by decide)⟩

/-! ## Claims about the catalog -/

theorem MemoryCatalog.RegisterRoute_short (c : MemoryCatalog) (r : RouteOption)
    (h : r.Hops.length < 2) : c.RegisterRoute r = (c, some Err.ErrNoRoutesFound) := by
  simp only [MemoryCatalog.RegisterRoute, h, if_true]

theorem MemoryCatalog.RegisterRoute_long (c : MemoryCatalog) (r : RouteOption)
    (h : 2 ≤ r.Hops.length) :
    c.RegisterRoute r = (c.appendRoute (routeKey r) r, none) := by
  have hn : ¬ r.Hops.length < 2 := by omega
  simp only [MemoryCatalog.RegisterRoute, hn, if_false, routeKey]

/-- C22, counterexample: `RegisterRoute` of a route with the one hop `A` fails
with `ErrNoRoutesFound`, the error of message `no routes found` that
`FindRoute` returns for an empty list of routes; the package has no error
for an invalid route. -/
theorem C22_counterexample :
    (MemoryCatalog.NewMemoryCatalog.RegisterRoute (routeVia "short" ["A"])).2
      = some Err.ErrNoRoutesFound ∧
    Err.ErrNoRoutesFound.Error = "no routes found" ∧
    (Service.FindRoute (World.runtime insertionSort_func) (stubService [] none)
        (intentFor "WALLET_A" "WALLET_B" "cost" 0) (World.initial (fun _ => 0))).result
      = FindResult.fail Err.ErrNoRoutesFound := by
  refine ⟨by decide, by decide, ?_⟩
  decide!

/-- C22, amended: for every route with fewer than 2 hops, `RegisterRoute` fails
with `ErrNoRoutesFound` and leaves the catalog as it is. -/
theorem C22_short_route_rejected (c : MemoryCatalog) (r : RouteOption)
    (h : r.Hops.length < 2) :
    (c.RegisterRoute r).2 = some Err.ErrNoRoutesFound ∧ (c.RegisterRoute r).1 = c := by
  rw [MemoryCatalog.RegisterRoute_short c r h]
  exact ⟨rfl, rfl⟩

/-- C22, witness: the route with the one hop `A`, and the route with no hop. -/
theorem C22_witness :
    ((MemoryCatalog.NewMemoryCatalog.RegisterRoute (routeVia "short" ["A"])).2
      = some Err.ErrNoRoutesFound ∧
     (MemoryCatalog.NewMemoryCatalog.RegisterRoute (routeVia "short" ["A"])).1
      = MemoryCatalog.NewMemoryCatalog) ∧
    (MemoryCatalog.NewMemoryCatalog.RegisterRoute (routeVia "none" [])).2
      = some Err.ErrNoRoutesFound :=
  ⟨C22_short_route_rejected MemoryCatalog.NewMemoryCatalog (routeVia "short" ["A"]) (by decide),
   (C22_short_route_rejected MemoryCatalog.NewMemoryCatalog (routeVia "none" [])
     (by decide)).1⟩

theorem routeKey_of_ends {r : RouteOption} {first last : String}
    (hf : r.Hops.head? = some first) (hl : r.Hops.getLast? = some last) :
    routeKey r = pairKey first last := by
  unfold routeKey
  cases hh : r.Hops with
  | nil => rw [hh] at hf; simp at hf
  | cons x xs =>
    rw [hh] at hf hl
    simp only [List.head?_cons, Option.some.injEq] at hf
    subst hf
    rw [List.getLastD_eq_getLast?, hl]
    rfl

/-- C23, counterexample: at start-up `ListRoutes("a->b", "c")` returns the direct
route of that pair; after `RegisterRoute` of a route with hops `a`, `b->c`,
of another pair, it returns that route. -/
theorem C23_counterexample :
    (("a->b", "c") : String × String) ≠ ("a", "b->c") ∧
    MemoryCatalog.NewMemoryCatalog.ListRoutes "a->b" "c"
      = [MemoryCatalog.directRoute "a->b" "c"] ∧
    (MemoryCatalog.NewMemoryCatalog.RegisterRoute (routeVia "other" ["a", "b->c"])).1.ListRoutes
        "a->b" "c"
      = [routeVia "other" ["a", "b->c"]] := by
  refine ⟨by decide, by decide!, ?_⟩
  decide!

/-- C23, amended: pairs are told apart by their key `from->to` only. For every
route `r` with at least 2 hops, `RegisterRoute(r)` returns no error;
afterwards `ListRoutes` for the first and last hop of `r` returns the routes
stored under their key before, in their order, followed by `r`, and
`ListRoutes` for a pair of another key returns what it returned before, as
it does for every other pair when neither its source nor the first hop of
`r` holds `->`. -/
theorem C23_register_appends (c : MemoryCatalog) (r : RouteOption) (first last : String)
    (h : 2 ≤ r.Hops.length)
    (hf : r.Hops.head? = some first) (hl : r.Hops.getLast? = some last) :
    (c.RegisterRoute r).2 = none ∧
    (c.RegisterRoute r).1.ListRoutes first last
      = (c.routes (pairKey first last)).getD [] ++ [r] ∧
    (∀ src dst, pairKey src dst ≠ pairKey first last →
      (c.RegisterRoute r).1.ListRoutes src dst = c.ListRoutes src dst) ∧
    (∀ src dst, ¬ hasArrow src → ¬ hasArrow first → (src, dst) ≠ (first, last) →
      (c.RegisterRoute r).1.ListRoutes src dst = c.ListRoutes src dst) := by
  rw [MemoryCatalog.RegisterRoute_long c r h, routeKey_of_ends hf hl]
  have hother : ∀ src dst, pairKey src dst ≠ pairKey first last →
      (c.appendRoute (pairKey first last) r).ListRoutes src dst = c.ListRoutes src dst := by
    intro src dst hne
    simp only [MemoryCatalog.ListRoutes, MemoryCatalog.appendRoute, hne, if_false]
  refine ⟨rfl, ?_, hother, ?_⟩
  · simp only [MemoryCatalog.ListRoutes, MemoryCatalog.appendRoute, if_true]
  · intro src dst hs hfirst hne
    apply hother
    intro hkey
    obtain ⟨e1, e2⟩ := pairKey_injective hs hfirst hkey
    exact hne (by rw [e1, e2])

/-- C23, witness: at start-up, a third route from `WALLET_A` to `WALLET_B`, by
way of `HUB`, comes after the two default routes. -/
theorem C23_witness :
    (MemoryCatalog.NewMemoryCatalog.RegisterRoute
        (routeVia "relay" ["WALLET_A", "HUB", "WALLET_B"])).1.ListRoutes "WALLET_A" "WALLET_B"
      = MemoryCatalog.defaultRoutes ++ [routeVia "relay" ["WALLET_A", "HUB", "WALLET_B"]] :=
  (C23_register_appends MemoryCatalog.NewMemoryCatalog
    (routeVia "relay" ["WALLET_A", "HUB", "WALLET_B"]) "WALLET_A" "WALLET_B"
    (by decide) rfl rfl).2.1
/-- The map of `NewMemoryCatalog`: the two default routes, under the key of
`WALLET_A` and `WALLET_B`. -/
theorem MemoryCatalog.NewMemoryCatalog_routes (key : String) :
    MemoryCatalog.NewMemoryCatalog.routes key =
      if key = pairKey "WALLET_A" "WALLET_B" then some MemoryCatalog.defaultRoutes else none := by
  have hk : routeKey
      { RouteID := "direct", Hops := ["WALLET_A", "WALLET_B"], EstimatedFee := 2,
        EstimatedTime := 150000000, SuccessRate := F64.ofRatio 99 100,
        Score := F64.fin false 0, RouteType := "direct" } = pairKey "WALLET_A" "WALLET_B" := rfl
  have hk2 : routeKey
      { RouteID := "fast_lane", Hops := ["WALLET_A", "WALLET_B"], EstimatedFee := 5,
        EstimatedTime := 50000000, SuccessRate := F64.ofRatio 995 1000,
        Score := F64.fin false 0, RouteType := "direct" } = pairKey "WALLET_A" "WALLET_B" := rfl
  unfold routeKey at hk hk2
  simp only [MemoryCatalog.NewMemoryCatalog, MemoryCatalog.addDefaultRoutes,
    MemoryCatalog.defaultRoutes, List.foldl_cons, List.foldl_nil, MemoryCatalog.appendRoute,
    hk, hk2, if_true, Option.getD_none, Option.getD_some, List.nil_append, List.cons_append]
  split <;> rfl

theorem MemoryCatalog.RegisterAll_append (c : MemoryCatalog) (rs : List RouteOption)
    (r : RouteOption) : c.RegisterAll (rs ++ [r]) = ((c.RegisterAll rs).RegisterRoute r).1 := by
  simp only [MemoryCatalog.RegisterAll, List.foldl_append, List.foldl_cons, List.foldl_nil]

/-- A key under which no route of a list is stored has the entry it had. -/
theorem MemoryCatalog.RegisterAll_other (c : MemoryCatalog) (key : String) :
    ∀ rs : List RouteOption, (∀ r ∈ rs, 2 ≤ r.Hops.length → routeKey r ≠ key) →
      (c.RegisterAll rs).routes key = c.routes key := by
  intro rs
  induction rs using List.reverseRecOn with
  | nil => intro _; rfl
  | append_singleton rs r ih =>
    intro h
    rw [MemoryCatalog.RegisterAll_append]
    have ih' := ih (fun x hx => h x (List.mem_append_left _ hx))
    by_cases hlen : r.Hops.length < 2
    · rw [MemoryCatalog.RegisterRoute_short _ r hlen]
      exact ih'
    · have hne : key ≠ routeKey r := fun e =>
        h r (List.mem_append_right _ (List.mem_singleton_self r)) (by omega) e.symm
      rw [MemoryCatalog.RegisterRoute_long _ r (by omega)]
      simp only [MemoryCatalog.appendRoute, hne, if_false]
      exact ih'

/-- In every catalog built from `NewMemoryCatalog` by calls of `RegisterRoute`,
a stored slice holds a route, and every route in it at least 2 hops. -/
theorem MemoryCatalog.RegisterAll_stored :
    ∀ (rs : List RouteOption) (key : String) (l : List RouteOption),
      (MemoryCatalog.NewMemoryCatalog.RegisterAll rs).routes key = some l →
      l ≠ [] ∧ ∀ r ∈ l, 2 ≤ r.Hops.length := by
  intro rs
  induction rs using List.reverseRecOn with
  | nil =>
    intro key l h
    have h' : MemoryCatalog.NewMemoryCatalog.routes key = some l := h
    rw [MemoryCatalog.NewMemoryCatalog_routes] at h'
    split at h'
    · simp only [Option.some.injEq] at h'
      subst h'
      refine ⟨by simp [MemoryCatalog.defaultRoutes], ?_⟩
      intro r hr
      simp only [MemoryCatalog.defaultRoutes, List.mem_cons, List.mem_singleton,
        List.not_mem_nil, or_false] at hr
      rcases hr with rfl | rfl <;> decide
    · simp at h'
  | append_singleton rs r ih =>
    intro key l h
    rw [MemoryCatalog.RegisterAll_append] at h
    by_cases hlen : r.Hops.length < 2
    · rw [MemoryCatalog.RegisterRoute_short _ r hlen] at h
      exact ih key l h
    · rw [MemoryCatalog.RegisterRoute_long _ r (by omega)] at h
      simp only [MemoryCatalog.appendRoute] at h
      by_cases hk : key = routeKey r
      · rw [if_pos hk] at h
        simp only [Option.some.injEq] at h
        subst h
        refine ⟨by simp, ?_⟩
        intro x hx
        rcases List.mem_append.mp hx with hx | hx
        · cases hst : (MemoryCatalog.NewMemoryCatalog.RegisterAll rs).routes (routeKey r) with
          | none => rw [hst] at hx; simp at hx
          | some l0 =>
            rw [hst] at hx
            exact (ih _ l0 hst).2 x hx
        · rw [List.mem_singleton.mp hx]
          omega
      · rw [if_neg hk] at h
        exact ih key l h

theorem World_writeBack_catalog (src dst : String) (l : List RouteOption) (w : World)
    (key : String) :
    (World.catalogPort.writeBack src dst l w).catalog.routes key =
      if key = pairKey src dst ∧ (w.catalog.routes (pairKey src dst)).isSome = true then some l
      else w.catalog.routes key := by
  simp only [World.catalogPort]
  cases hk : w.catalog.routes (pairKey src dst) with
  | none => simp
  | some l0 =>
    simp only [Option.isSome_some, and_true]

theorem World_after_write_catalog (sortSlice : SliceSort) (src dst : String) (r : RouteOption)
    (w : World) :
    ((World.runtime sortSlice).Now ((World.runtime sortSlice).Now
      (World.service.healthPort.CacheRoute src dst r w).2).2).2.catalog = w.catalog := rfl

/-- What `FindRoute` on the in-memory adapters does to the catalog: a stored
slice is as it was, or holds the routes it held, with their scores filled
in, in the order `sort.Slice` left them in; no slice is added. -/
theorem World_FindRoute_catalog (sortSlice : SliceSort) (hS : SortContract sortSlice)
    (intent : PaymentIntent) (w : World) (key : String) (l' : List RouteOption)
    (h : (Service.FindRoute (World.runtime sortSlice) World.service intent w).world.catalog.routes
      key = some l') :
    ∃ l, w.catalog.routes key = some l ∧
      (l' = l ∨ l'.Perm (l.map (fun r =>
        { r with Score := scoreOf (World.runtime sortSlice) World.service intent w r }))) := by
  have hpc : (probed (World.runtime sortSlice) World.service intent w).2.catalog = w.catalog :=
    (World_probed_frame sortSlice intent w).1
  have hlc : (listed (World.runtime sortSlice) World.service intent w).2.catalog = w.catalog :=
    hpc
  have hli := World_listed sortSlice intent w
  cases hhit : isHit (probed (World.runtime sortSlice) World.service intent w).1 with
  | true =>
    obtain ⟨c, hc⟩ := isHit_eq_true hhit
    rw [Service.FindRoute_hit _ _ _ _ c hc] at h
    have hw : ((World.runtime sortSlice).Now
        (probed (World.runtime sortSlice) World.service intent w).2).2.catalog = w.catalog := hpc
    simp only [] at h
    rw [hw] at h
    exact ⟨l', h, Or.inl rfl⟩
  | false =>
    by_cases hne : w.catalog.ListRoutes intent.From intent.To = []
    · rw [hne] at hli
      rw [Service.FindRoute_empty _ _ _ _ hhit hli] at h
      simp only [] at h
      rw [hlc] at h
      exact ⟨l', h, Or.inl rfl⟩
    · have hrk := ranked_perm (World.runtime sortSlice) World.service intent w hS
      have hsc : scored (World.runtime sortSlice) World.service intent w =
          (w.catalog.ListRoutes intent.From intent.To).map (fun r =>
            { r with Score := scoreOf (World.runtime sortSlice) World.service intent w r }) := by
        unfold scored
        rw [hli]
      cases hr : ranked (World.runtime sortSlice) World.service intent w with
      | nil =>
        rw [hr] at hrk
        have := hrk.length_eq
        rw [hsc, List.length_map] at this
        exact absurd (List.length_eq_zero.mp this.symm) hne
      | cons best rest =>
        rw [Service.FindRoute_ranked _ _ _ _ _ best rest hhit hli hne hr] at h
        have hcat : (Service.FindRoute (World.runtime sortSlice) World.service intent w).world.catalog
            = (World.catalogPort.writeBack intent.From intent.To (best :: rest)
                (listed (World.runtime sortSlice) World.service intent w).2).catalog := by
          rw [Service.FindRoute_ranked _ _ _ _ _ best rest hhit hli hne hr]
          split
          · rfl
          · rfl
        have h2 : (World.catalogPort.writeBack intent.From intent.To (best :: rest)
            (listed (World.runtime sortSlice) World.service intent w).2).catalog.routes key
              = some l' := by
          split at h
          · exact h
          · exact h
        rw [World_writeBack_catalog, hlc] at h2
        by_cases hk : key = pairKey intent.From intent.To ∧
            (w.catalog.routes (pairKey intent.From intent.To)).isSome = true
        · rw [if_pos hk] at h2
          simp only [Option.some.injEq] at h2
          obtain ⟨hkey, hsome⟩ := hk
          obtain ⟨l, hl⟩ := Option.isSome_iff_exists.mp hsome
          have hlist : w.catalog.ListRoutes intent.From intent.To = l := by
            simp only [MemoryCatalog.ListRoutes, hl]
          refine ⟨l, by rw [hkey]; exact hl, Or.inr ?_⟩
          rw [← h2, ← hr, ← hlist, ← hsc]
          exact hrk
        · rw [if_neg hk] at h2
          exact ⟨l', h2, Or.inl rfl⟩

theorem MemoryCatalog.WellFormed_start : MemoryCatalog.NewMemoryCatalog.WellFormed :=
  fun key l h => MemoryCatalog.RegisterAll_stored [] key l h

theorem MemoryCatalog.WellFormed_register (c : MemoryCatalog) (r : RouteOption)
    (hc : c.WellFormed) : (c.RegisterRoute r).1.WellFormed := by
  intro key l h
  by_cases hlen : r.Hops.length < 2
  · rw [MemoryCatalog.RegisterRoute_short _ r hlen] at h
    exact hc key l h
  · rw [MemoryCatalog.RegisterRoute_long _ r (by omega)] at h
    simp only [MemoryCatalog.appendRoute] at h
    by_cases hk : key = routeKey r
    · rw [if_pos hk] at h
      simp only [Option.some.injEq] at h
      subst h
      refine ⟨by simp, ?_⟩
      intro x hx
      rcases List.mem_append.mp hx with hx | hx
      · cases hst : c.routes (routeKey r) with
        | none => rw [hst] at hx; simp at hx
        | some l0 =>
          rw [hst] at hx
          exact (hc _ l0 hst).2 x hx
      · rw [List.mem_singleton.mp hx]
        omega
    · rw [if_neg hk] at h
      exact hc key l h

/-- `FindRoute` on the in-memory adapters, which scores and sorts the slice of
the catalog in place, keeps the catalog well formed. -/
theorem MemoryCatalog.WellFormed_FindRoute (sortSlice : SliceSort)
    (hS : SortContract sortSlice) (intent : PaymentIntent) (w : World)
    (hc : w.catalog.WellFormed) :
    (Service.FindRoute (World.runtime sortSlice) World.service intent w).world.catalog.WellFormed
    := by
  intro key l' h
  obtain ⟨l, hl, hcase⟩ := World_FindRoute_catalog sortSlice hS intent w key l' h
  obtain ⟨hne, hhops⟩ := hc key l hl
  rcases hcase with rfl | hperm
  · exact ⟨hne, hhops⟩
  · constructor
    · intro hnil
      have := hperm.length_eq
      rw [hnil, List.length_map] at this
      exact hne (List.length_eq_zero.mp this.symm)
    · intro r hr
      have hmem := hperm.subset hr
      obtain ⟨r0, hr0, rfl⟩ := List.mem_map.mp hmem
      exact hhops r0 hr0

theorem MemoryCatalog.WellFormed_ListRoutes (c : MemoryCatalog) (hc : c.WellFormed)
    (src dst : String) :
    c.ListRoutes src dst ≠ [] ∧ ∀ r ∈ c.ListRoutes src dst, 2 ≤ r.Hops.length := by
  unfold MemoryCatalog.ListRoutes
  cases hst : c.routes (pairKey src dst) with
  | none =>
    refine ⟨by simp, ?_⟩
    intro r hr
    simp only [List.mem_singleton] at hr
    subst hr
    simp [MemoryCatalog.directRoute]
  | some l => exact hc _ l hst

/-- C24, counterexample: after `RegisterRoute` of a route with hops `a`,
`b->c`, the pair (`a->b`, `c`), for which no route was registered, is not
listed its direct route but the route of the other pair. -/
theorem C24_counterexample :
    (("a->b", "c") : String × String) ≠ ("a", "b->c") ∧
    (MemoryCatalog.NewMemoryCatalog.RegisterAll [routeVia "other" ["a", "b->c"]]).ListRoutes
        "a->b" "c"
      = [routeVia "other" ["a", "b->c"]] ∧
    routeVia "other" ["a", "b->c"] ≠ MemoryCatalog.directRoute "a->b" "c" := by
  refine ⟨by decide, by decide!, ?_⟩
  decide!

/-- C24, amended: pairs are told apart by their key `from->to` only. In a
catalog built from `NewMemoryCatalog` by calls of `RegisterRoute`, for every
pair whose key is the key of no default route and of no registered route of
at least 2 hops, `ListRoutes` returns, with no error, exactly the direct route:
identifier `direct`, hops `from`, `to`, fee 2, time 150 ms, success rate
0.99, type `direct`. For every pair `ListRoutes` returns no error and a
list that is not empty; this holds in every catalog that is well formed, as
the catalog is at start-up and stays under `RegisterRoute` and under
`FindRoute`, which sorts the stored slice in place. -/
theorem C24_direct_route (rs : List RouteOption) (src dst : String) (w : World)
    (hdefault : pairKey src dst ≠ pairKey "WALLET_A" "WALLET_B")
    (hrs : ∀ r ∈ rs, 2 ≤ r.Hops.length → routeKey r ≠ pairKey src dst) :
    (MemoryCatalog.NewMemoryCatalog.RegisterAll rs).ListRoutes src dst =
      [{ RouteID := "direct", Hops := [src, dst], EstimatedFee := 2,
         EstimatedTime := 150000000, SuccessRate := F64.ofRatio 99 100,
         Score := F64.fin false 0, RouteType := "direct" }] ∧
    Milliseconds 150000000 = 150 ∧
    (∀ (rs' : List RouteOption) (a b : String),
      (MemoryCatalog.NewMemoryCatalog.RegisterAll rs').ListRoutes a b ≠ []) ∧
    (∀ a b : String, (World.catalogPort.ListRoutes a b w).1.2 = none ∧
      (World.catalogPort.ListRoutes a b w).1.1 = w.catalog.ListRoutes a b) ∧
    (MemoryCatalog.NewMemoryCatalog.WellFormed ∧
      (∀ (c : MemoryCatalog) (r : RouteOption), c.WellFormed →
        (c.RegisterRoute r).1.WellFormed) ∧
      (∀ (sortSlice : SliceSort) (intent : PaymentIntent) (v : World),
        SortContract sortSlice → v.catalog.WellFormed →
        (Service.FindRoute (World.runtime sortSlice) World.service intent
          v).world.catalog.WellFormed) ∧
      (∀ (c : MemoryCatalog) (a b : String), c.WellFormed → c.ListRoutes a b ≠ [])) := by
  refine ⟨?_, by decide, ?_, fun a b => ⟨rfl, rfl⟩,
    MemoryCatalog.WellFormed_start, MemoryCatalog.WellFormed_register,
    fun sortSlice intent v hS hv => MemoryCatalog.WellFormed_FindRoute sortSlice hS intent v hv,
    fun c a b hc => (MemoryCatalog.WellFormed_ListRoutes c hc a b).1⟩
  · have hnone : (MemoryCatalog.NewMemoryCatalog.RegisterAll rs).routes (pairKey src dst)
        = none := by
      rw [MemoryCatalog.RegisterAll_other _ _ rs hrs, MemoryCatalog.NewMemoryCatalog_routes,
        if_neg hdefault]
    simp only [MemoryCatalog.ListRoutes, hnone, MemoryCatalog.directRoute]
  · intro rs' a b
    unfold MemoryCatalog.ListRoutes
    cases hst : (MemoryCatalog.NewMemoryCatalog.RegisterAll rs').routes (pairKey a b) with
    | none => simp
    | some l => exact (MemoryCatalog.RegisterAll_stored rs' _ l hst).1

/-- C24, witness: at start-up, after a route from `X` to `Y` is registered, the
pair (`Y`, `X`) is listed its direct route. -/
theorem C24_witness :
    (MemoryCatalog.NewMemoryCatalog.RegisterAll [routeVia "xy" ["X", "Y"]]).ListRoutes "Y" "X" =
      [{ RouteID := "direct", Hops := ["Y", "X"], EstimatedFee := 2,
         EstimatedTime := 150000000, SuccessRate := F64.ofRatio 99 100,
         Score := F64.fin false 0, RouteType := "direct" }] :=
  (C24_direct_route [routeVia "xy" ["X", "Y"]] "Y" "X" (World.initial (fun _ => 0))
    (by decide) (by decide)).1

/-- C27: in every catalog built from `NewMemoryCatalog` by calls of
`RegisterRoute`, every route of a stored slice and every route `ListRoutes`
returns, for any pair, has at least 2 hops; and `FindRoute`, which sorts the
stored slice in place, keeps a well-formed catalog well formed, so that the
routes `ListRoutes` returns after it have at least 2 hops too. -/
theorem C27_two_hops (rs : List RouteOption) :
    (∀ (key : String) (l : List RouteOption),
      (MemoryCatalog.NewMemoryCatalog.RegisterAll rs).routes key = some l →
      ∀ r ∈ l, 2 ≤ r.Hops.length) ∧
    (∀ (src dst : String),
      ∀ r ∈ (MemoryCatalog.NewMemoryCatalog.RegisterAll rs).ListRoutes src dst,
        2 ≤ r.Hops.length) ∧
    (∀ (sortSlice : SliceSort) (intent : PaymentIntent) (v : World) (src dst : String),
      SortContract sortSlice → v.catalog.WellFormed →
      ∀ r ∈ (Service.FindRoute (World.runtime sortSlice) World.service intent
          v).world.catalog.ListRoutes src dst,
        2 ≤ r.Hops.length) := by
  refine ⟨fun key l h => (MemoryCatalog.RegisterAll_stored rs key l h).2, ?_,
    fun sortSlice intent v src dst hS hv =>
      (MemoryCatalog.WellFormed_ListRoutes _
        (MemoryCatalog.WellFormed_FindRoute sortSlice hS intent v hv) src dst).2⟩
  intro src dst r hr
  unfold MemoryCatalog.ListRoutes at hr
  cases hst : (MemoryCatalog.NewMemoryCatalog.RegisterAll rs).routes (pairKey src dst) with
  | none =>
    rw [hst] at hr
    simp only [List.mem_singleton] at hr
    subst hr
    simp [MemoryCatalog.directRoute]
  | some l =>
    rw [hst] at hr
    exact (MemoryCatalog.RegisterAll_stored rs _ l hst).2 r hr

/-- C27, witness: after a route with one hop is refused and a route with three
hops registered, the routes from `WALLET_A` to `WALLET_B` have 2, 2 and 3
hops. -/
theorem C27_witness :
    ((MemoryCatalog.NewMemoryCatalog.RegisterAll
        [routeVia "short" ["WALLET_A"],
         routeVia "relay" ["WALLET_A", "HUB", "WALLET_B"]]).ListRoutes
      "WALLET_A" "WALLET_B").map (fun r => r.Hops.length) = [2, 2, 3] ∧
    ∀ r ∈ (MemoryCatalog.NewMemoryCatalog.RegisterAll
        [routeVia "short" ["WALLET_A"],
         routeVia "relay" ["WALLET_A", "HUB", "WALLET_B"]]).ListRoutes "WALLET_A" "WALLET_B",
      2 ≤ r.Hops.length :=
  ⟨by decide!,
   (C27_two_hops [routeVia "short" ["WALLET_A"],
      routeVia "relay" ["WALLET_A", "HUB", "WALLET_B"]]).2.1 "WALLET_A" "WALLET_B"⟩
/-! ## Claims about the sweep and the keys of the route cache -/

theorem World_GetCachedRoute_cache (src dst : String) (w : World) :
    (World.healthPort.GetCachedRoute src dst w).2.cache = w.cache := by
  simp only [World.healthPort]
  split <;> rfl

/-- C21: a read leaves the cache as it is, also when the entry is expired. One
pass of the sweep with reading `now` deletes exactly the entries of the route
cache whose `expiresAt` is before `now`: an entry is absent afterwards if and
only if it was absent or had `expiresAt < now`, every other entry is kept as
it is, and no entry is added. The health map is as it was. A read at `now`
or later returns after the pass what it returned before it, so the pass
deletes no entry that a read at the same instant would serve. -/
theorem C21_sweep (c : MemoryCache) (now : Int) :
    (∀ (w : World) (src dst : String),
      (World.healthPort.GetCachedRoute src dst w).2.cache = w.cache) ∧
    (∀ key, (c.cleanup now).routes key = none ↔
      (c.routes key = none ∨ ∃ cached, c.routes key = some cached ∧ cached.expiresAt < now)) ∧
    (∀ key cached, c.routes key = some cached → ¬ cached.expiresAt < now →
      (c.cleanup now).routes key = some cached) ∧
    (∀ key cached, (c.cleanup now).routes key = some cached → c.routes key = some cached) ∧
    (c.cleanup now).health = c.health ∧
    (∀ (t : Int) (src dst : String), now ≤ t →
      (c.cleanup now).GetCachedRoute t src dst = c.GetCachedRoute t src dst) ∧
    (∀ w : World, w.cleanup.cache = w.cache.cleanup (w.clock w.ticks)) := by
  refine ⟨fun w src dst => World_GetCachedRoute_cache src dst w, ?_, ?_, ?_, rfl, ?_,
    fun w => rfl⟩
  · intro key
    simp only [MemoryCache.cleanup]
    cases hk : c.routes key with
    | none => simp
    | some cached =>
      by_cases hlt : cached.expiresAt < now
      · simp [hlt]
      · simp [hlt]
  · intro key cached hk hlt
    simp only [MemoryCache.cleanup, hk, hlt, if_false]
  · intro key cached hk
    simp only [MemoryCache.cleanup] at hk
    cases hc : c.routes key with
    | none => rw [hc] at hk; simp at hk
    | some cached' =>
      rw [hc] at hk
      simp only [] at hk
      split at hk
      · simp at hk
      · exact hk
  · intro t src dst ht
    simp only [MemoryCache.GetCachedRoute, MemoryCache.cleanup]
    cases hc : c.routes (pairKey src dst) with
    | none => rfl
    | some cached =>
      simp only []
      by_cases hlt : cached.expiresAt < now
      · have hnt : ¬ t < cached.expiresAt := by omega
        simp only [hlt, if_true, hnt, if_false]
      · simp only [hlt, if_false]

/-- C21, witness: an entry written at time 0 is kept by a pass at its
`expiresAt`, when a read already misses, and deleted by a pass one
nanosecond later; neither pass changes what a read returns. -/
theorem C21_witness :
    (((MemoryCache.NewMemoryCache.CacheRoute 0 "WALLET_A" "WALLET_B"
        (some (MemoryCatalog.directRoute "WALLET_A" "WALLET_B"))).1.cleanup
          300000000000).routes (pairKey "WALLET_A" "WALLET_B")).isSome = true ∧
    (((MemoryCache.NewMemoryCache.CacheRoute 0 "WALLET_A" "WALLET_B"
        (some (MemoryCatalog.directRoute "WALLET_A" "WALLET_B"))).1.cleanup
          300000000001).routes (pairKey "WALLET_A" "WALLET_B")).isSome = false ∧
    ((MemoryCache.NewMemoryCache.CacheRoute 0 "WALLET_A" "WALLET_B"
        (some (MemoryCatalog.directRoute "WALLET_A" "WALLET_B"))).1.cleanup
          300000000000).GetCachedRoute 300000000000 "WALLET_A" "WALLET_B" =
      (MemoryCache.NewMemoryCache.CacheRoute 0 "WALLET_A" "WALLET_B"
        (some (MemoryCatalog.directRoute "WALLET_A" "WALLET_B"))).1.GetCachedRoute
          300000000000 "WALLET_A" "WALLET_B" :=
  ⟨by decide!, by decide!,
   (C21_sweep (MemoryCache.NewMemoryCache.CacheRoute 0 "WALLET_A" "WALLET_B"
      (some (MemoryCatalog.directRoute "WALLET_A" "WALLET_B"))).1 300000000000).2.2.2.2.2.1
     300000000000 "WALLET_A" "WALLET_B" (le_refl _)⟩

/-- C28 (the code diverges): a write under one key leaves the reads under every
other key as they were, and two pairs whose sources hold no `->` have the
same key only if they are the same pair; but the pairs (`alice`,
`bob->carol`) and (`alice->bob`, `carol`) have the same key
`alice->bob->carol`: after `FindRoute` for the first at start-up, `FindRoute`
for the second is served the route cached for the first. -/
theorem C28_keys_collide :
    (∀ (c : MemoryCache) (t t' : Int) (src dst a b : String) (r : Option RouteOption),
      pairKey a b ≠ pairKey src dst →
      (c.CacheRoute t src dst r).1.GetCachedRoute t' a b = c.GetCachedRoute t' a b) ∧
    (∀ a b a' b' : String, ¬ hasArrow a → ¬ hasArrow a' → (a, b) ≠ (a', b') →
      pairKey a b ≠ pairKey a' b') ∧
    (("alice", "bob->carol") : String × String) ≠ ("alice->bob", "carol") ∧
    pairKey "alice" "bob->carol" = pairKey "alice->bob" "carol" ∧
    MemoryCache.NewMemoryCache.GetCachedRoute 0 "alice->bob" "carol"
      = (none, some Err.ErrNoRoutesFound) ∧
    (MemoryCache.NewMemoryCache.CacheRoute 0 "alice" "bob->carol"
        (some (MemoryCatalog.directRoute "alice" "bob->carol"))).1.GetCachedRoute
          0 "alice->bob" "carol"
      = (some (MemoryCatalog.directRoute "alice" "bob->carol"), none) ∧
    (Service.FindRoute (World.runtime insertionSort_func) World.service
        (intentFor "alice->bob" "carol" "cost" 0)
        (Service.FindRoute (World.runtime insertionSort_func) World.service
          (intentFor "alice" "bob->carol" "cost" 0)
          (World.initial (fun _ => 0))).world).result.decision?.map
      (fun d => (d.SelectedRoute.Hops, d.Reason))
      = some (["alice", "bob->carol"], "cached_route") := by
  refine ⟨?_, ?_, by decide, by decide, by decide, by decide!, by decide!⟩
  · intro c t t' src dst a b r hne
    simp only [MemoryCache.GetCachedRoute, MemoryCache.CacheRoute, hne, if_false]
  · intro a b a' b' ha ha' hne hkey
    obtain ⟨e1, e2⟩ := pairKey_injective ha ha' hkey
    exact hne (by rw [e1, e2])

/-- C30 (the code diverges): for identities of at least 8 bytes the mock
`ExecuteTransfer` returns, with no error, `0x` followed by the first 8 bytes
of `from`, the first 8 bytes of `to` and the amount in decimal; for an
identity shorter than 8 bytes it panics, as `Pay` from the wallet `A` does on
the wired adapters. -/
theorem C30_short_identity_panics :
    (∀ (src dst : String) (amount : Int), 8 ≤ src.length → 8 ≤ dst.length →
      MockPaymentClient.ExecuteTransfer src dst amount
        = some ("0x" ++ src.take 8 ++ dst.take 8 ++ toString amount)) ∧
    (∀ (src dst : String) (amount : Int), src.length < 8 ∨ dst.length < 8 →
      MockPaymentClient.ExecuteTransfer src dst amount = none) ∧
    MockPaymentClient.ExecuteTransfer "WALLET_AB" "WALLET_CD" (-5) = some "0xWALLET_AWALLET_C-5" ∧
    MockPaymentClient.ExecuteTransfer "A" "WALLET_B" 100 = none ∧
    (Service.Pay (World.runtime insertionSort_func) World.service
        (intentFor "A" "WALLET_B" "cost" 0) (World.initial (fun _ => 0))).result
      = Service.PayResult.panic ∧
    (Service.Pay (World.runtime insertionSort_func) World.service
        (intentFor "A" "WALLET_B" "cost" 0) (World.initial (fun _ => 0))).calls.getLast?
      = some (Call.ExecuteTransfer "A" "WALLET_B" 100) := by
  refine ⟨?_, ?_, by decide, by decide, by decide!, by decide!⟩
  · intro src dst amount hs hd
    have hn : ¬ (src.length < 8 ∨ dst.length < 8) := by omega
    simp only [MockPaymentClient.ExecuteTransfer, hn, if_false]
  · intro src dst amount h
    simp only [MockPaymentClient.ExecuteTransfer, h, if_true]
/-! ## Claims about the cache and `FindRoute` -/

/-- On a cache miss a successful `FindRoute` honours a positive fee bound. -/
theorem Service.FindRoute_miss_fee {ω : Type} (rt : Runtime ω) (s : Service ω)
    (intent : PaymentIntent) (w : ω) (d : RouteDecision)
    (hmiss : isHit (probed rt s intent w).1 = false)
    (hok : (Service.FindRoute rt s intent w).result = FindResult.ok d)
    (hmax : intent.Preferences.MaxFee > 0) :
    d.SelectedRoute.EstimatedFee ≤ intent.Preferences.MaxFee := by
  rcases hl : (listed rt s intent w).1 with ⟨routes, _ | e⟩
  · by_cases hne : routes = []
    · subst hne
      rw [Service.FindRoute_empty rt s intent w hmiss hl] at hok
      cases hok
    · cases hr : ranked rt s intent w with
      | nil =>
        rw [Service.FindRoute_panic rt s intent w routes hmiss hl hne hr] at hok
        cases hok
      | cons best rest =>
        rw [Service.FindRoute_ranked rt s intent w routes best rest hmiss hl hne hr] at hok
        split at hok
        · cases hok
        · next hcond =>
          simp only [FindResult.ok.injEq] at hok
          subst hok
          simp only [not_and, not_lt, gt_iff_lt] at hcond
          exact hcond hmax
  · rw [Service.FindRoute_listErr rt s intent w routes e hmiss hl] at hok
    cases hok

/-- C29 (the code diverges): on a cache miss a successful `FindRoute` honours a
positive fee bound; on a cache hit the bound is not looked at. At start-up a
call for priority `speed` with no fee bound caches `fast_lane`, of fee 5; the
next call for the pair, for priority `cost` and a fee bound of 3, returns
`fast_lane` from the cache, where on an empty cache it returns `direct`, of
fee 2. -/
theorem C29_cached_route_ignores_fee_bound :
    (∀ (ω : Type) (rt : Runtime ω) (s : Service ω) (intent : PaymentIntent) (w : ω)
      (d : RouteDecision), isHit (probed rt s intent w).1 = false →
      (Service.FindRoute rt s intent w).result = FindResult.ok d →
      intent.Preferences.MaxFee > 0 →
      d.SelectedRoute.EstimatedFee ≤ intent.Preferences.MaxFee) ∧
    (Service.FindRoute (World.runtime insertionSort_func) World.service
        (intentFor "WALLET_A" "WALLET_B" "speed" 0)
        (World.initial (fun _ => 0))).result.decision?.map
      (fun d => (d.SelectedRoute.RouteID, d.SelectedRoute.EstimatedFee))
      = some ("fast_lane", 5) ∧
    (intentFor "WALLET_A" "WALLET_B" "cost" 3).Preferences.MaxFee = 3 ∧
    (Service.FindRoute (World.runtime insertionSort_func) World.service
        (intentFor "WALLET_A" "WALLET_B" "cost" 3)
        (Service.FindRoute (World.runtime insertionSort_func) World.service
          (intentFor "WALLET_A" "WALLET_B" "speed" 0)
          (World.initial (fun _ => 0))).world).result.decision?.map
      (fun d => (d.SelectedRoute.RouteID, d.SelectedRoute.EstimatedFee, d.Reason))
      = some ("fast_lane", 5, "cached_route") ∧
    (Service.FindRoute (World.runtime insertionSort_func) World.service
        (intentFor "WALLET_A" "WALLET_B" "cost" 3)
        (World.initial (fun _ => 0))).result.decision?.map
      (fun d => (d.SelectedRoute.RouteID, d.SelectedRoute.EstimatedFee))
      = some ("direct", 2) := by
  refine ⟨?_, by decide!, by decide, by decide!, by decide!⟩
  intro ω rt s intent w d hmiss hok hmax
  exact Service.FindRoute_miss_fee rt s intent w d hmiss hok hmax
theorem isHit_of_error {p : Option RouteOption × Option Err} {e : Err} (h : p.2 = some e) :
    isHit p = false := by
  obtain ⟨r, oe⟩ := p
  simp only at h
  subst h
  cases r <;> rfl

/-- Two services with the same catalog whose cache probes both miss and
leave the same world, and whose cache writes leave the same world, run
`FindRoute` alike. -/
theorem Service.FindRoute_congr_miss {ω : Type} (rt : Runtime ω) (s s' : Service ω)
    (intent : PaymentIntent) (w : ω) (hcat : s'.catalogPort = s.catalogPort)
    (hm : isHit (probed rt s intent w).1 = false)
    (hm' : isHit (probed rt s' intent w).1 = false)
    (hw : (probed rt s' intent w).2 = (probed rt s intent w).2)
    (hcr : ∀ a b r v, (s'.healthPort.CacheRoute a b r v).2 = (s.healthPort.CacheRoute a b r v).2) :
    Service.FindRoute rt s' intent w = Service.FindRoute rt s intent w := by
  unfold probed at hm hm' hw
  rcases hp : (s.healthPort.GetCachedRoute intent.From intent.To (rt.Now w).2).1
    with ⟨_ | c, _ | e⟩ <;>
  rcases hp' : (s'.healthPort.GetCachedRoute intent.From intent.To (rt.Now w).2).1
    with ⟨_ | c', _ | e'⟩ <;>
  first
  | (rw [hp] at hm; simp [isHit] at hm; done)
  | (rw [hp'] at hm'; simp [isHit] at hm'; done)
  | simp only [Service.FindRoute, hp, hp', hcat, hw, hcr]

/-- Two services that differ in their cache writes only return the same
result but for the reading of the clock in it. -/
theorem Service.FindRoute_congr_write {ω : Type} (rt : Runtime ω) (s s' : Service ω)
    (intent : PaymentIntent) (w : ω) (hcat : s'.catalogPort = s.catalogPort)
    (hget : s'.healthPort.GetCachedRoute = s.healthPort.GetCachedRoute) :
    (Service.FindRoute rt s' intent w).result.untimed =
      (Service.FindRoute rt s intent w).result.untimed := by
  rcases hp : (s.healthPort.GetCachedRoute intent.From intent.To (rt.Now w).2).1
    with ⟨_ | c, _ | e⟩ <;>
  simp only [Service.FindRoute, hcat, hget, hp] <;>
  (repeat' split) <;> rfl

/-- C25: cache-store errors do not fail `FindRoute`. When the cache read
returns an error, `FindRoute` runs as it does for a service whose read is a
miss that leaves the same world: same result, same world, same calls. A
service that differs in its cache write only, whatever the write returns or
does, gives the same result but for the reading of the clock in the
decision, and the same outcome altogether when the writes leave the same
world. -/
theorem C25_cache_errors_are_soft {ω : Type} (rt : Runtime ω) (s s' : Service ω)
    (intent : PaymentIntent) (w : ω) (hcat : s'.catalogPort = s.catalogPort) :
    (∀ e, (probed rt s intent w).1.2 = some e →
      isHit (probed rt s' intent w).1 = false →
      (probed rt s' intent w).2 = (probed rt s intent w).2 →
      (∀ a b r v, (s'.healthPort.CacheRoute a b r v).2 = (s.healthPort.CacheRoute a b r v).2) →
      Service.FindRoute rt s intent w = Service.FindRoute rt s' intent w) ∧
    (s'.healthPort.GetCachedRoute = s.healthPort.GetCachedRoute →
      (Service.FindRoute rt s' intent w).result.untimed =
        (Service.FindRoute rt s intent w).result.untimed ∧
      ((∀ a b r v,
          (s'.healthPort.CacheRoute a b r v).2 = (s.healthPort.CacheRoute a b r v).2) →
        Service.FindRoute rt s' intent w = Service.FindRoute rt s intent w)) := by
  constructor
  · intro e he hm' hw hcr
    exact (Service.FindRoute_congr_miss rt s s' intent w hcat (isHit_of_error he) hm' hw hcr).symm
  · intro hget
    refine ⟨Service.FindRoute_congr_write rt s s' intent w hcat hget, ?_⟩
    intro hcr
    simp only [Service.FindRoute, hcat, hget, hcr]

/-- C25, witness: at start-up, with a cache whose reads and writes fail,
`FindRoute` selects `direct` for priority `cost` as it does with the cache at
work. -/
theorem C25_witness :
    (Service.FindRoute (World.runtime insertionSort_func) (faultyService (some cacheDown) none)
        (intentFor "WALLET_A" "WALLET_B" "cost" 0) (World.initial (fun _ => 0)))
      = (Service.FindRoute (World.runtime insertionSort_func) (faultyService none none)
        (intentFor "WALLET_A" "WALLET_B" "cost" 0) (World.initial (fun _ => 0))) ∧
    (Service.FindRoute (World.runtime insertionSort_func)
        (faultyService (some cacheDown) (some cacheDown))
        (intentFor "WALLET_A" "WALLET_B" "cost" 0) (World.initial (fun _ => 0))).result.untimed
      = (Service.FindRoute (World.runtime insertionSort_func)
        (faultyService (some cacheDown) none)
        (intentFor "WALLET_A" "WALLET_B" "cost" 0) (World.initial (fun _ => 0))).result.untimed ∧
    (Service.FindRoute (World.runtime insertionSort_func)
        (faultyService (some cacheDown) (some cacheDown))
        (intentFor "WALLET_A" "WALLET_B" "cost" 0)
        (World.initial (fun _ => 0))).result.decision?.map
      (fun d => (d.SelectedRoute.RouteID, d.Reason)) = some ("direct", "best_score_115.80") :=
  ⟨(C25_cache_errors_are_soft (World.runtime insertionSort_func)
      (faultyService (some cacheDown) none) (faultyService none none)
      (intentFor "WALLET_A" "WALLET_B" "cost" 0) (World.initial (fun _ => 0)) rfl).1
      cacheDown rfl (by decide!) rfl (fun _ _ _ _ => rfl),
   ((C25_cache_errors_are_soft (World.runtime insertionSort_func)
      (faultyService (some cacheDown) none) (faultyService (some cacheDown) (some cacheDown))
      (intentFor "WALLET_A" "WALLET_B" "cost" 0) (World.initial (fun _ => 0)) rfl).2 rfl).1,
   by decide!⟩

/-! ## The success rate stays between 0 and 1 -/

namespace F64

theorem bitLen_eq {n L : Nat} (hL : 0 < L) (h1 : 2 ^ (L - 1) ≤ n) (h2 : n < 2 ^ L) :
    bitLen n = L := by
  have hle := bitLen_le_of_lt h2
  by_contra hne
  have hlt : bitLen n ≤ L - 1 := by omega
  have h3 := lt_two_pow_bitLen n
  have h4 : 2 ^ bitLen n ≤ 2 ^ (L - 1) := Nat.pow_le_pow_right (by decide) hlt
  omega

theorem roundMag_mul_right (n d : Nat) {c : Nat} (hc : 0 < c) :
    roundMag (n * c) (d * c) = roundMag n d := by
  unfold roundMag
  simp only []
  rw [Nat.mul_div_mul_right _ _ hc]
  have hre : d * c * quantum (n / d) = d * quantum (n / d) * c := by ring
  rw [hre, rne_mul_right _ _ hc]

/-- Rounding a quotient is monotone in its numerator. -/
theorem roundMag_mono_num {a b d : Nat} (hd : 0 < d) (h : a ≤ b) :
    roundMag a d ≤ roundMag b d := by
  unfold roundMag
  simp only []
  have hdiv : a / d ≤ b / d := Nat.div_le_div_right h
  by_cases hq : quantum (a / d) = quantum (b / d)
  · rw [hq]
    exact Nat.mul_le_mul_right _ (rne_mono (Nat.mul_pos hd (quantum_pos _)) h)
  · have hb0 : b / d ≠ 0 := by
      intro hb0
      have : a / d = 0 := Nat.eq_zero_of_le_zero (hb0 ▸ hdiv)
      exact hq (by rw [this, hb0])
    have hlen : bitLen (a / d) < bitLen (b / d) := by
      rcases Nat.lt_or_ge (bitLen (a / d)) (bitLen (b / d)) with h1 | h1
      · exact h1
      · exfalso
        apply hq
        unfold quantum
        have := bitLen_mono hdiv
        have : bitLen (a / d) = bitLen (b / d) := by omega
        rw [this]
    have hB : 2 ^ (bitLen (b / d) - 1) ≤ b / d := two_pow_bitLen_le hb0
    have haB : a / d < 2 ^ (bitLen (b / d) - 1) :=
      Nat.lt_of_lt_of_le (lt_two_pow_bitLen (a / d))
        (Nat.pow_le_pow_right (by decide) (by omega))
    -- the numerator of the power of two between the two quotients
    have hBn : 2 ^ (bitLen (b / d) - 1) * d ≤ b := (Nat.le_div_iff_mul_le hd).mp hB
    have haBn : a ≤ 2 ^ (bitLen (b / d) - 1) * d :=
      Nat.le_of_lt ((Nat.div_lt_iff_lt_mul hd).mp haB)
    have hqa : quantum (a / d) ∣ 2 ^ (bitLen (b / d) - 1) := Nat.pow_dvd_pow 2 (by omega)
    have hqb : quantum (b / d) ∣ 2 ^ (bitLen (b / d) - 1) := Nat.pow_dvd_pow 2 (by omega)
    have hmid : ∀ q, 0 < q → q ∣ 2 ^ (bitLen (b / d) - 1) →
        rne (2 ^ (bitLen (b / d) - 1) * d) (d * q) * q = 2 ^ (bitLen (b / d) - 1) := by
      intro q hqpos hqd
      have hdvd : d * q ∣ 2 ^ (bitLen (b / d) - 1) * d := by
        rw [Nat.mul_comm (2 ^ (bitLen (b / d) - 1)) d]
        exact Nat.mul_dvd_mul_left d hqd
      rw [rne_of_dvd hdvd, Nat.mul_comm (2 ^ (bitLen (b / d) - 1)) d,
        Nat.mul_div_mul_left _ _ hd, Nat.div_mul_cancel hqd]
    calc rne a (d * quantum (a / d)) * quantum (a / d)
        ≤ rne (2 ^ (bitLen (b / d) - 1) * d) (d * quantum (a / d)) * quantum (a / d) :=
          Nat.mul_le_mul_right _ (rne_mono (Nat.mul_pos hd (quantum_pos _)) haBn)
      _ = 2 ^ (bitLen (b / d) - 1) := hmid _ (quantum_pos _) hqa
      _ = rne (2 ^ (bitLen (b / d) - 1) * d) (d * quantum (b / d)) * quantum (b / d) :=
          (hmid _ (quantum_pos _) hqb).symm
      _ ≤ rne b (d * quantum (b / d)) * quantum (b / d) :=
          Nat.mul_le_mul_right _ (rne_mono (Nat.mul_pos hd (quantum_pos _)) hBn)

/-- A rounded magnitude is a binary64 magnitude: rounding leaves it as it is. -/
theorem roundMag_idem (x : Nat) : roundMag (roundMag x 1) 1 = roundMag x 1 := by
  apply roundMag_exact
  rw [roundMag_one]
  have hx := lt_two_pow_bitLen x
  have hQ : quantum x ∣ 2 ^ bitLen x := Nat.pow_dvd_pow 2 (Nat.sub_le _ _)
  have hle : rne x (quantum x) * quantum x ≤ 2 ^ bitLen x := by
    calc rne x (quantum x) * quantum x
        ≤ rne (2 ^ bitLen x) (quantum x) * quantum x :=
          Nat.mul_le_mul_right _ (rne_mono (quantum_pos x) (Nat.le_of_lt hx))
      _ = 2 ^ bitLen x := by rw [rne_of_dvd hQ, Nat.div_mul_cancel hQ]
  rcases Nat.lt_or_ge (rne x (quantum x) * quantum x) (2 ^ bitLen x) with hlt | hge
  · have hlen := bitLen_le_of_lt hlt
    have hq : quantum (rne x (quantum x) * quantum x) ∣ quantum x :=
      Nat.pow_dvd_pow 2 (by omega)
    exact Dvd.dvd.trans hq (Nat.dvd_mul_left _ _)
  · have heq : rne x (quantum x) * quantum x = 2 ^ bitLen x := by omega
    rw [heq]
    have hlen : bitLen (2 ^ bitLen x) ≤ bitLen x + 1 :=
      bitLen_le_of_lt (Nat.pow_lt_pow_right (by decide) (Nat.lt_succ_self _))
    unfold quantum
    exact Nat.pow_dvd_pow 2 (by omega)

end F64
namespace F64

/-- What `rne n d` is: within one half of `n / d`, and even when `n / d` is
half-way between two integers. -/
theorem rne_spec (n : Nat) {d : Nat} (hd : 0 < d) :
    2 * (rne n d * d) ≤ 2 * n + d ∧ 2 * n ≤ 2 * (rne n d * d) + d ∧
    (2 * (rne n d * d) = 2 * n + d → rne n d % 2 = 0) ∧
    (2 * n = 2 * (rne n d * d) + d → rne n d % 2 = 0) := by
  have hdm := Nat.div_add_mod n d
  have hlt := Nat.mod_lt n hd
  unfold rne
  simp only []
  generalize n / d = q at hdm ⊢
  generalize n % d = r at hdm hlt ⊢
  have hqd : q * d = d * q := Nat.mul_comm _ _
  have e : (q + 1) * d = d * q + d := by ring
  split_ifs with h1 h2 h3
  · rw [hqd]; omega
  · rw [e]; omega
  · rw [hqd]; omega
  · rw [e]; omega

/-- The magnitude of `float64(k)` for `k` of bit length `e >= 53`: `k` rounded
to a multiple of `2^(e-53)`. -/
theorem roundMag_binade {k e : Nat} (he : 53 ≤ e) (h1 : 2 ^ (e - 1) ≤ k) (h2 : k < 2 ^ e) :
    roundMag (k * one) 1 = rne k (2 ^ (e - 53)) * 2 ^ (e - 53) * one := by
  have hlen : bitLen (k * one) = e + 1074 := by
    apply bitLen_eq (by omega)
    · have : 2 ^ (e + 1074 - 1) = 2 ^ (e - 1) * one := by
        rw [one_eq, ← pow_add]
        congr 1
        omega
      rw [this]
      exact Nat.mul_le_mul_right _ h1
    · have : 2 ^ (e + 1074) = 2 ^ e * one := by rw [one_eq, ← pow_add]
      rw [this]
      exact Nat.mul_lt_mul_of_pos_right h2 one_pos
  have hq : quantum (k * one) = 2 ^ (e - 53) * one := by
    unfold quantum
    rw [hlen, one_eq, ← pow_add]
    congr 1
    omega
  rw [roundMag_one, hq, rne_mul_right _ _ one_pos, Nat.mul_assoc]

end F64
namespace F64

/-- In the binade of bit length `e`, from 54 to 63, where the integers held
exactly are the multiples of `g = 2^(e-53)`: `float64(k)` plus one rounds to
at most `float64(k + 1)`. -/
theorem succ_le_nat (e k : Nat) (he1 : 54 ≤ e) (he2 : e ≤ 63)
    (h1 : 2 ^ (e - 1) ≤ k) (h2 : k < 2 ^ e) :
    2 ^ (e - 1) ≤ rne k (2 ^ (e - 53)) * 2 ^ (e - 53) + 1 ∧
    rne k (2 ^ (e - 53)) * 2 ^ (e - 53) + 1 < 2 ^ (e + 1) ∧
    (rne k (2 ^ (e - 53)) * 2 ^ (e - 53) + 1 < 2 ^ e → k + 1 < 2 ^ e →
      rne (rne k (2 ^ (e - 53)) * 2 ^ (e - 53) + 1) (2 ^ (e - 53)) * 2 ^ (e - 53)
        ≤ rne (k + 1) (2 ^ (e - 53)) * 2 ^ (e - 53)) ∧
    (rne k (2 ^ (e - 53)) * 2 ^ (e - 53) + 1 < 2 ^ e → ¬ k + 1 < 2 ^ e →
      rne (rne k (2 ^ (e - 53)) * 2 ^ (e - 53) + 1) (2 ^ (e - 53)) * 2 ^ (e - 53)
        ≤ rne (k + 1) (2 ^ (e + 1 - 53)) * 2 ^ (e + 1 - 53)) ∧
    (¬ rne k (2 ^ (e - 53)) * 2 ^ (e - 53) + 1 < 2 ^ e → k + 1 < 2 ^ e →
      rne (rne k (2 ^ (e - 53)) * 2 ^ (e - 53) + 1) (2 ^ (e + 1 - 53)) * 2 ^ (e + 1 - 53)
        ≤ rne (k + 1) (2 ^ (e - 53)) * 2 ^ (e - 53)) ∧
    (¬ rne k (2 ^ (e - 53)) * 2 ^ (e - 53) + 1 < 2 ^ e → ¬ k + 1 < 2 ^ e →
      rne (rne k (2 ^ (e - 53)) * 2 ^ (e - 53) + 1) (2 ^ (e + 1 - 53)) * 2 ^ (e + 1 - 53)
        ≤ rne (k + 1) (2 ^ (e + 1 - 53)) * 2 ^ (e + 1 - 53)) := by
  have s1 := rne_spec k (Nat.two_pow_pos (e - 53))
  have s2 := rne_spec (rne k (2 ^ (e - 53)) * 2 ^ (e - 53) + 1) (Nat.two_pow_pos (e - 53))
  have s3 := rne_spec (rne k (2 ^ (e - 53)) * 2 ^ (e - 53) + 1) (Nat.two_pow_pos (e + 1 - 53))
  have s4 := rne_spec (k + 1) (Nat.two_pow_pos (e - 53))
  have s5 := rne_spec (k + 1) (Nat.two_pow_pos (e + 1 - 53))
  generalize rne (rne k (2 ^ (e - 53)) * 2 ^ (e - 53) + 1) (2 ^ (e - 53)) = R2 at s2 ⊢
  generalize rne (rne k (2 ^ (e - 53)) * 2 ^ (e - 53) + 1) (2 ^ (e + 1 - 53)) = R3 at s3 ⊢
  generalize rne (k + 1) (2 ^ (e - 53)) = R4 at s4 ⊢
  generalize rne (k + 1) (2 ^ (e + 1 - 53)) = R5 at s5 ⊢
  generalize rne k (2 ^ (e - 53)) = R1 at s1 s2 s3 ⊢
  interval_cases e <;> simp only [Nat.reducePow, Nat.reduceSub, Nat.reduceAdd] at * <;> omega

end F64
namespace F64

/-- The key step: `float64(k)` plus one rounds to at most `float64(k + 1)`, for
every `k` below `2^63`. -/
theorem roundMag_succ_le {k : Nat} (hk : k < 2 ^ 63) :
    roundMag (roundMag (k * one) 1 + one) 1 ≤ roundMag ((k + 1) * one) 1 := by
  by_cases hs : k < 2 ^ 53
  · rw [roundMag_exact (quantum_dvd_small hs)]
    have : k * one + one = (k + 1) * one := by ring
    rw [this]
  · have h0 : k ≠ 0 := by
      intro h
      subst h
      exact hs (by decide)
    have h1 := two_pow_bitLen_le h0
    have h2 := lt_two_pow_bitLen k
    have he2 : bitLen k ≤ 63 := bitLen_le_of_lt hk
    have he1 : 54 ≤ bitLen k := by
      by_contra hc
      have : 2 ^ bitLen k ≤ 2 ^ 53 := Nat.pow_le_pow_right (by decide) (by omega)
      omega
    obtain ⟨r1, r2, c1, c2, c3, c4⟩ := succ_le_nat (bitLen k) k he1 he2 h1 h2
    rw [roundMag_binade (by omega) h1 h2]
    have hK : rne k (2 ^ (bitLen k - 53)) * 2 ^ (bitLen k - 53) * one + one
        = (rne k (2 ^ (bitLen k - 53)) * 2 ^ (bitLen k - 53) + 1) * one := by ring
    rw [hK]
    have hk1 : 2 ^ (bitLen k - 1) ≤ k + 1 := by omega
    have hk2 : k + 1 < 2 ^ (bitLen k + 1) := by
      have : 2 ^ (bitLen k + 1) = 2 * 2 ^ bitLen k := by rw [pow_succ, Nat.mul_comm]
      omega
    by_cases hA : rne k (2 ^ (bitLen k - 53)) * 2 ^ (bitLen k - 53) + 1 < 2 ^ bitLen k <;>
      by_cases hB : k + 1 < 2 ^ bitLen k
    · rw [roundMag_binade (by omega) r1 hA, roundMag_binade (by omega) hk1 hB]
      exact Nat.mul_le_mul_right _ (c1 hA hB)
    · rw [roundMag_binade (by omega) r1 hA,
        roundMag_binade (show 53 ≤ bitLen k + 1 by omega) (by simpa using hB) hk2]
      exact Nat.mul_le_mul_right _ (c2 hA hB)
    · rw [roundMag_binade (show 53 ≤ bitLen k + 1 by omega) (by simpa using hA) r2,
        roundMag_binade (by omega) hk1 hB]
      exact Nat.mul_le_mul_right _ (c3 hA hB)
    · rw [roundMag_binade (show 53 ≤ bitLen k + 1 by omega) (by simpa using hA) r2,
        roundMag_binade (show 53 ≤ bitLen k + 1 by omega) (by simpa using hB) hk2]
      exact Nat.mul_le_mul_right _ (c4 hA hB)

theorem roundMag_unit : roundMag one 1 = one := by
  have h := roundMag_exact (quantum_dvd_small (show 1 < 2 ^ 53 by decide))
  simpa using h

theorem roundMag_int_lt_huge {K : Nat} (hK : K < 2 ^ 63) : roundMag (K * one) 1 < huge := by
  have h1 := roundMag_le (K * one) 1
  have h2 : K * one ≤ 2 ^ 63 * one := Nat.mul_le_mul_right _ (Nat.le_of_lt hK)
  have h3 : 2 * (2 ^ 63 * one) + 1 < huge := by decide!
  rw [Nat.div_one] at h1
  omega

/-- Conversion `float64(k)` of an `int64` that is not negative. -/
theorem ofInt_of_int64 {k : Int} (h0 : 0 ≤ k) (h1 : k < 2 ^ 63) :
    ofInt k = fin false (roundMag (k.toNat * one) 1) := by
  have hneg : decide (k < 0) = false := by simp [not_lt.mpr h0]
  have habs : k.natAbs = k.toNat := by omega
  unfold ofInt round
  simp only []
  rw [hneg, habs, if_pos (roundMag_int_lt_huge (by omega))]

/-- The product of a rate of at most 1 and `float64(k)`: a magnitude of at most
that of `float64(k)`. -/
theorem mul_unit_le {m a : Nat} (hm : m ≤ one) (ha : roundMag a 1 = a) (hh : a < huge) :
    ∃ p, mul (fin false m) (fin false a) = fin false p ∧ p ≤ a := by
  have hp : roundMag (m * a) one ≤ a := by
    have h1 : roundMag (m * a) one ≤ roundMag (a * one) (1 * one) := by
      rw [Nat.one_mul]
      apply roundMag_mono_num one_pos
      rw [Nat.mul_comm m a]
      exact Nat.mul_le_mul_left _ hm
    rw [roundMag_mul_right _ _ one_pos, ha] at h1
    exact h1
  refine ⟨roundMag (m * a) one, ?_, hp⟩
  unfold mul round
  simp only [Bool.xor_false]
  rw [if_pos (by omega)]

/-- The quotient of a magnitude by one that is not less: at most 1. -/
theorem div_le_unit {q b : Nat} (hb : 0 < b) (hq : q ≤ b) :
    ∃ r, div (fin false q) (fin false b) = fin false r ∧ r ≤ one := by
  have hr : roundMag (q * one) b ≤ one := by
    have h1 : roundMag (q * one) b ≤ roundMag (b * one) b :=
      roundMag_mono_num hb (Nat.mul_le_mul_right _ hq)
    have h2 : roundMag (b * one) b = roundMag (one * b) (1 * b) := by
      rw [Nat.mul_comm b one, Nat.one_mul]
    rw [h2, roundMag_mul_right _ _ hb, roundMag_unit] at h1
    exact h1
  have hhuge : one < huge := by decide!
  refine ⟨roundMag (q * one) b, ?_, hr⟩
  unfold div round
  simp only [Bool.xor_false]
  rw [if_neg (by omega), if_pos (by omega)]

/-- A success rate of at most 1 stays so after a success. -/
theorem successRate_success_le {m : Nat} {k : Int} (hm : m ≤ one) (h0 : 0 ≤ k)
    (h1 : k + 1 < 2 ^ 63) :
    ∃ r, div (add (mul (fin false m) (ofInt k)) (ofInt 1)) (ofInt (k + 1)) = fin false r ∧
      r ≤ one := by
  have hK : k.toNat < 2 ^ 63 := by omega
  have hk1 : (k + 1).toNat = k.toNat + 1 := by omega
  rw [ofInt_of_int64 h0 (by omega), ofInt_of_int64 (by omega) h1, ofInt_one, hk1]
  obtain ⟨p, hp, hpa⟩ := mul_unit_le hm (roundMag_idem (k.toNat * one))
    (roundMag_int_lt_huge hK)
  rw [hp]
  have hkey := roundMag_succ_le hK
  have hq : roundMag (p + one) 1 ≤ roundMag ((k.toNat + 1) * one) 1 :=
    Nat.le_trans (roundMag_mono (Nat.add_le_add_right hpa one)) hkey
  have hbh := roundMag_int_lt_huge (show k.toNat + 1 < 2 ^ 63 by omega)
  have hadd : add (fin false p) (fin false one) = fin false (roundMag (p + one) 1) := by
    unfold add
    simp only [signed, Bool.false_eq_true, if_false, Bool.and_self]
    have hpos : (0 : Int) < (one : Int) := by exact_mod_cast one_pos
    have hz : ((p : Nat) : Int) + (one : Int) ≠ 0 := by
      have : (0 : Int) ≤ ((p : Nat) : Int) := Int.ofNat_nonneg _
      omega
    rw [if_neg hz]
    have habs : (((p : Nat) : Int) + (one : Int)).natAbs = p + one := by
      have : ((p : Nat) : Int) + (one : Int) = ((p + one : Nat) : Int) := by push_cast; ring
      rw [this, Int.natAbs_ofNat]
    have hneg : decide (((p : Nat) : Int) + (one : Int) < 0) = false := by
      have : (0 : Int) ≤ ((p : Nat) : Int) := Int.ofNat_nonneg _
      simp only [decide_eq_false_iff_not, not_lt]
      omega
    rw [habs, hneg]
    unfold round
    simp only []
    rw [if_pos (by omega)]
  rw [hadd]
  have hbpos : 0 < roundMag ((k.toNat + 1) * one) 1 := by
    have h := roundMag_mono (show one ≤ (k.toNat + 1) * one by
      calc one = 1 * one := (Nat.one_mul one).symm
        _ ≤ (k.toNat + 1) * one := Nat.mul_le_mul_right _ (by omega))
    rw [roundMag_unit] at h
    exact Nat.lt_of_lt_of_le one_pos h
  exact div_le_unit hbpos hq

/-- A success rate of at most 1 stays so after a failure. -/
theorem successRate_failure_le {m : Nat} {k : Int} (hm : m ≤ one) (h0 : 0 ≤ k)
    (h1 : k + 1 < 2 ^ 63) :
    ∃ r, div (mul (fin false m) (ofInt k)) (ofInt (k + 1)) = fin false r ∧ r ≤ one := by
  have hK : k.toNat < 2 ^ 63 := by omega
  have hk1 : (k + 1).toNat = k.toNat + 1 := by omega
  rw [ofInt_of_int64 h0 (by omega), ofInt_of_int64 (by omega) h1, hk1]
  obtain ⟨p, hp, hpa⟩ := mul_unit_le hm (roundMag_idem (k.toNat * one))
    (roundMag_int_lt_huge hK)
  rw [hp]
  have hab : roundMag (k.toNat * one) 1 ≤ roundMag ((k.toNat + 1) * one) 1 :=
    roundMag_mono (Nat.mul_le_mul_right _ (Nat.le_succ _))
  have hbpos : 0 < roundMag ((k.toNat + 1) * one) 1 := by
    have h := roundMag_mono (show one ≤ (k.toNat + 1) * one by
      calc one = 1 * one := (Nat.one_mul one).symm
        _ ≤ (k.toNat + 1) * one := Nat.mul_le_mul_right _ (by omega))
    rw [roundMag_unit] at h
    exact Nat.lt_of_lt_of_le one_pos h
  exact div_le_unit hbpos (Nat.le_trans hpa hab)

end F64

/-! ## The entries of the health map over a run of `UpdateMetrics` -/

theorem callsFor_append (id : String) (pre : List RouteMetrics) (x : RouteMetrics) :
    callsFor id (pre ++ [x]) = callsFor id pre + (if x.RouteID = id then 1 else 0) := by
  simp only [callsFor, List.countP_append, List.countP_singleton, decide_eq_true_eq]

theorem F64.initialRate_le :
    ∃ m, F64.ofRatio 99 100 = F64.fin false m ∧ m ≤ F64.one :=
  ⟨F64.roundMag (99 * F64.one) 100, by decide!, by decide!⟩

/-- A run of `UpdateMetrics` from an empty health map with fewer than `2^63`
calls for each route: every call returns; a route has an entry exactly when
a call was made for it, and its entry has as many executions as calls were
made for it and a success rate that is a finite value from 0 to 1. -/
theorem World.UpdateAll_counts (w : World) (hempty : ∀ id, w.cache.health id = none) :
    ∀ ms : List RouteMetrics, (∀ id, callsFor id ms < 2 ^ 63) →
      ∃ w', w.UpdateAll ms = some w' ∧ ∀ id,
        (callsFor id ms = 0 → w'.cache.health id = none) ∧
        (0 < callsFor id ms → ∃ h m, w'.cache.health id = some h ∧
          h.TotalExecutions = (callsFor id ms : Int) ∧
          h.SuccessRate = F64.fin false m ∧ m ≤ F64.one) := by
  intro ms
  induction ms using List.reverseRecOn with
  | nil =>
    intro _
    refine ⟨w, rfl, fun id => ⟨fun _ => hempty id, fun h => ?_⟩⟩
    simp [callsFor] at h
  | append_singleton pre x ih =>
    intro hcalls
    have hpre : ∀ id, callsFor id pre < 2 ^ 63 := by
      intro id
      have := hcalls id
      rw [callsFor_append] at this
      omega
    obtain ⟨w1, hrun, hinv⟩ := ih hpre
    have hx := hcalls x.RouteID
    rw [callsFor_append, if_pos rfl] at hx
    -- the entry the call works on
    have hold : ∃ old m, w1.cache.entryFor (fun i => w1.clock (w1.ticks + i)) x.RouteID = old ∧
        old.TotalExecutions = (callsFor x.RouteID pre : Int) ∧
        old.SuccessRate = F64.fin false m ∧ m ≤ F64.one := by
      rcases Nat.eq_zero_or_pos (callsFor x.RouteID pre) with hz | hp
      · have hnone := (hinv x.RouteID).1 hz
        obtain ⟨m, hm, hle⟩ := F64.initialRate_le
        refine ⟨_, m, rfl, ?_, ?_, hle⟩
        · simp [MemoryCache.entryFor, hnone, hz]
        · simp [MemoryCache.entryFor, hnone, hm]
      · obtain ⟨h, m, hh, hte, hsr, hle⟩ := (hinv x.RouteID).2 hp
        exact ⟨h, m, MemoryCache.entryFor_some hh _, hte, hsr, hle⟩
    obtain ⟨old, m, hent, hte, hsr, hle⟩ := hold
    have h0 : 0 ≤ old.TotalExecutions := by rw [hte]; exact Int.ofNat_nonneg _
    have h1 : old.TotalExecutions + 1 < 2 ^ 63 := by
      rw [hte]
      have : ((callsFor x.RouteID pre + 1 : Nat) : Int) < 2 ^ 63 := by exact_mod_cast hx
      push_cast at this
      exact this
    obtain ⟨w2, h2, hcall, -, hframe2, hh2, hte2, hsr2, -, -⟩ :=
      World.UpdateMetrics_step w1 x old hent h0 h1
    have hrun2 : w.UpdateAll (pre ++ [x]) = some w2 := by
      rw [World.UpdateAll_append, hrun]
      show World.UpdateAll w1 [x] = some w2
      simp only [World.UpdateAll, hcall]
    refine ⟨w2, hrun2, fun id => ?_⟩
    rw [callsFor_append]
    by_cases hid : x.RouteID = id
    · subst hid
      rw [if_pos rfl]
      refine ⟨fun h => by omega, fun _ => ?_⟩
      have hrate : ∃ r, h2.SuccessRate = F64.fin false r ∧ r ≤ F64.one := by
        rw [hsr2, hsr]
        by_cases hS : x.Success = true
        · rw [if_pos hS]
          exact F64.successRate_success_le hle h0 h1
        · rw [if_neg hS]
          exact F64.successRate_failure_le hle h0 h1
      obtain ⟨r, hr, hrle⟩ := hrate
      refine ⟨h2, r, hh2, ?_, hr, hrle⟩
      rw [hte2, hte]
      push_cast
      rfl
    · rw [if_neg hid, Nat.add_zero, hframe2 id (fun e => hid e.symm)]
      exact hinv id

theorem callsFor_replicate (n : Nat) (x : RouteMetrics) (id : String) :
    callsFor id (List.replicate n x) = if x.RouteID = id then n else 0 := by
  simp only [callsFor, List.countP_replicate, decide_eq_true_eq]

/-- The bound of `2^63` calls for a route is the range of the `int64` counter:
after `2^63` calls of `UpdateMetrics` for the route `direct` from an empty
health map, its entry has `-2^63` executions. -/
theorem TotalExecutions_wraps :
    callsFor "direct" (List.replicate (2 ^ 63) failureOf) = 2 ^ 63 ∧
    ∃ w' h, (World.initial (fun _ => 0)).UpdateAll (List.replicate (2 ^ 63) failureOf)
        = some w' ∧
      w'.cache.health "direct" = some h ∧ h.TotalExecutions = -(2 ^ 63) := by
  refine ⟨by rw [callsFor_replicate]; rfl, ?_⟩
  have hsplit : List.replicate (2 ^ 63) failureOf
      = List.replicate (2 ^ 63 - 1) failureOf ++ [failureOf] :=
    List.replicate_succ' (2 ^ 63 - 1) failureOf
  obtain ⟨w1, hrun, hinv⟩ := World.UpdateAll_counts (World.initial (fun _ => 0))
    (fun _ => rfl) (List.replicate (2 ^ 63 - 1) failureOf) (by
      intro id
      rw [callsFor_replicate]
      split
      · exact Nat.sub_lt (Nat.two_pow_pos 63) Nat.one_pos
      · exact Nat.two_pow_pos 63)
  have hc : callsFor "direct" (List.replicate (2 ^ 63 - 1) failureOf) = 2 ^ 63 - 1 := by
    rw [callsFor_replicate]
    rfl
  obtain ⟨h, m, hh, hte, -, -⟩ := (hinv "direct").2 (by rw [hc]; exact Nat.sub_pos_of_lt (by decide))
  rw [hc] at hte
  obtain ⟨-, -, hpanic, hentry⟩ :=
    MemoryCache.UpdateMetrics_spec w1.cache (fun i => w1.clock (w1.ticks + i)) failureOf
  have hent : w1.cache.entryFor (fun i => w1.clock (w1.ticks + i)) failureOf.RouteID = h :=
    MemoryCache.entryFor_some hh _
  rw [hent] at hpanic hentry
  have hnp : (w1.cache.UpdateMetrics (fun i => w1.clock (w1.ticks + i)) failureOf).panicked
      = false := by
    cases hp : (w1.cache.UpdateMetrics (fun i => w1.clock (w1.ticks + i)) failureOf).panicked with
    | false => rfl
    | true =>
      have := (hpanic.mp hp).1
      cases this
  obtain ⟨h', hh', -, -, hte', -⟩ := hentry hnp
  refine ⟨{ w1 with
      cache := (w1.cache.UpdateMetrics (fun i => w1.clock (w1.ticks + i)) failureOf).cache,
      ticks := w1.ticks +
        (w1.cache.UpdateMetrics (fun i => w1.clock (w1.ticks + i)) failureOf).readings },
    h', ?_, hh', ?_⟩
  · rw [hsplit, World.UpdateAll_append, hrun]
    show World.UpdateAll w1 [failureOf] = _
    simp only [World.UpdateAll, World.healthPort, hnp, Bool.false_eq_true, if_false]
  · rw [hte', hte]
    decide

/-- C26: in every state reached from an empty health map by a run of
`UpdateMetrics`, with fewer than `2^63` calls for each route (the range of the
`int64` counter), every call returns; a route has an entry if and only if a
call was made for it (no entry is removed), and its entry has as many
executions as calls were made for it, successes and failures alike, and a
success rate from 0 to 1. -/
theorem C26_health_invariant (w : World) (ms : List RouteMetrics)
    (hempty : ∀ id, w.cache.health id = none) (hcalls : ∀ id, callsFor id ms < 2 ^ 63) :
    ∃ w', w.UpdateAll ms = some w' ∧ ∀ id,
      (w'.cache.health id = none ↔ callsFor id ms = 0) ∧
      ∀ h, w'.cache.health id = some h →
        h.TotalExecutions = (callsFor id ms : Int) ∧
        F64.le (F64.ofInt 0) h.SuccessRate = true ∧
        F64.le h.SuccessRate (F64.ofInt 1) = true := by
  obtain ⟨w', hrun, hinv⟩ := World.UpdateAll_counts w hempty ms hcalls
  refine ⟨w', hrun, fun id => ⟨⟨fun hnone => ?_, (hinv id).1⟩, fun h hh => ?_⟩⟩
  · by_contra hne
    obtain ⟨h, m, hh, -⟩ := (hinv id).2 (Nat.pos_of_ne_zero hne)
    rw [hnone] at hh
    cases hh
  · have hpos : 0 < callsFor id ms := by
      by_contra hz
      have := (hinv id).1 (by omega)
      rw [this] at hh
      cases hh
    obtain ⟨h', m, hh', hte, hsr, hle⟩ := (hinv id).2 hpos
    rw [hh] at hh'
    cases hh'
    have hz : F64.ofInt 0 = F64.fin false 0 := by
      have := F64.ofInt_small (show (0 : Int).natAbs < 2 ^ 53 by decide)
      simpa [F64.exactInt] using this
    refine ⟨hte, ?_, ?_⟩
    · rw [hsr, hz]
      simp [F64.le, F64.signed]
    · rw [hsr, F64.ofInt_one]
      simp only [F64.le, F64.signed, Bool.false_eq_true, if_false, decide_eq_true_eq]
      exact_mod_cast hle

/-- C26, witness: at start-up, a success and a failure of the route `direct`
leave an entry with 2 executions and a success rate of 0.5. -/
theorem C26_witness :
    ∃ w', (World.initial (fun _ => 0)).UpdateAll [successOf 1 1000000, failureOf] = some w' ∧
      (w'.cache.health "direct").map (fun h => (h.TotalExecutions, h.SuccessRate))
        = some (2, F64.ofRatio 1 2) := by
  obtain ⟨w', hrun, hinv⟩ := C26_health_invariant (World.initial (fun _ => 0))
    [successOf 1 1000000, failureOf] (fun _ => rfl) (by
      intro id
      have : callsFor id [successOf 1 1000000, failureOf] ≤ 2 := List.countP_le_length _
      omega)
  refine ⟨w', hrun, ?_⟩
  have hw : (World.initial (fun _ => 0)).UpdateAll [successOf 1 1000000, failureOf] =
      some w' := hrun
  have hcalc : ((World.initial (fun _ => 0)).UpdateAll
      [successOf 1 1000000, failureOf]).bind
        (fun v => (v.cache.health "direct").map (fun h => (h.TotalExecutions, h.SuccessRate)))
      = some (2, F64.ofRatio 1 2) := by decide!
  rw [hw] at hcalc
  exact hcalc

/-! ## Scores of candidates with a success rate from 0 to 1 -/

namespace F64

theorem isNaN_round (s : Bool) (n d : Nat) : isNaN (round s n d) = false := by
  unfold round
  simp only []
  split <;> rfl

theorem isNaN_ofInt (z : Int) : isNaN (ofInt z) = false := isNaN_round _ _ _

theorem isNaN_neg {x : F64} (hx : isNaN x = false) : isNaN (neg x) = false := by
  cases x with
  | nan => cases hx
  | inf s => rfl
  | fin s m => rfl

theorem isNaN_fin_add (s : Bool) (m : Nat) {y : F64} (hy : isNaN y = false) :
    isNaN (add (fin s m) y) = false := by
  cases y with
  | nan => cases hy
  | inf t => rfl
  | fin t k =>
    simp only [add]
    split
    · rfl
    · exact isNaN_round _ _ _

theorem isNaN_add_fin {x : F64} (hx : isNaN x = false) (t : Bool) (k : Nat) :
    isNaN (add x (fin t k)) = false := by
  cases x with
  | nan => cases hx
  | inf s => rfl
  | fin s m =>
    simp only [add]
    split
    · rfl
    · exact isNaN_round _ _ _

theorem isNaN_mul_fin {x : F64} (hx : isNaN x = false) (t : Bool) {k : Nat} (hk : k ≠ 0) :
    isNaN (mul x (fin t k)) = false := by
  cases x with
  | nan => cases hx
  | inf s =>
    simp only [mul, if_neg hk]
    rfl
  | fin s m => exact isNaN_round _ _ _

theorem isNaN_div_fin {x : F64} (hx : isNaN x = false) (t : Bool) {k : Nat} (hk : k ≠ 0) :
    isNaN (div x (fin t k)) = false := by
  cases x with
  | nan => cases hx
  | inf s => rfl
  | fin s m =>
    simp only [div, if_neg hk]
    exact isNaN_round _ _ _

theorem ofInt_pos_small {z : Int} (h0 : 0 < z) (h1 : z < 2 ^ 53) :
    ∃ k, ofInt z = fin false k ∧ k ≠ 0 := by
  refine ⟨z.toNat * one, ofInt_of_nonneg (le_of_lt h0) h1, ?_⟩
  have : 0 < z.toNat := by omega
  exact Nat.mul_ne_zero (by omega) (Nat.pos_iff_ne_zero.mp one_pos)

theorem isNaN_of_le_right {x y : F64} (h : le x y = true) : isNaN y = false := by
  cases x <;> cases y <;> simp_all [le, isNaN]

end F64

/-- The score `ScoreRoute` gives a route whose success rate is from 0 to 1 is
not a NaN, whatever its fee, time and hops and whatever the priority. -/
theorem MemoryCatalog.ScoreRoute_isNaN (c : MemoryCatalog) (r : RouteOption)
    (p : RoutePreferences) (h0 : F64.le (F64.ofInt 0) r.SuccessRate = true)
    (h1 : F64.le r.SuccessRate (F64.ofInt 1) = true) :
    F64.isNaN (c.ScoreRoute r p) = false := by
  obtain ⟨s, k, hk, -, -⟩ := F64.successTerm h0 h1
  have hsr : F64.isNaN r.SuccessRate = false := F64.isNaN_of_le_right h0
  obtain ⟨k100, h100, -⟩ := F64.ofInt_pos_small (show (0 : Int) < 100 by decide) (by decide)
  obtain ⟨k50, h50, hk50⟩ := F64.ofInt_pos_small (show (0 : Int) < 50 by decide) (by decide)
  obtain ⟨k10, h10, hk10⟩ := F64.ofInt_pos_small (show (0 : Int) < 10 by decide) (by decide)
  obtain ⟨k5, h5, hk5⟩ := F64.ofInt_pos_small (show (0 : Int) < 5 by decide) (by decide)
  obtain ⟨k2, h2, hk2⟩ := F64.ofInt_pos_small (show (0 : Int) < 2 by decide) (by decide)
  unfold MemoryCatalog.ScoreRoute
  simp only []
  rw [hk]
  apply F64.isNaN_add_fin
  rw [h100]
  split_ifs
  · rw [h10]
    exact F64.isNaN_fin_add _ _ (F64.isNaN_neg (F64.isNaN_div_fin (F64.isNaN_ofInt _) _ hk10))
  · rw [h2]
    exact F64.isNaN_fin_add _ _ (F64.isNaN_neg (F64.isNaN_mul_fin (F64.isNaN_ofInt _) _ hk2))
  · rw [h5]
    exact F64.isNaN_fin_add _ _ (F64.isNaN_mul_fin (F64.isNaN_ofInt _) _ hk5)
  · rw [h50]
    exact F64.isNaN_fin_add _ _ (F64.isNaN_mul_fin hsr _ hk50)

/-- The candidates of a call scored by `ScoreRoute` of a catalog, with success
rates from 0 to 1: none of their scores is a NaN. -/
theorem scoreOf_isNaN {ω : Type} (rt : Runtime ω) (s : Service ω) (intent : PaymentIntent)
    (w : ω) (routes : List RouteOption) (c : MemoryCatalog)
    (hscore : ∀ r ∈ routes, scoreOf rt s intent w r = c.ScoreRoute r intent.Preferences)
    (hrate : ∀ r ∈ routes, F64.le (F64.ofInt 0) r.SuccessRate = true ∧
      F64.le r.SuccessRate (F64.ofInt 1) = true) :
    ∀ r ∈ routes, F64.isNaN (scoreOf rt s intent w r) = false := by
  intro r hr
  rw [hscore r hr]
  exact MemoryCatalog.ScoreRoute_isNaN c r _ (hrate r hr).1 (hrate r hr).2

/-- The first route of the ranking is a candidate with its score filled in;
when no score is a NaN its score is greater than or equal to the score of
every candidate, and a candidate whose score is greater than that of every
other candidate is the first route of the ranking. -/
theorem ranked_head_best {ω : Type} (rt : Runtime ω) (s : Service ω)
    (intent : PaymentIntent) (w : ω) (routes : List RouteOption)
    (hS : SortContract rt.sortSlice)
    (hlist : (listed rt s intent w).1 = (routes, none))
    (top : RouteOption) (rest : List RouteOption) (hr : ranked rt s intent w = top :: rest) :
    (∃ r ∈ routes, top = { r with Score := scoreOf rt s intent w r }) ∧
    ((∀ r ∈ routes, F64.isNaN (scoreOf rt s intent w r) = false) →
      (∀ r ∈ routes, F64.ge top.Score (scoreOf rt s intent w r) = true) ∧
      (∀ r ∈ routes,
        (∀ r' ∈ routes, r' ≠ r →
          F64.gt (scoreOf rt s intent w r) (scoreOf rt s intent w r') = true) →
        top = { r with Score := scoreOf rt s intent w r })) := by
  have hroutes : (listed rt s intent w).1.1 = routes := by rw [hlist]
  have hp := ranked_perm rt s intent w hS
  have hmem_scored : ∀ a, a ∈ scored rt s intent w ↔
      ∃ r ∈ routes, { r with Score := scoreOf rt s intent w r } = a := by
    intro a
    unfold scored
    rw [hroutes]
    exact List.mem_map
  refine ⟨?_, fun hnan => ⟨?_, ?_⟩⟩
  · have htop : top ∈ scored rt s intent w :=
      hp.subset (by rw [hr]; exact List.mem_cons_self _ _)
    obtain ⟨r, hrm, hreq⟩ := (hmem_scored _).mp htop
    exact ⟨r, hrm, hreq.symm⟩
  · intro r hrm
    have hnan' : ∀ r ∈ (listed rt s intent w).1.1,
        F64.isNaN (scoreOf rt s intent w r) = false := by rw [hroutes]; exact hnan
    have hsorted := ranked_sorted rt s intent w hS hnan'
    rw [hr] at hsorted
    have hin : ({ r with Score := scoreOf rt s intent w r } : RouteOption) ∈ top :: rest := by
      rw [← hr]
      exact hp.symm.subset ((hmem_scored _).mpr ⟨r, hrm, rfl⟩)
    rcases List.mem_cons.mp hin with h | h
    · rw [← h]
      exact F64.le_refl_of_not_nan (hnan r hrm)
    · exact (List.pairwise_cons.mp hsorted).1 _ h
  · intro r hrm hbest
    have hnan' : ∀ r ∈ (listed rt s intent w).1.1,
        F64.isNaN (scoreOf rt s intent w r) = false := by rw [hroutes]; exact hnan
    refine ranked_head_strict_best rt s intent w hS (scored_noNaN rt s intent w hnan')
      { r with Score := scoreOf rt s intent w r } ((hmem_scored _).mpr ⟨r, hrm, rfl⟩) ?_
      top rest hr
    intro a ha hne
    obtain ⟨r', hr', rfl⟩ := (hmem_scored a).mp ha
    have hrr : r' ≠ r := by
      intro h
      subst h
      exact hne rfl
    exact hbest r' hr' hrr

/-- C4: on a cache miss with a non-empty list of candidates, the first route
of the ranking is a candidate with its score filled in, and when the
candidates are scored by `ScoreRoute` of the catalog and have success rates
from 0 to 1 it is the top-scored candidate: its score is greater than or
equal to the score of every candidate, and it is the candidate that outscores
every other one when there is one. `FindRoute` fails with `ErrFeeExceedsMax`
exactly when `MaxFee > 0` and the fee of that route exceeds `MaxFee`,
whatever the fees of the candidates ranked below it (with `MaxFee = 0` it
does not fail so); when it fails so it has not called `CacheRoute`, the world
is as `ListRoutes` and the ranking left it, and with the in-memory cache a
failed `FindRoute` leaves the cache as it was. -/
theorem C4_fee_exceeds_max {ω : Type} (rt : Runtime ω) (s : Service ω)
    (intent : PaymentIntent) (w : ω) (routes : List RouteOption)
    (hS : SortContract rt.sortSlice) (hmiss : isHit (probed rt s intent w).1 = false)
    (hlist : (listed rt s intent w).1 = (routes, none)) (hne : routes ≠ []) :
    (∃ top rest, ranked rt s intent w = top :: rest ∧
      (∃ r ∈ routes, top = { r with Score := scoreOf rt s intent w r }) ∧
      (∀ c : MemoryCatalog,
        (∀ r ∈ routes, scoreOf rt s intent w r = c.ScoreRoute r intent.Preferences) →
        (∀ r ∈ routes, F64.le (F64.ofInt 0) r.SuccessRate = true ∧
          F64.le r.SuccessRate (F64.ofInt 1) = true) →
        (∀ r ∈ routes, F64.ge top.Score (c.ScoreRoute r intent.Preferences) = true) ∧
        (∀ r ∈ routes,
          (∀ r' ∈ routes, r' ≠ r →
            F64.gt (c.ScoreRoute r intent.Preferences) (c.ScoreRoute r' intent.Preferences)
              = true) →
          top = { r with Score := c.ScoreRoute r intent.Preferences })) ∧
      ((Service.FindRoute rt s intent w).result = FindResult.fail Err.ErrFeeExceedsMax ↔
        (intent.Preferences.MaxFee > 0 ∧ top.EstimatedFee > intent.Preferences.MaxFee)) ∧
      (intent.Preferences.MaxFee = 0 →
        (Service.FindRoute rt s intent w).result ≠ FindResult.fail Err.ErrFeeExceedsMax) ∧
      ((Service.FindRoute rt s intent w).result = FindResult.fail Err.ErrFeeExceedsMax →
        (∀ a b r, Call.CacheRoute a b r ∉ (Service.FindRoute rt s intent w).calls) ∧
        (Service.FindRoute rt s intent w).world =
          s.catalogPort.writeBack intent.From intent.To (ranked rt s intent w)
            (listed rt s intent w).2)) ∧
    (∀ (sortSlice : SliceSort) (intent' : PaymentIntent) (w' : World),
      (Service.FindRoute (World.runtime sortSlice) World.service intent' w').result =
          FindResult.fail Err.ErrFeeExceedsMax →
        (Service.FindRoute (World.runtime sortSlice) World.service intent' w').world.cache =
          w'.cache) := by
  obtain ⟨⟨top, rest, hr, hiff, hfail⟩, hworld⟩ :=
    FindRoute_fee_bound rt s intent w routes hS hmiss hlist hne
  obtain ⟨hcand, hbest⟩ := ranked_head_best rt s intent w routes hS hlist top rest hr
  refine ⟨⟨top, rest, hr, hcand, ?_, hiff, ?_, hfail⟩, hworld⟩
  · intro c hscore hrate
    obtain ⟨hge, hstrict⟩ := hbest (scoreOf_isNaN rt s intent w routes c hscore hrate)
    constructor
    · intro r' hr'
      rw [← hscore r' hr']
      exact hge r' hr'
    · intro r' hr' hb
      rw [← hscore r' hr']
      refine hstrict r' hr' ?_
      intro r'' hr'' hne'
      rw [hscore r' hr', hscore r'' hr'']
      exact hb r'' hr'' hne'
  · intro hzero hres
    have := (hiff.mp hres).1
    omega

/-- C4, witness: at start-up, priority `speed` ranks the route of fee 5 first,
its score being the greatest; with `MaxFee = 3` the call fails although the
other route has fee 2, and the cache is left as it was. -/
theorem C4_witness :
    (Service.FindRoute (World.runtime insertionSort_func) World.service
        (intentFor "WALLET_A" "WALLET_B" "speed" 3) (World.initial (fun _ => 0))).result =
      FindResult.fail Err.ErrFeeExceedsMax ∧
    (MemoryCatalog.defaultRoutes.map (fun r => decide (r.EstimatedFee ≤ 3))) = [true, false] ∧
    (∃ top rest, ranked (World.runtime insertionSort_func) World.service
        (intentFor "WALLET_A" "WALLET_B" "speed" 3) (World.initial (fun _ => 0)) = top :: rest ∧
      top.EstimatedFee = 5 ∧
      ∀ r ∈ MemoryCatalog.defaultRoutes, F64.ge top.Score
        (MemoryCatalog.NewMemoryCatalog.ScoreRoute r
          (intentFor "WALLET_A" "WALLET_B" "speed" 3).Preferences) = true) ∧
    (Service.FindRoute (World.runtime insertionSort_func) World.service
        (intentFor "WALLET_A" "WALLET_B" "speed" 3)
        (World.initial (fun _ => 0))).world.cache = (World.initial (fun _ => 0)).cache := by
  have h := C4_fee_exceeds_max (World.runtime insertionSort_func) World.service
    (intentFor "WALLET_A" "WALLET_B" "speed" 3) (World.initial (fun _ => 0))
    MemoryCatalog.defaultRoutes insertionSort_func_contract
    (by decide!) (by decide!) (by decide!)
  obtain ⟨⟨top, rest, hr, _, hbest, hiff, _, _⟩, hworld⟩ := h
  have hge := (hbest MemoryCatalog.NewMemoryCatalog (fun _ _ => by
      simp only [scoreOf, World.service, World.catalogPort, MemoryCatalog.ScoreRoute])
    (by decide!)).1
  have htop : top.EstimatedFee = 5 := by
    have : (ranked (World.runtime insertionSort_func) World.service
        (intentFor "WALLET_A" "WALLET_B" "speed" 3) (World.initial (fun _ => 0))).head?.map
          (fun r => r.EstimatedFee) = some 5 := by decide!
    rw [hr] at this
    simpa using this
  have hres := hiff.mpr ⟨by decide, by rw [htop]; decide⟩
  exact ⟨hres, by decide!, ⟨top, rest, hr, htop, hge⟩, hworld _ _ _ hres⟩

/-- C7: on a cache miss, the alternatives of a successful `FindRoute` are the
candidates at ranks 2 to `min(n, 4)` of the ranking, in that order: the
ranking is a permutation of the scored candidates, it is the selected route
followed by the others, and the alternatives are the first 3 of the others,
`min(n - 1, 3)` of them; and when the candidates are scored by `ScoreRoute` of
the catalog and have success rates from 0 to 1, the ranking is in descending
order of score and each alternative has a score no greater than the selected
route's. -/
theorem C7_alternatives {ω : Type} (rt : Runtime ω) (s : Service ω)
    (intent : PaymentIntent) (w : ω) (routes : List RouteOption) (d : RouteDecision)
    (hS : SortContract rt.sortSlice) (hmiss : isHit (probed rt s intent w).1 = false)
    (hlist : (listed rt s intent w).1 = (routes, none))
    (hok : (Service.FindRoute rt s intent w).result = FindResult.ok d) :
    ∃ rest, ranked rt s intent w = d.SelectedRoute :: rest ∧
      (ranked rt s intent w).Perm
        (routes.map (fun r => { r with Score := scoreOf rt s intent w r })) ∧
      d.Alternatives = rest.take 3 ∧
      d.Alternatives.length = Nat.min (routes.length - 1) 3 ∧
      ∀ c : MemoryCatalog,
        (∀ r ∈ routes, scoreOf rt s intent w r = c.ScoreRoute r intent.Preferences) →
        (∀ r ∈ routes, F64.le (F64.ofInt 0) r.SuccessRate = true ∧
          F64.le r.SuccessRate (F64.ofInt 1) = true) →
        (ranked rt s intent w).Pairwise (fun a b => F64.ge a.Score b.Score = true) ∧
        ∀ a ∈ d.Alternatives, F64.le a.Score d.SelectedRoute.Score = true := by
  obtain ⟨rest, hr, hp, halt, hlen, hsorted⟩ :=
    FindRoute_alternatives rt s intent w routes d hS hmiss hlist hok
  have hsc : scored rt s intent w =
      routes.map (fun r => { r with Score := scoreOf rt s intent w r }) := by
    unfold scored
    rw [hlist]
  refine ⟨rest, hr, by rw [← hsc]; exact hp, halt, hlen, ?_⟩
  intro c hscore hrate
  exact hsorted (scoreOf_isNaN rt s intent w routes c hscore hrate)

/-- C7, witness: the call for priority `speed` at start-up, 2 candidates and
1 alternative. -/
theorem C7_witness :
    ∃ d, (Service.FindRoute (World.runtime insertionSort_func) World.service
        (intentFor "WALLET_A" "WALLET_B" "speed" 0) (World.initial (fun _ => 0))).result =
          FindResult.ok d ∧
      d.Alternatives.length = 1 ∧
      ∀ a ∈ d.Alternatives, F64.le a.Score d.SelectedRoute.Score = true := by
  obtain ⟨d, hd⟩ := startup_speed_ok
  obtain ⟨rest, _, _, _, hlen, hle⟩ := C7_alternatives (World.runtime insertionSort_func)
    World.service (intentFor "WALLET_A" "WALLET_B" "speed" 0) (World.initial (fun _ => 0))
    MemoryCatalog.defaultRoutes d insertionSort_func_contract (by decide!) (by decide!) hd
  exact ⟨d, hd, hlen, (hle MemoryCatalog.NewMemoryCatalog (fun _ _ => by
      simp only [scoreOf, World.service, World.catalogPort, MemoryCatalog.ScoreRoute])
    (by decide!)).2⟩

/-! ## `UpdateMetrics` when no `int64` operation overflows -/

theorem tdiv_in_range {x n : Int} (hn : 0 < n) (hlo : -(2 : Int) ^ 63 ≤ x)
    (hhi : x < (2 : Int) ^ 63) :
    -(2 : Int) ^ 63 ≤ Int.tdiv x n ∧ Int.tdiv x n < (2 : Int) ^ 63 := by
  rcases le_or_lt 0 x with hx | hx
  · rw [Int.tdiv_eq_ediv hx (le_of_lt hn)]
    have hq0 : 0 ≤ x / n := Int.ediv_nonneg hx (le_of_lt hn)
    have hq1 : x / n ≤ x := Int.ediv_le_self _ hx
    constructor <;> omega
  · have hy : 0 ≤ -x := by omega
    have hneg : Int.tdiv x n = -(Int.tdiv (-x) n) := by
      rw [Int.neg_tdiv, neg_neg]
    rw [hneg, Int.tdiv_eq_ediv hy (le_of_lt hn)]
    have hq0 : 0 ≤ (-x) / n := Int.ediv_nonneg hy (le_of_lt hn)
    have hq1 : (-x) / n ≤ -x := Int.ediv_le_self _ hy
    constructor <;> omega

/-- The update of an average in `int64` when neither the product nor the sum
overflows: the truncated quotient of the integers. -/
theorem average_exact {avg te x : Int} (h0 : 0 ≤ te) (h1 : te + 1 < 2 ^ 63)
    (hx : 0 ≤ x) (hprod : -(2 : Int) ^ 63 ≤ avg * te) (hsum : avg * te + x < 2 ^ 63) :
    wrap64 (Int.tdiv (wrap64 (wrap64 (avg * wrap64 (wrap64 (te + 1) - 1)) + x))
      (wrap64 (te + 1))) = Int.tdiv (avg * te + x) (te + 1) := by
  have hn : wrap64 (te + 1) = te + 1 := wrap64_nonneg_lt (by omega) h1
  have hte : wrap64 (te + 1 - 1) = te := by
    rw [show te + 1 - 1 = te by ring]
    exact wrap64_nonneg_lt h0 (by omega)
  have hp : wrap64 (avg * te) = avg * te := wrap64_of_range hprod (by omega)
  have hs : wrap64 (avg * te + x) = avg * te + x := wrap64_of_range (by omega) hsum
  rw [hn, hte, hp, hs]
  obtain ⟨hq0, hq1⟩ := tdiv_in_range (show 0 < te + 1 by omega)
    (show -(2 : Int) ^ 63 ≤ avg * te + x by omega) hsum
  exact wrap64_of_range hq0 hq1

/-- C16, counterexample: at start-up, a success of the route `direct` with fee
`2^62` and a failure leave its entry with 2 executions and the average fee
`2^62`; a success with fee 1 then leaves it with 3 executions and the average
fee -3074457345618258602, while `(2^62 * (3 - 1) + 1) / 3` is
3074457345618258603: the `int64` product `2^62 * 2` has wrapped around. -/
theorem C16_counterexample :
    (((World.initial (fun _ => 0)).UpdateAll [successOf (2 ^ 62) 0, failureOf]).bind
      (fun w => w.cache.health "direct")).map
        (fun h => (h.TotalExecutions, h.AverageFee)) = some (2, 2 ^ 62) ∧
    (((World.initial (fun _ => 0)).UpdateAll
        [successOf (2 ^ 62) 0, failureOf, successOf 1 0]).bind
      (fun w => w.cache.health "direct")).map
        (fun h => (h.TotalExecutions, h.AverageFee)) = some (3, -3074457345618258602) ∧
    ((cacheWithHealth (healthAfter 2 (2 ^ 62) 0)).UpdateMetrics (fun _ => 0)
        (successOf 1 0)).cache.health "direct" =
      some (healthAfter 3 (-3074457345618258602) 0) ∧
    Int.tdiv ((2 : Int) ^ 62 * (3 - 1) + 1) 3 = 3074457345618258603 := by
  refine ⟨by decide!, by decide!, by decide!, by decide⟩

/-- C16, as amended: for every cache and metric, with `old` the entry of the
route (the one created with success rate 0.99 and zero averages and count if
the route has none) and `n = old.TotalExecutions + 1`, when the count is not
negative and no `int64` operation of the update overflows (`n < 2^63`, and
for an average that is updated the product `old * (n - 1)` and its sum with
the new value are within the range of `int64`): `UpdateMetrics` returns; it
leaves the route cache and the entries of the other routes as they were; the
entry of the route has `n` executions, the success rate `(old*(n-1) + 1)/n`
on a success and `(old*(n-1))/n` on a failure (in `float64`), the average fee
`(old*(n-1) + fee)/n` on a success with a positive fee and the old one
otherwise, and the average time likewise from the whole milliseconds of the
time (the quotients of the integers, truncated). -/
theorem C16_UpdateMetrics (c : MemoryCache) (now : Nat → Int) (m : RouteMetrics)
    (old : RouteHealth) (hold : c.entryFor now m.RouteID = old)
    (h0 : 0 ≤ old.TotalExecutions) (h1 : old.TotalExecutions + 1 < 2 ^ 63)
    (hfee : m.Success = true → m.ActualFee > 0 →
      -(2 : Int) ^ 63 ≤ old.AverageFee * old.TotalExecutions ∧
      old.AverageFee * old.TotalExecutions + m.ActualFee < 2 ^ 63)
    (htime : m.Success = true → m.ActualTime > 0 →
      -(2 : Int) ^ 63 ≤ old.AverageTime * old.TotalExecutions ∧
      old.AverageTime * old.TotalExecutions + Milliseconds m.ActualTime < 2 ^ 63) :
    (c.health m.RouteID = none →
      old.SuccessRate = F64.ofRatio 99 100 ∧ old.AverageFee = 0 ∧ old.AverageTime = 0 ∧
        old.TotalExecutions = 0) ∧
    (∀ e, c.health m.RouteID = some e → old = e) ∧
    (c.UpdateMetrics now m).panicked = false ∧
    (c.UpdateMetrics now m).cache.routes = c.routes ∧
    (∀ id, id ≠ m.RouteID → (c.UpdateMetrics now m).cache.health id = c.health id) ∧
    ∃ h, (c.UpdateMetrics now m).cache.health m.RouteID = some h ∧
      h.RouteID = old.RouteID ∧ h.IsActive = old.IsActive ∧
      h.LastExecuted = m.ExecutedAt ∧
      h.TotalExecutions = old.TotalExecutions + 1 ∧
      h.SuccessRate =
        (if m.Success = true then
          F64.div (F64.add (F64.mul old.SuccessRate (F64.ofInt old.TotalExecutions))
            (F64.ofInt 1)) (F64.ofInt (old.TotalExecutions + 1))
         else
          F64.div (F64.mul old.SuccessRate (F64.ofInt old.TotalExecutions))
            (F64.ofInt (old.TotalExecutions + 1))) ∧
      h.AverageFee =
        (if m.Success = true ∧ m.ActualFee > 0 then
          Int.tdiv (old.AverageFee * old.TotalExecutions + m.ActualFee)
            (old.TotalExecutions + 1)
         else old.AverageFee) ∧
      h.AverageTime =
        (if m.Success = true ∧ m.ActualTime > 0 then
          Int.tdiv (old.AverageTime * old.TotalExecutions + Milliseconds m.ActualTime)
            (old.TotalExecutions + 1)
         else old.AverageTime) := by
  obtain ⟨hr, hframe, hpanic, hentry⟩ := MemoryCache.UpdateMetrics_spec c now m
  rw [hold] at hpanic hentry
  have hn : wrap64 (old.TotalExecutions + 1) = old.TotalExecutions + 1 :=
    wrap64_nonneg_lt (by omega) h1
  have hnp : (c.UpdateMetrics now m).panicked = false := by
    cases hp : (c.UpdateMetrics now m).panicked with
    | false => rfl
    | true =>
      have := (hpanic.mp hp).2.1
      rw [hn] at this
      omega
  obtain ⟨h, hh, hid, hact, hte, hsr, hf, ht, hlast, -⟩ := hentry hnp
  have hpred : wrap64 (h.TotalExecutions - 1) = old.TotalExecutions := by
    rw [hte, hn, show old.TotalExecutions + 1 - 1 = old.TotalExecutions by ring]
    exact wrap64_nonneg_lt h0 (by omega)
  refine ⟨?_, ?_, hnp, hr, hframe, h, hh, hid, hact, hlast, by rw [hte, hn], ?_, ?_, ?_⟩
  · intro hnone
    rw [← hold]
    simp [MemoryCache.entryFor, hnone]
  · intro e he
    rw [← hold]
    exact MemoryCache.entryFor_some he _
  · rw [hsr, hpred, hte, hn]
  · rw [hf]
    by_cases hc : m.Success = true ∧ m.ActualFee > 0
    · rw [if_pos hc, if_pos hc, hte]
      obtain ⟨hp, hs⟩ := hfee hc.1 hc.2
      exact average_exact h0 h1 (le_of_lt hc.2) hp hs
    · rw [if_neg hc, if_neg hc]
  · rw [ht]
    by_cases hc : m.Success = true ∧ m.ActualTime > 0
    · rw [if_pos hc, if_pos hc, hte]
      obtain ⟨hp, hs⟩ := htime hc.1 hc.2
      exact average_exact h0 h1 (Milliseconds_nonneg (le_of_lt hc.2)) hp hs
    · rw [if_neg hc, if_neg hc]

/-- C16, witness: an entry with 2 executions, average fee 4 and average time
100 ms, after a success with fee 7 and time 250 ms: 3 executions, average fee
`(4*2 + 7)/3 = 5`, average time `(100*2 + 250)/3 = 150`, success rate 1.0; the
route cache is as it was. -/
theorem C16_witness :
    ((cacheWithHealth (healthAfter 2 4 100)).UpdateMetrics (fun _ => 0)
        (successOf 7 250000000)).panicked = false ∧
    ((cacheWithHealth (healthAfter 2 4 100)).UpdateMetrics (fun _ => 0)
        (successOf 7 250000000)).cache.routes = (cacheWithHealth (healthAfter 2 4 100)).routes ∧
    ((cacheWithHealth (healthAfter 2 4 100)).UpdateMetrics (fun _ => 0)
        (successOf 7 250000000)).cache.health "direct" = some (healthAfter 3 5 150) :=
  have h := C16_UpdateMetrics (cacheWithHealth (healthAfter 2 4 100)) (fun _ => 0)
    (successOf 7 250000000) (healthAfter 2 4 100) (by decide!) (by decide) (by decide)
    (fun _ _ => by decide) (fun _ _ => by decide)
  ⟨h.2.2.1, h.2.2.2.1, by decide!⟩

/-! ## The success rate after a run of successes and one failure -/

/-- The quotient of the counts `k` and `k + 1` in `float64`, both held
exactly, is the `float64` nearest to `k / (k + 1)`. -/
theorem F64.div_ofInt_small {k : Nat} (hk : (k : Int) + 1 < 2 ^ 53) :
    F64.div (F64.ofInt (k : Int)) (F64.ofInt ((k : Int) + 1)) = F64.ofRatio k (k + 1) := by
  rw [F64.ofInt_of_nonneg (Int.ofNat_nonneg k) (by omega), F64.ofInt_of_nonneg (by omega) hk]
  have h1 : ((k : Int)).toNat = k := by omega
  have h2 : ((k : Int) + 1).toNat = k + 1 := by omega
  rw [h1, h2]
  exact F64.div_small k (Nat.succ_pos k)

/-- C18: for `k` successes followed by one failure on a route with no entry,
with `k + 1 < 2^53` (the range in which `float64` holds the counts exactly):
every call returns, and the entry has `k + 1` executions and, as its success
rate, exactly the `float64` quotient `float64(k) / float64(k + 1)`; this is
the `float64` nearest to `k / (k + 1)`, a finite value within `2^-54` of it
(with `M` its magnitude in units of `2^-1074`, `M * (k + 1)` and
`k * 2^1074` differ by at most `(k + 1) * 2^1020`). -/
theorem C18_rate_after_failure (w : World) (id : String) (ms : List RouteMetrics)
    (m : RouteMetrics) (hfresh : w.cache.health id = none)
    (hall : ∀ x ∈ ms, x.RouteID = id ∧ x.Success = true)
    (hm : m.RouteID = id ∧ m.Success = false)
    (hlen : (ms.length : Int) + 1 < 2 ^ 53) :
    ∃ w' h M, w.UpdateAll (ms ++ [m]) = some w' ∧ w'.cache.health id = some h ∧
      h.TotalExecutions = (ms.length : Int) + 1 ∧
      h.SuccessRate = F64.div (F64.ofInt (ms.length : Int)) (F64.ofInt ((ms.length : Int) + 1)) ∧
      h.SuccessRate = F64.ofRatio ms.length (ms.length + 1) ∧
      h.SuccessRate = F64.fin false M ∧
      M * (ms.length + 1) ≤ ms.length * F64.one + (ms.length + 1) * 2 ^ 1020 ∧
      ms.length * F64.one ≤ M * (ms.length + 1) + (ms.length + 1) * 2 ^ 1020 := by
  obtain ⟨w1, hrun, -, -, hnil, hcons⟩ :=
    World.UpdateAll_successes w id hfresh ms hall (by omega)
  have hold : ∃ old, w1.cache.entryFor (fun i => w1.clock (w1.ticks + i)) m.RouteID = old ∧
      old.TotalExecutions = (ms.length : Int) ∧
      (old.SuccessRate = F64.ofInt 1 ∨
        (old.TotalExecutions = 0 ∧ old.SuccessRate = F64.ofRatio 99 100)) := by
    by_cases hms : ms = []
    · subst hms
      have hnone : w1.cache.health m.RouteID = none := by rw [hm.1]; exact hnil rfl
      refine ⟨_, rfl, ?_, ?_⟩
      · simp [MemoryCache.entryFor, hnone]
      · right
        simp [MemoryCache.entryFor, hnone]
    · obtain ⟨h, hh, hsr, hte, -, -⟩ := hcons hms
      exact ⟨h, MemoryCache.entryFor_some (by rw [hm.1]; exact hh) _, hte, Or.inl hsr⟩
  obtain ⟨old, hent, hte, hsr⟩ := hold
  have h0 : 0 ≤ old.TotalExecutions := by rw [hte]; exact Int.ofNat_nonneg _
  obtain ⟨w2, h2, hcall, -, -, hh2, hte2, hsr2, -, -⟩ :=
    World.UpdateMetrics_step w1 m old hent h0 (by omega)
  have hrun2 : w.UpdateAll (ms ++ [m]) = some w2 := by
    rw [World.UpdateAll_append, hrun]
    show World.UpdateAll w1 [m] = some w2
    simp only [World.UpdateAll, hcall]
  have hrate : h2.SuccessRate = F64.ofRatio ms.length (ms.length + 1) := by
    rw [hsr2, if_neg (by simp [hm.2]), F64.successRate_failure h0 (by omega) hsr, hte]
    rfl
  obtain ⟨M, hM, e1, e2⟩ := F64.ofRatio_succ_err ms.length
  exact ⟨w2, h2, M, hrun2, by rw [← hm.1]; exact hh2, by rw [hte2, hte],
    hrate.trans (F64.div_ofInt_small hlen).symm, hrate, hrate.trans hM, e1, e2⟩

/-- C18, witness: at start-up, one success and one failure of the route
`direct` leave a success rate of 0.5 and 2 executions. -/
theorem C18_witness :
    ∃ w' h, (World.initial (fun _ => 0)).UpdateAll ([successOf 1 1000000] ++ [failureOf])
        = some w' ∧
      w'.cache.health "direct" = some h ∧ h.TotalExecutions = 2 ∧
      h.SuccessRate = F64.div (F64.ofInt 1) (F64.ofInt 2) ∧
      h.SuccessRate = F64.ofRatio 1 2 := by
  obtain ⟨w', h, M, hrun, hh, hte, hdiv, hsr, -⟩ :=
    C18_rate_after_failure (World.initial (fun _ => 0)) "direct" [successOf 1 1000000]
      failureOf rfl (by decide) (by decide) (by decide)
  exact ⟨w', h, hrun, hh, hte, hdiv, hsr⟩

end Turboroute
